import Mathlib

/-!
Shallow embedding of the match-3 engine of this repository
(src/src/game/Grid.ts, src/src/game/Game.ts, and the Gem class).

Conventions of the embedding:
* A `Gem` is the logical content of the source's rendering-object gem:
  its `type`, its `special` kind, and its mutable grid coordinates
  `gridX` (column) and `gridY` (row).
* The grid is a row-major list of rows, each row a list of
  `Option Gem` cells (`null` cells become `none`).
* JavaScript `Set` objects (insertion-ordered, duplicate-free) are
  modelled as `List`s extended with `pushSet`, which appends an element
  only when it is not already present; `Array.from(set)` is then the
  identity, preserving the iteration order of the source.
* `Math.floor(Math.random() * gemTypes)` is modelled by drawing the next
  value of an explicit stream and reducing it modulo `gemTypes`
  (the draw is an arbitrary natural, the reduction keeps it in range,
  exactly the range the source expression produces).
* Loops whose index strictly increases are written with explicit fuel;
  the fuel chosen is always at least the number of iterations the
  source loop performs, so the embedding computes the same result.
-/

inductive Special
  | snone
  | sbomb
  | splus
deriving DecidableEq, Repr

structure Gem where
  type : Nat
  gridX : Nat
  gridY : Nat
  special : Special
deriving DecidableEq, Repr

def Gem.isBomb (g : Gem) : Bool := g.special = Special.sbomb

def Gem.isPlus (g : Gem) : Bool := g.special = Special.splus

/-- Default gem used only where the source indexes an array position that
is provably in range (`group[Math.floor(group.length / 2)]`). -/
def dGem : Gem := { type := 0, gridX := 0, gridY := 0, special := Special.snone }

structure GridConfig where
  rows : Nat
  cols : Nat
  gemTypes : Nat
deriving DecidableEq, Repr

structure Grid where
  config : GridConfig
  gems : List (List (Option Gem))
deriving DecidableEq, Repr

/-- Raw cell access `this.gems[row][col]` (out-of-range list access
yields `none`, matching the transient in-bounds use in the source). -/
def Grid.cell (g : Grid) (r c : Nat) : Option Gem :=
  (g.gems.getD r []).getD c none

/-- `getGemAt`: bounds-checked access; out-of-bounds returns `null`.
Coordinates are integers because callers probe negative neighbors. -/
def Grid.getGemAt (g : Grid) (r c : Int) : Option Gem :=
  if r < 0 ∨ (g.config.rows : Int) ≤ r ∨ c < 0 ∨ (g.config.cols : Int) ≤ c then
    none
  else
    g.cell r.toNat c.toNat

def Grid.setCell (g : Grid) (r c : Nat) (v : Option Gem) : Grid :=
  { g with gems := g.gems.set r ((g.gems.getD r []).set c v) }

/-- `createGemAt(row, col, type, special)`: constructs a gem carrying the
cell's coordinates and stores it at the cell. -/
def Grid.createGemAt (g : Grid) (row col ty : Nat) (special : Special) :
    Grid × Gem :=
  let gem : Gem := { type := ty, gridX := col, gridY := row, special := special }
  (g.setCell row col (some gem), gem)

/-- `swapGems(gem1, gem2)`: exchanges the two gems' cells (read from the
gems' own coordinates) and updates the gems' coordinates. -/
def Grid.swapGems (g : Grid) (gem1 gem2 : Gem) : Grid × Gem × Gem :=
  let r1 := gem1.gridY
  let c1 := gem1.gridX
  let r2 := gem2.gridY
  let c2 := gem2.gridX
  let gem1' : Gem := { gem1 with gridX := c2, gridY := r2 }
  let gem2' : Gem := { gem2 with gridX := c1, gridY := r1 }
  (((g.setCell r1 c1 (some gem2')).setCell r2 c2 (some gem1')), gem1', gem2')

/-- `removeGems`: clears each listed gem's cell. -/
def Grid.removeGems (g : Grid) (l : List Gem) : Grid :=
  l.foldl (fun acc gem => acc.setCell gem.gridY gem.gridX none) g

/-- `areAdjacent`: Manhattan-distance-one test on grid coordinates. -/
def Grid.areAdjacent (g1 g2 : Gem) : Bool :=
  let dx := ((g1.gridX : Int) - (g2.gridX : Int)).natAbs
  let dy := ((g1.gridY : Int) - (g2.gridY : Int)).natAbs
  (dx = 1 ∧ dy = 0) ∨ (dx = 0 ∧ dy = 1)

/-- Leftward arm of `wouldCreateMatch`: counts consecutive cells of the
given type at columns `col-1, col-2, ...` (the argument is `col`). -/
def hCountLeft (g : Grid) (row ty : Nat) : Nat → Nat
  | 0 => 0
  | c + 1 =>
    match g.cell row c with
    | some gem => if gem.type = ty then hCountLeft g row ty c + 1 else 0
    | none => 0

/-- Rightward arm of `wouldCreateMatch`: counts consecutive cells of the
given type starting at column `c`, while `c < cols`; fuel bounds the walk. -/
def hCountRight (g : Grid) (row ty : Nat) : Nat → Nat → Nat
  | _, 0 => 0
  | c, fuel + 1 =>
    if c < g.config.cols then
      match g.cell row c with
      | some gem => if gem.type = ty then hCountRight g row ty (c + 1) fuel + 1 else 0
      | none => 0
    else 0

/-- Upward arm of the vertical check of `wouldCreateMatch`. -/
def vCountUp (g : Grid) (col ty : Nat) : Nat → Nat
  | 0 => 0
  | r + 1 =>
    match g.cell r col with
    | some gem => if gem.type = ty then vCountUp g col ty r + 1 else 0
    | none => 0

/-- Downward arm of the vertical check of `wouldCreateMatch`. -/
def vCountDown (g : Grid) (col ty : Nat) : Nat → Nat → Nat
  | _, 0 => 0
  | r, fuel + 1 =>
    if r < g.config.rows then
      match g.cell r col with
      | some gem => if gem.type = ty then vCountDown g col ty (r + 1) fuel + 1 else 0
      | none => 0
    else 0

/-- `wouldCreateMatch(row, col, type)`: would placing a gem of this type
complete a horizontal or vertical run of length at least 3? -/
def Grid.wouldCreateMatch (g : Grid) (row col ty : Nat) : Bool :=
  let hc := 1 + hCountLeft g row ty col + hCountRight g row ty (col + 1) g.config.cols
  if 3 ≤ hc then true
  else
    let vc := 1 + vCountUp g col ty row + vCountDown g col ty (row + 1) g.config.rows
    3 ≤ vc

/-- Extension of a found horizontal run: collects gems of the run type
from column `c` rightward while they match (`for c = col+3; ...`). -/
def hExtend (g : Grid) (row ty : Nat) : Nat → Nat → List Gem
  | _, 0 => []
  | c, fuel + 1 =>
    if c < g.config.cols then
      match g.cell row c with
      | some gem =>
        if gem.type = ty then gem :: hExtend g row ty (c + 1) fuel else []
      | none => []
    else []

def vExtend (g : Grid) (col ty : Nat) : Nat → Nat → List Gem
  | _, 0 => []
  | r, fuel + 1 =>
    if r < g.config.rows then
      match g.cell r col with
      | some gem =>
        if gem.type = ty then gem :: vExtend g col ty (r + 1) fuel else []
      | none => []
    else []

/-- Horizontal scan of one row of `findMatches`: greedy left-to-right,
a run of 3 is extended maximally and the scan skips past it.  The column
index strictly increases, so fuel `cols` covers every iteration of the
source loop. -/
def scanRowAux (g : Grid) (row : Nat) : Nat → Nat → List (List Gem)
  | _, 0 => []
  | col, fuel + 1 =>
    if col + 2 < g.config.cols then
      match g.cell row col, g.cell row (col + 1), g.cell row (col + 2) with
      | some a, some b, some c3 =>
        if a.type = b.type ∧ b.type = c3.type then
          let grp := [a, b, c3] ++ hExtend g row a.type (col + 3) g.config.cols
          grp :: scanRowAux g row (col + grp.length) fuel
        else
          scanRowAux g row (col + 1) fuel
      | _, _, _ => scanRowAux g row (col + 1) fuel
    else []

def scanColAux (g : Grid) (col : Nat) : Nat → Nat → List (List Gem)
  | _, 0 => []
  | row, fuel + 1 =>
    if row + 2 < g.config.rows then
      match g.cell row col, g.cell (row + 1) col, g.cell (row + 2) col with
      | some a, some b, some c3 =>
        if a.type = b.type ∧ b.type = c3.type then
          let grp := [a, b, c3] ++ vExtend g col a.type (row + 3) g.config.rows
          grp :: scanColAux g col (row + grp.length) fuel
        else
          scanColAux g col (row + 1) fuel
      | _, _, _ => scanColAux g col (row + 1) fuel
    else []

/-- `findMatches()`: all horizontal runs (rows in order) followed by all
vertical runs (columns in order). -/
def Grid.findMatches (g : Grid) : List (List Gem) :=
  ((List.range g.config.rows).map (fun row => scanRowAux g row 0 g.config.cols)).flatten
    ++ ((List.range g.config.cols).map (fun col => scanColAux g col 0 g.config.rows)).flatten

/-- Search of `applyGravity` for the nearest gem above an empty cell:
probes rows `row-1, row-2, ..., 0` (the argument is `row`). -/
def gravityFindAbove (g : Grid) (col : Nat) : Nat → Option (Nat × Gem)
  | 0 => none
  | r + 1 =>
    match g.cell r col with
    | some gem => some (r, gem)
    | none => gravityFindAbove g col r

/-- One cell of the bottom-up sweep of `applyGravity`. -/
def gravityStepCell (col : Nat) (acc : Grid × Bool) (row : Nat) : Grid × Bool :=
  match acc.1.cell row col with
  | some _ => acc
  | none =>
    match gravityFindAbove acc.1 col row with
    | none => acc
    | some rg =>
      let gem' : Gem := { rg.2 with gridX := col, gridY := row }
      (((acc.1.setCell row col (some gem')).setCell rg.1 col none), true)

/-- `applyGravity()`: per column, bottom-up, pull the nearest gem above
into each empty cell; returns whether anything moved. -/
def Grid.applyGravity (g : Grid) : Grid × Bool :=
  (List.range g.config.cols).foldl
    (fun acc col => ((List.range g.config.rows).reverse).foldl (gravityStepCell col) acc)
    (g, false)

/-- Random source: an explicit stream of naturals with a cursor.  Each
draw models one `Math.random()` call of the source. -/
structure Rng where
  stream : Nat → Nat
  idx : Nat

def Grid.getRandomGemType (g : Grid) (rng : Rng) : Nat × Rng :=
  (rng.stream rng.idx % g.config.gemTypes, { rng with idx := rng.idx + 1 })

/-- One cell of `fillEmpty`: an empty cell receives a fresh
random-type gem. -/
def fillCell (col : Nat) (acc2 : Grid × Rng × List Gem) (row : Nat) :
    Grid × Rng × List Gem :=
  match acc2.1.cell row col with
  | some _ => acc2
  | none =>
    let d := acc2.1.getRandomGemType acc2.2.1
    let cg := acc2.1.createGemAt row col d.1 Special.snone
    (cg.1, d.2, acc2.2.2 ++ [cg.2])

/-- `fillEmpty()`: column-major, top-to-bottom, every empty cell receives
a fresh random-type gem; returns the new gems in creation order. -/
def Grid.fillEmpty (g : Grid) (rng : Rng) : Grid × Rng × List Gem :=
  (List.range g.config.cols).foldl
    (fun acc col => (List.range g.config.rows).foldl (fillCell col) acc)
    (g, rng, [])

/-- Redraw loop of `initializeGrid`: while the drawn type would create a
match and fewer than 10 redraws happened, draw again; then accept. -/
def retryDraw (g : Grid) (row col : Nat) : Nat → Rng → Nat → Nat × Rng
  | ty, rng, 0 => (ty, rng)
  | ty, rng, n + 1 =>
    if g.wouldCreateMatch row col ty then
      let d := g.getRandomGemType rng
      retryDraw g row col d.1 d.2 n
    else (ty, rng)

/-- One cell of `initializeGrid`: draw, redraw up to 10 times while the
type would complete a run, place the accepted type. -/
def initCell (row : Nat) (acc2 : Grid × Rng × Bool) (col : Nat) :
    Grid × Rng × Bool :=
  let g0 := acc2.1
  let d0 := g0.getRandomGemType acc2.2.1
  let d := retryDraw g0 row col d0.1 d0.2 10
  let badHere := g0.wouldCreateMatch row col d.1
  let cg := g0.createGemAt row col d.1 Special.snone
  (cg.1, d.2, acc2.2.2 || badHere)

/-- `initializeGrid()`: row-major fill with the bounded-retry draw.  The
third component is instrumentation only: it records whether any cell
accepted a type that still completed a run (the bounded-retry fallback). -/
def Grid.initializeGrid (g : Grid) (rng : Rng) : Grid × Rng × Bool :=
  (List.range g.config.rows).foldl
    (fun acc row => (List.range g.config.cols).foldl (initCell row) acc)
    (g, rng, false)

/-- `getAllGems()`: row-major list of the occupied cells' gems. -/
def Grid.allGems (g : Grid) : List Gem :=
  ((List.range g.config.rows).map (fun row =>
    (List.range g.config.cols).filterMap (fun col => g.cell row col))).flatten

/-- JavaScript `Set.add`: append only when absent (insertion order). -/
def pushSet {α : Type} [DecidableEq α] (l : List α) (a : α) : List α :=
  if a ∈ l then l else l ++ [a]

/-- `Array.from(new Set(list))`: duplicate removal keeping the first
occurrence of each element, in order. -/
def jsDedup {α : Type} [DecidableEq α] (l : List α) : List α :=
  l.foldl pushSet []

/-- Session state owned by the `Game` controller: the grid plus the
score and moves counters (moves is an integer; it is only ever compared
with 0 after decrements). -/
structure Session where
  grid : Grid
  score : Nat
  moves : Int
deriving Repr

/-- Cells probed by a bomb blast: the square
`[cy-radius, cy+radius] × [cx-radius, cx+radius]` in row-major order,
as integer coordinates (clipping happens inside `getGemAt`). -/
def bombCells (cy cx radius : Nat) : List (Int × Int) :=
  ((List.range (2 * radius + 1)).map (fun (i : Nat) =>
    (List.range (2 * radius + 1)).map (fun (j : Nat) =>
      ((cy : Int) - (radius : Int) + (i : Int),
       (cx : Int) - (radius : Int) + (j : Int))))).flatten

/-- Cells probed by a plus activation: the full row `cy`, then the full
column `cx`. -/
def plusCells (g : Grid) (cy cx : Nat) : List (Int × Int) :=
  ((List.range g.config.cols).map (fun (col : Nat) => ((cy : Int), (col : Int))))
    ++ ((List.range g.config.rows).map (fun (row : Nat) => ((row : Int), (cx : Int))))

/-- State of the worklist of `processExplosions`. -/
structure ExpSt where
  toRemove : List Gem
  bombsQueue : List (Gem × Nat)
  plusQueue : List Gem
  bombsProcessed : List Gem
  plusesProcessed : List Gem
deriving Repr

/-- One probed gem of `processExplosions`: add it to the removal set if
fresh, and enqueue it if it is an unprocessed special. -/
def expHitGem (st : ExpSt) (g : Gem) : ExpSt :=
  if g ∈ st.toRemove then st
  else
    { st with
      toRemove := st.toRemove ++ [g]
      bombsQueue :=
        st.bombsQueue ++ (if g.isBomb ∧ g ∉ st.bombsProcessed then [(g, 1)] else [])
      plusQueue :=
        st.plusQueue ++ (if g.isPlus ∧ g ∉ st.plusesProcessed then [g] else []) }

def expHitCell (grid : Grid) (st : ExpSt) (rc : Int × Int) : ExpSt :=
  match grid.getGemAt rc.1 rc.2 with
  | some g => expHitGem st g
  | none => st

def expDone (st : ExpSt) : Bool :=
  st.bombsQueue.isEmpty && st.plusQueue.isEmpty

/-- One iteration of the `processExplosions` worklist loop.  The source
always drains bombs before pluses; the `pick` parameter generalises the
choice taken when both queues are non-empty (the source is
`pick = fun _ => true`), which lets the drain order be varied. -/
def expStep (grid : Grid) (pick : ExpSt → Bool) (st : ExpSt) : ExpSt :=
  if st.bombsQueue ≠ [] ∧ (st.plusQueue = [] ∨ pick st) then
    match st.bombsQueue with
    | [] => st
    | br :: rest =>
      let bomb := br.1
      let st1 := { st with bombsQueue := rest }
      if bomb ∈ st1.bombsProcessed then st1
      else
        let radius := if br.2 = 0 then 1 else br.2
        (bombCells bomb.gridY bomb.gridX radius).foldl (expHitCell grid)
          { st1 with bombsProcessed := st1.bombsProcessed ++ [bomb] }
  else
    match st.plusQueue with
    | [] => st
    | plus :: rest =>
      let st1 := { st with plusQueue := rest }
      if plus ∈ st1.plusesProcessed then st1
      else
        (plusCells grid plus.gridY plus.gridX).foldl (expHitCell grid)
          { st1 with plusesProcessed := st1.plusesProcessed ++ [plus] }

/-- Termination measure of the worklist: gems of the grid not yet marked
for removal are worth 2, pending queue entries are worth 1. -/
def expMeasure (grid : Grid) (st : ExpSt) : Nat :=
  2 * ((grid.allGems).filter (fun x => x ∉ st.toRemove)).length
    + st.bombsQueue.length + st.plusQueue.length

def expRun (grid : Grid) (pick : ExpSt → Bool) : Nat → ExpSt → ExpSt
  | 0, st => st
  | fuel + 1, st =>
    if expDone st then st else expRun grid pick fuel (expStep grid pick st)

def expInit (seedBombs : List (Gem × Nat)) (seedPluses : List Gem) : ExpSt :=
  { toRemove := []
    bombsQueue := seedBombs
    plusQueue := seedPluses
    bombsProcessed := []
    plusesProcessed := [] }

/-- `processExplosions` with an explicit drain-order choice. -/
def processExplosionsPick (grid : Grid) (pick : ExpSt → Bool)
    (seedBombs : List (Gem × Nat)) (seedPluses : List Gem) : ExpSt :=
  let st0 := expInit seedBombs seedPluses
  expRun grid pick (expMeasure grid st0 + 1) st0

/-- `processExplosions(seedBombs, seedPluses)`: chain-expands bomb and
plus activations (bombs drained first) and returns the removed gems with
the points value (`removedCount × 20`). -/
def Grid.processExplosions (grid : Grid) (seedBombs : List (Gem × Nat))
    (seedPluses : List Gem) : List Gem × Nat :=
  let stF := processExplosionsPick grid (fun _ => true) seedBombs seedPluses
  (stF.toRemove, stF.toRemove.length * 20)

/-- Session-level `processExplosions`: removes the gems from the grid and
adds the points to the score (the source returns early, removing and
scoring nothing, when the removal set is empty). -/
def processExplosionsS (s : Session) (seedBombs : List (Gem × Nat))
    (seedPluses : List Gem) : Session × List Gem × Nat :=
  let rp := s.grid.processExplosions seedBombs seedPluses
  if rp.1 = [] then (s, [], 0)
  else
    ({ s with grid := s.grid.removeGems rp.1, score := s.score + rp.2 }, rp.1, rp.2)

/-- `explodeAt(bombGem, radius)`: delegates to the shared processor. -/
def explodeAtS (s : Session) (bombGem : Gem) (radius : Nat) :
    Session × List Gem × Nat :=
  processExplosionsS s [(bombGem, radius)] []

/-- Grid-level part of `explodePlusAt(plusGem)`: the full row and column
through the plus, de-duplicated, with `uniqueCount × 20` points. -/
def explodePlusAtG (grid : Grid) (plus : Gem) : List Gem × Nat :=
  let cy := plus.gridY
  let cx := plus.gridX
  let toExplode :=
    ((List.range grid.config.cols).filterMap
      (fun (col : Nat) => grid.getGemAt (cy : Int) (col : Int)))
      ++ ((List.range grid.config.rows).filterMap
        (fun (row : Nat) => grid.getGemAt (row : Int) (cx : Int)))
  let unique := jsDedup toExplode
  (unique, unique.length * 20)

/-- `explodePlusAt(plusGem)`: removes the unique row/column gems and adds
the points (an empty affected set returns with no change). -/
def explodePlusAtS (s : Session) (plus : Gem) : Session × List Gem × Nat :=
  let up := explodePlusAtG s.grid plus
  if up.1 = [] then (s, [], 0)
  else
    ({ s with grid := s.grid.removeGems up.1, score := s.score + up.2 }, up.1, up.2)

/-- `clearBoard()`: removes every gem and awards `count × 50`. -/
def clearBoardS (s : Session) : Session :=
  let all := s.grid.allGems
  if all = [] then s
  else { s with grid := s.grid.removeGems all, score := s.score + all.length * 50 }

/-- `applyGravityAndFill()`: gravity then refill (animation elided). -/
def applyGravityAndFillS (s : Session) (rng : Rng) : Session × Rng :=
  let ga := s.grid.applyGravity
  let fe := ga.1.fillEmpty rng
  ({ s with grid := fe.1 }, fe.2.1)

/-- Orientation classifier of a match group (`detectOrientation`). -/
inductive Orient
  | h
  | v
  | m
deriving DecidableEq, Repr

def detectOrient (group : List Gem) : Orient :=
  match group with
  | [] => Orient.m
  | g0 :: _ =>
    if group.all (fun g => g.gridY = g0.gridY) then Orient.h
    else if group.all (fun g => g.gridX = g0.gridX) then Orient.v
    else Orient.m

/-- `gemToGroups` map entry update: append the group index to the gem's
list, inserting the gem at the end on first sight (JS `Map` order). -/
def mapAdd (m : List (Gem × List Nat)) (g : Gem) (idx : Nat) :
    List (Gem × List Nat) :=
  if m.any (fun p => p.1 = g) then
    m.map (fun p => if p.1 = g then (p.1, p.2 ++ [idx]) else p)
  else m ++ [(g, [idx])]

def buildGemToGroups (ms : List (List Gem)) : List (Gem × List Nat) :=
  (ms.enum).foldl
    (fun m p => p.2.foldl (fun m2 g => mapAdd m2 g p.1) m) []

def lookupIdxs (m : List (Gem × List Nat)) (g : Gem) : List Nat :=
  match m.find? (fun p => p.1 = g) with
  | some p => p.2
  | none => []

/-- Accumulator of the L/T (union) detection of `processMatches`. -/
structure LtAcc where
  unions : List (List Gem)
  toDrop : List Nat
deriving Repr

/-- One `(i, j)` pair of the union detection: merge two groups sharing a
gem when their orientations differ and both have length at least 3. -/
def ltScanPair (ms : List (List Gem)) (acc : LtAcc) (ii jj : Nat) : LtAcc :=
  let gi := ms.getD ii []
  let gj := ms.getD jj []
  if detectOrient gi = detectOrient gj then acc
  else if 3 ≤ gi.length ∧ 3 ≤ gj.length then
    { unions := acc.unions ++ [jsDedup (gi ++ gj)]
      toDrop := pushSet (pushSet acc.toDrop ii) jj }
  else acc

def ordPairs : List Nat → List (Nat × Nat)
  | [] => []
  | x :: xs => xs.map (fun y => (x, y)) ++ ordPairs xs

def ltScan (ms : List (List Gem)) (g2g : List (Gem × List Nat)) : LtAcc :=
  g2g.foldl
    (fun acc p =>
      if p.2.length < 2 then acc
      else (ordPairs p.2).foldl (fun a pr => ltScanPair ms a pr.1 pr.2) acc)
    { unions := [], toDrop := [] }

/-- Recomposition of the match list after union detection: kept groups
(with no pivot) followed by the unions, each union's pivot being its
first gem that belonged to more than one original group. -/
def composeMatches (ms : List (List Gem)) (lt : LtAcc)
    (g2g : List (Gem × List Nat)) : List (List Gem × Option Gem) :=
  if lt.unions = [] then ms.map (fun m => (m, none))
  else
    ((ms.enum.filter (fun p => p.1 ∉ lt.toDrop)).map
        (fun p => (p.2, (none : Option Gem))))
      ++ lt.unions.map (fun u => (u, u.find? (fun g => 1 < (lookupIdxs g2g g).length)))

/-- Spawn request recorded by `processMatches` (`{row, col, type}`). -/
structure SpawnReq where
  row : Nat
  col : Nat
  ty : Nat
deriving DecidableEq, Repr

/-- Accumulator of the first (classification) pass of `processMatches`. -/
structure PassAcc where
  toRemove : List Gem
  bombsToSpawn : List SpawnReq
  plusesToSpawn : List SpawnReq
  bombsToExplode : List Gem
  plusesToExplode : List Gem
deriving Repr

/-- Marking of one whole group: every gem goes to the removal set, and
specials found inside are queued for explosion (bombs and pluses as the
branch dictates). -/
def markGroup (acc : PassAcc) (group : List Gem) (takeBombs takePluses : Bool) :
    PassAcc :=
  group.foldl
    (fun a g =>
      { a with
        toRemove := pushSet a.toRemove g
        bombsToExplode :=
          if takeBombs && g.isBomb then pushSet a.bombsToExplode g else a.bombsToExplode
        plusesToExplode :=
          if takePluses && g.isPlus then pushSet a.plusesToExplode g else a.plusesToExplode })
    acc

/-- Classification of one group of the first pass of `processMatches`,
in the source's branch order: L/T pivot, plus+bomb, plus, bomb,
length ≥ 5, length ≥ 4, plain 3-match. -/
def classifyGroup (acc : PassAcc) (gp : List Gem × Option Gem) : PassAcc :=
  let group := gp.1
  let bombInGroup := group.find? (fun g => g.isBomb)
  let plusInGroup := group.find? (fun g => g.isPlus)
  match gp.2 with
  | some chosen =>
    let acc1 :=
      { acc with
        bombsToSpawn :=
          acc.bombsToSpawn ++ [{ row := chosen.gridY, col := chosen.gridX, ty := chosen.type }] }
    markGroup acc1 group true true
  | none =>
    if plusInGroup.isSome ∧ bombInGroup.isSome then
      markGroup acc group true true
    else if plusInGroup.isSome then
      markGroup acc group false true
    else if bombInGroup.isSome then
      markGroup acc group true false
    else if 5 ≤ group.length then
      let chosen := group.getD (group.length / 2) dGem
      let acc1 :=
        { acc with
          plusesToSpawn :=
            acc.plusesToSpawn ++ [{ row := chosen.gridY, col := chosen.gridX, ty := chosen.type }] }
      markGroup acc1 group false false
    else if 4 ≤ group.length then
      let chosen := group.getD (group.length / 2) dGem
      let acc1 :=
        { acc with
          bombsToSpawn :=
            acc.bombsToSpawn ++ [{ row := chosen.gridY, col := chosen.gridX, ty := chosen.type }] }
      markGroup acc1 group false false
    else
      markGroup acc group false false

/-- First (classification) pass over the recomposed groups. -/
def firstPass (pairs : List (List Gem × Option Gem)) : PassAcc :=
  pairs.foldl classifyGroup
    { toRemove := [], bombsToSpawn := [], plusesToSpawn := []
      bombsToExplode := [], plusesToExplode := [] }

/-- State of the in-pass expansion loop of `processMatches` (bombs at
fixed radius 1, pluses over full row and column, bombs drained first).
`explosionAdded` tracks gems removed beyond the initial removal set. -/
structure MExpSt where
  toRemove : List Gem
  explosionAdded : List Gem
  bombsToExplode : List Gem
  plusesToExplode : List Gem
  queueBombs : List Gem
  queuePluses : List Gem
deriving Repr

def mHitGem (st : MExpSt) (g : Gem) : MExpSt :=
  if g ∈ st.toRemove then st
  else
    { toRemove := pushSet st.toRemove g
      explosionAdded := pushSet st.explosionAdded g
      bombsToExplode :=
        if g.isBomb ∧ g ∉ st.bombsToExplode then st.bombsToExplode ++ [g]
        else st.bombsToExplode
      plusesToExplode :=
        if g.isPlus ∧ g ∉ st.plusesToExplode then st.plusesToExplode ++ [g]
        else st.plusesToExplode
      queueBombs :=
        if g.isBomb ∧ g ∉ st.bombsToExplode then st.queueBombs ++ [g]
        else st.queueBombs
      queuePluses :=
        if g.isPlus ∧ g ∉ st.plusesToExplode then st.queuePluses ++ [g]
        else st.queuePluses }

def mHitCell (grid : Grid) (st : MExpSt) (rc : Int × Int) : MExpSt :=
  match grid.getGemAt rc.1 rc.2 with
  | some g => mHitGem st g
  | none => st

def mDone (st : MExpSt) : Bool :=
  st.queueBombs.isEmpty && st.queuePluses.isEmpty

def mStep (grid : Grid) (st : MExpSt) : MExpSt :=
  match st.queueBombs with
  | bomb :: rest =>
    (bombCells bomb.gridY bomb.gridX 1).foldl (mHitCell grid)
      { st with queueBombs := rest }
  | [] =>
    match st.queuePluses with
    | plus :: rest =>
      (plusCells grid plus.gridY plus.gridX).foldl (mHitCell grid)
        { st with queuePluses := rest }
    | [] => st

def mMeasure (grid : Grid) (st : MExpSt) : Nat :=
  2 * ((grid.allGems).filter (fun x => x ∉ st.toRemove)).length
    + st.queueBombs.length + st.queuePluses.length

def mRun (grid : Grid) : Nat → MExpSt → MExpSt
  | 0, st => st
  | fuel + 1, st => if mDone st then st else mRun grid fuel (mStep grid st)

/-- The expansion phase of one `processMatches` invocation, seeded from
the classification pass (`Array.from` keeps the sets' orders). -/
def mExpand (grid : Grid) (pass : PassAcc) : MExpSt :=
  let st0 : MExpSt :=
    { toRemove := pass.toRemove
      explosionAdded := []
      bombsToExplode := pass.bombsToExplode
      plusesToExplode := pass.plusesToExplode
      queueBombs := pass.bombsToExplode
      queuePluses := pass.plusesToExplode }
  mRun grid (mMeasure grid st0 + 1) st0

/-- Spawning of the recorded bomb gems, then the recorded plus gems,
returning the updated grid and the spawned gems in order. -/
def spawnSpecials (grid : Grid) (pass : PassAcc) : Grid × List Gem × List Gem :=
  let sb :=
    pass.bombsToSpawn.foldl
      (fun (a : Grid × List Gem) b =>
        let cg := a.1.createGemAt b.row b.col b.ty Special.sbomb
        (cg.1, a.2 ++ [cg.2]))
      (grid, [])
  let sp :=
    pass.plusesToSpawn.foldl
      (fun (a : Grid × List Gem) p =>
        let cg := a.1.createGemAt p.row p.col p.ty Special.splus
        (cg.1, a.2 ++ [cg.2]))
      (sb.1, [])
  (sp.1, sb.2, sp.2)

/-- Trigger test for a newly spawned special: inside the 3×3 area of a
queued exploding bomb, or on the row or column of a queued plus. -/
def spawnTriggered (bombsToExplode plusesToExplode : List Gem) (sg : Gem) : Bool :=
  bombsToExplode.any (fun exb =>
      ((sg.gridX : Int) - (exb.gridX : Int)).natAbs ≤ 1
        ∧ ((sg.gridY : Int) - (exb.gridY : Int)).natAbs ≤ 1)
    || plusesToExplode.any (fun exp => sg.gridY = exp.gridY ∨ sg.gridX = exp.gridX)

/-- Observable quantities of one `processMatches` invocation (before the
gravity/refill and the cascade recursion). -/
structure PassInfo where
  removedCount : Nat
  bombsSpawned : Nat
  plusesSpawned : Nat
  explosionAddedCount : Nat
  initialRemoved : List Gem
  finalRemoved : List Gem
  explosionAdded : List Gem
  basePoints : Nat
  chainRemoved : List Gem
  chainPoints : Nat
deriving Repr

/-- One invocation of `processMatches` up to (excluding) gravity/refill:
union detection, classification, expansion, scoring, removal, spawning,
and the immediate chain-trigger of spawned specials. -/
def processMatchesOnce (s : Session) (ms0 : List (List Gem)) :
    Session × PassInfo :=
  let g2g := buildGemToGroups ms0
  let lt := ltScan ms0 g2g
  let pairs := composeMatches ms0 lt g2g
  let pass := firstPass pairs
  let mExp := mExpand s.grid pass
  let removedCount := mExp.toRemove.length
  let bonusFromSpawns :=
    pass.bombsToSpawn.length * 20 + pass.plusesToSpawn.length * 30
  let extraExplosionBonus := mExp.explosionAdded.length * 10
  let points := removedCount * 10 + bonusFromSpawns + extraExplosionBonus
  let s1 := { s with score := s.score + points }
  let s2 :=
    if mExp.toRemove ≠ [] then { s1 with grid := s1.grid.removeGems mExp.toRemove }
    else s1
  let sp := spawnSpecials s2.grid pass
  let s3 := { s2 with grid := sp.1 }
  let trigB := sp.2.1.filter (spawnTriggered mExp.bombsToExplode mExp.plusesToExplode)
  let trigP := sp.2.2.filter (spawnTriggered mExp.bombsToExplode mExp.plusesToExplode)
  let chain :=
    if trigB ≠ [] ∨ trigP ≠ [] then
      processExplosionsS s3 (trigB.map (fun g => (g, 1))) trigP
    else (s3, [], 0)
  (chain.1,
    { removedCount := removedCount
      bombsSpawned := pass.bombsToSpawn.length
      plusesSpawned := pass.plusesToSpawn.length
      explosionAddedCount := mExp.explosionAdded.length
      initialRemoved := pass.toRemove
      finalRemoved := mExp.toRemove
      explosionAdded := mExp.explosionAdded
      basePoints := points
      chainRemoved := chain.2.1
      chainPoints := chain.2.2 })

/-- The tail of `processMatches`: gravity, refill, and recursion while
the refreshed board has new matches.  Fuel bounds the cascade depth. -/
def processMatchesLoop : Nat → Session → Rng → List (List Gem) → Session × Rng
  | 0, s, rng, _ => (s, rng)
  | fuel + 1, s, rng, ms0 =>
    let p1 := processMatchesOnce s ms0
    let p2 := applyGravityAndFillS p1.1 rng
    let newMs := p2.1.grid.findMatches
    if newMs ≠ [] then processMatchesLoop fuel p2.1 p2.2 newMs else p2

/-- Result of `performSwap`: the session, the random source, and whether
control reached the `moves <= 0` game-over check at the end of the
method (the three special-combination branches return before it). -/
structure SwapOutcome where
  session : Session
  rng : Rng
  checkedGameOver : Bool

/-- `performSwap(gem1, gem2)`: logical content of the swap handler —
swap, the three special-combination branches (two pluses, bomb + plus,
two bombs), else match check with either a consumed move and match
processing, or a revert of the swap. -/
def performSwap (fuel : Nat) (s : Session) (rng : Rng) (gem1 gem2 : Gem) :
    SwapOutcome :=
  let sw := s.grid.swapGems gem1 gem2
  let s1 := { s with grid := sw.1 }
  let gem1' := sw.2.1
  let gem2' := sw.2.2
  if gem1.isPlus ∧ gem2.isPlus then
    let s2 := clearBoardS s1
    let p := applyGravityAndFillS s2 rng
    let cas := p.1.grid.findMatches
    let q := if cas ≠ [] then processMatchesLoop fuel p.1 p.2 cas else p
    { session := q.1, rng := q.2, checkedGameOver := false }
  else if (gem1.isBomb ∧ gem2.isPlus) ∨ (gem2.isBomb ∧ gem1.isPlus) then
    let bombGem := if gem1.isBomb then gem1' else gem2'
    let plusGem := if gem1.isPlus then gem1' else gem2'
    let e1 := explodeAtS s1 bombGem 1
    let e2 := explodePlusAtS e1.1 plusGem
    let p := applyGravityAndFillS e2.1 rng
    let cas := p.1.grid.findMatches
    let q := if cas ≠ [] then processMatchesLoop fuel p.1 p.2 cas else p
    { session := q.1, rng := q.2, checkedGameOver := false }
  else if gem1.isBomb ∧ gem2.isBomb then
    let e1 := explodeAtS s1 gem1' 2
    let e2 := explodeAtS e1.1 gem2' 2
    let p := applyGravityAndFillS e2.1 rng
    let cas := p.1.grid.findMatches
    let q := if cas ≠ [] then processMatchesLoop fuel p.1 p.2 cas else p
    { session := q.1, rng := q.2, checkedGameOver := false }
  else
    let ms0 := s1.grid.findMatches
    if ms0 ≠ [] then
      let s2 := { s1 with moves := s1.moves - 1 }
      let q := processMatchesLoop fuel s2 rng ms0
      { session := q.1, rng := q.2, checkedGameOver := true }
    else
      let sw2 := s1.grid.swapGems gem1' gem2'
      { session := { s1 with grid := sw2.1 }, rng := rng, checkedGameOver := true }

/-- Builder of a fully occupied concrete board: each entry is
`(type, special)`, rows listed top to bottom. -/
def mkRow (r : Nat) (entries : List (Nat × Special)) : List (Option Gem) :=
  entries.enum.map (fun p =>
    some { type := p.2.1, gridX := p.1, gridY := r, special := p.2.2 })

def mkGrid (gemTypes : Nat) (entries : List (List (Nat × Special))) : Grid :=
  { config :=
      { rows := entries.length, cols := (entries.headD []).length, gemTypes := gemTypes }
    gems := entries.enum.map (fun p => mkRow p.1 p.2) }

/-- Shorthand for a plain gem entry of `mkGrid`. -/
def pg (t : Nat) : Nat × Special := (t, Special.snone)

theorem foldl_preserve {α β : Type} {P : α → Prop} {f : α → β → α}
    (hf : ∀ x b, P x → P (f x b)) :
    ∀ (l : List β) (a : α), P a → P (l.foldl f a) := by
  intro l
  induction l with
  | nil => intro a ha; exact ha
  | cons b t ih => intro a ha; exact ih (f a b) (hf a b ha)

theorem cell_some_bounds {g : Grid} {r c : Nat} {x : Gem}
    (h : g.cell r c = some x) :
    r < g.gems.length ∧ c < (g.gems.getD r []).length := by
  by_cases hr : r < g.gems.length
  · by_cases hc : c < (g.gems.getD r []).length
    · exact ⟨hr, hc⟩
    · exfalso
      have : (g.gems.getD r []).getD c none = none := by
        rw [List.getD_eq_getElem?_getD, List.getElem?_eq_none (by omega)]
        rfl
      rw [Grid.cell, this] at h
      exact Option.noConfusion h
  · exfalso
    have hnone : g.gems.getD r [] = [] := by
      rw [List.getD_eq_getElem?_getD, List.getElem?_eq_none (by omega)]
      rfl
    rw [Grid.cell, hnone] at h
    simp [List.getD] at h

theorem config_setCell (g : Grid) (r c : Nat) (v : Option Gem) :
    (g.setCell r c v).config = g.config := rfl

theorem gems_length_setCell (g : Grid) (r c : Nat) (v : Option Gem) :
    (g.setCell r c v).gems.length = g.gems.length := by
  simp [Grid.setCell]

theorem row_length_setCell (g : Grid) (r c : Nat) (v : Option Gem) (r' : Nat) :
    ((g.setCell r c v).gems.getD r' []).length = (g.gems.getD r' []).length := by
  simp only [Grid.setCell, List.getD_eq_getElem?_getD, List.getElem?_set]
  by_cases hr : r = r'
  · subst hr
    by_cases hl : r < g.gems.length
    · simp [hl]
    · simp [hl, List.getElem?_eq_none (by omega : g.gems.length ≤ r)]
  · simp [hr]

/-- Effect of `setCell` on an arbitrary cell: the new value where the
write lands in range, the old cell everywhere else. -/
theorem cell_setCell (g : Grid) (r c : Nat) (v : Option Gem) (r' c' : Nat) :
    (g.setCell r c v).cell r' c' =
      if r = r' ∧ c = c' ∧ r < g.gems.length ∧ c < (g.gems.getD r []).length then v
      else g.cell r' c' := by
  simp only [Grid.setCell, Grid.cell, List.getD_eq_getElem?_getD, List.getElem?_set]
  by_cases hr : r = r'
  case neg => simp [hr]
  subst hr
  by_cases hl : r < g.gems.length
  case neg =>
    have h0 : g.gems[r]? = none := List.getElem?_eq_none (Nat.le_of_not_lt hl)
    simp [h0, hl]
  by_cases hc : c = c'
  case neg => simp [hl, hc, List.getElem?_set]
  subst hc
  have he : g.gems[r]?.getD ([] : List (Option Gem)) = g.gems[r] := by
    simp [List.getElem?_eq_getElem hl]
  by_cases hcl : c < g.gems[r].length
  · simp [hl, hcl, List.getElem?_set, he]
  · have h1 : g.gems[r].length ≤ c := Nat.le_of_not_lt hcl
    simp [hl, hcl, List.getElem?_set, he, List.getElem?_eq_none h1]

/-- Two grids with the same configuration, shape, and cells are equal. -/
theorem Grid.ext_cells {g1 g2 : Grid} (hc : g1.config = g2.config)
    (hlen : g1.gems.length = g2.gems.length)
    (hrow : ∀ r, (g1.gems.getD r []).length = (g2.gems.getD r []).length)
    (h : ∀ r c, g1.cell r c = g2.cell r c) : g1 = g2 := by
  cases g1 with
  | mk c1 l1 =>
    cases g2 with
    | mk c2 l2 =>
      simp only at hc hlen hrow h
      subst hc
      have : l1 = l2 := by
        apply List.ext_getElem?
        intro r
        by_cases hr : r < l1.length
        · have hr2 : r < l2.length := by omega
          rw [List.getElem?_eq_getElem hr, List.getElem?_eq_getElem hr2]
          have hrl : l1[r].length = l2[r].length := by
            have := hrow r
            simpa [List.getD_eq_getElem?_getD, List.getElem?_eq_getElem, hr, hr2] using this
          congr 1
          apply List.ext_getElem?
          intro c
          by_cases hcl : c < l1[r].length
          · have hcl2 : c < l2[r].length := by omega
            rw [List.getElem?_eq_getElem hcl, List.getElem?_eq_getElem hcl2]
            have := h r c
            simp only [Grid.cell, List.getD_eq_getElem?_getD, List.getElem?_eq_getElem hr,
              List.getElem?_eq_getElem hr2, Option.getD_some] at this
            rw [List.getElem?_eq_getElem hcl, List.getElem?_eq_getElem hcl2] at this
            simpa using this
          · rw [List.getElem?_eq_none (by omega), List.getElem?_eq_none (by omega)]
        · rw [List.getElem?_eq_none (by omega), List.getElem?_eq_none (by omega)]
      rw [this]

theorem mem_pushSet {α : Type} [DecidableEq α] {l : List α} {a b : α} :
    a ∈ pushSet l b ↔ a ∈ l ∨ a = b := by
  by_cases h : b ∈ l
  · simp only [pushSet, if_pos h]
    constructor
    · exact fun hm => Or.inl hm
    · rintro (hm | rfl)
      · exact hm
      · exact h
  · simp [pushSet, if_neg h]

theorem pushSet_nodup {α : Type} [DecidableEq α] {l : List α} (hl : l.Nodup) (b : α) :
    (pushSet l b).Nodup := by
  by_cases h : b ∈ l
  · simpa [pushSet, if_pos h] using hl
  · simp only [pushSet, if_neg h]
    simpa [List.nodup_append] using ⟨hl, fun hb => h hb⟩

theorem mem_jsDedup {α : Type} [DecidableEq α] {l : List α} {a : α} :
    a ∈ jsDedup l ↔ a ∈ l := by
  have main : ∀ (l acc : List α), a ∈ l.foldl pushSet acc ↔ a ∈ acc ∨ a ∈ l := by
    intro l
    induction l with
    | nil => intro acc; simp
    | cons b t ih =>
      intro acc
      rw [List.foldl_cons, ih (pushSet acc b)]
      constructor
      · rintro (h | h)
        · rcases mem_pushSet.mp h with h2 | h2
          · exact Or.inl h2
          · exact Or.inr (by simp [h2])
        · exact Or.inr (by simp [h])
      · rintro (h | h)
        · exact Or.inl (mem_pushSet.mpr (Or.inl h))
        · rcases List.mem_cons.mp h with h2 | h2
          · exact Or.inl (mem_pushSet.mpr (Or.inr h2))
          · exact Or.inr h2
  rw [jsDedup, main]
  simp

theorem jsDedup_nodup {α : Type} [DecidableEq α] (l : List α) : (jsDedup l).Nodup := by
  have main : ∀ (l acc : List α), acc.Nodup → (l.foldl pushSet acc).Nodup := by
    intro l
    induction l with
    | nil => intro acc h; exact h
    | cons b t ih => intro acc h; exact ih _ (pushSet_nodup h b)
  exact main l [] List.nodup_nil

theorem jsDedup_eq_self {α : Type} [DecidableEq α] {l : List α} (hl : l.Nodup) :
    jsDedup l = l := by
  have main : ∀ (l acc : List α), acc.Nodup → (∀ x ∈ l, x ∉ acc) → l.Nodup →
      l.foldl pushSet acc = acc ++ l := by
    intro l
    induction l with
    | nil => intro acc _ _ _; simp
    | cons b t ih =>
      intro acc hacc hdis hl
      rw [List.foldl_cons]
      have hb : b ∉ acc := hdis b (by simp)
      rw [List.nodup_cons] at hl
      have : pushSet acc b = acc ++ [b] := by simp [pushSet, hb]
      rw [this, ih (acc ++ [b]) (by simpa [List.nodup_append] using ⟨hacc, hb⟩)
        (fun x hx => by
          simp only [List.mem_append, List.mem_singleton]
          rintro (h | rfl)
          · exact hdis x (by simp [hx]) h
          · exact hl.1 hx) hl.2]
      simp
  rw [jsDedup, main l [] List.nodup_nil (by simp) hl]
  simp

/-- Cell–coordinate consistency: a gem stored at cell `[r][c]` carries
`gridY = r` and `gridX = c`. -/
def Consistent (g : Grid) : Prop :=
  ∀ r c gem, g.cell r c = some gem → gem.gridY = r ∧ gem.gridX = c

/-- Executable consistency check over the stored cells. -/
def consistentB (g : Grid) : Bool :=
  (List.range g.gems.length).all (fun r =>
    (List.range (g.gems.getD r []).length).all (fun c =>
      match (g.gems.getD r []).getD c none with
      | some gem => decide (gem.gridY = r ∧ gem.gridX = c)
      | none => true))

theorem consistentB_sound {g : Grid} (h : consistentB g = true) : Consistent g := by
  intro r c gem hc
  obtain ⟨hr, hcl⟩ := cell_some_bounds hc
  rw [consistentB, List.all_eq_true] at h
  have h1 := h r (List.mem_range.mpr hr)
  simp only [List.all_eq_true] at h1
  have h2 := h1 c (List.mem_range.mpr hcl)
  rw [Grid.cell] at hc
  rw [hc] at h2
  simpa using h2

theorem consistent_setCell_some {g : Grid} (hg : Consistent g) (r c : Nat) (gem : Gem)
    (hgem : gem.gridY = r ∧ gem.gridX = c) :
    Consistent (g.setCell r c (some gem)) := by
  intro r' c' x hx
  rw [cell_setCell] at hx
  split at hx
  case isTrue h =>
    obtain ⟨h1, h2, _⟩ := h
    cases hx
    exact ⟨h1 ▸ hgem.1, h2 ▸ hgem.2⟩
  case isFalse h => exact hg _ _ _ hx

theorem consistent_setCell_none {g : Grid} (hg : Consistent g) (r c : Nat) :
    Consistent (g.setCell r c none) := by
  intro r' c' x hx
  rw [cell_setCell] at hx
  split at hx
  case isTrue h => exact Option.noConfusion hx
  case isFalse h => exact hg _ _ _ hx

theorem consistent_createGemAt {g : Grid} (hg : Consistent g)
    (row col ty : Nat) (sp : Special) :
    Consistent (g.createGemAt row col ty sp).1 :=
  consistent_setCell_some hg row col _ ⟨rfl, rfl⟩

theorem consistent_swapGems {g : Grid} (hg : Consistent g) (gem1 gem2 : Gem) :
    Consistent (g.swapGems gem1 gem2).1 := by
  exact consistent_setCell_some
    (consistent_setCell_some hg gem1.gridY gem1.gridX
      (Gem.mk gem2.type gem1.gridX gem1.gridY gem2.special) ⟨rfl, rfl⟩)
    gem2.gridY gem2.gridX
    (Gem.mk gem1.type gem2.gridX gem2.gridY gem1.special) ⟨rfl, rfl⟩

theorem consistent_removeGems {g : Grid} (hg : Consistent g) (l : List Gem) :
    Consistent (g.removeGems l) := by
  rw [Grid.removeGems]
  exact foldl_preserve (P := fun x => Consistent x)
    (fun x gem hx => consistent_setCell_none hx gem.gridY gem.gridX) l g hg

theorem consistent_gravityStepCell (a : Grid × Bool) (ha : Consistent a.1)
    (col row : Nat) : Consistent (gravityStepCell col a row).1 := by
  obtain ⟨g0, mv⟩ := a
  cases h1 : g0.cell row col with
  | some gem => simpa [gravityStepCell, h1] using ha
  | none =>
    cases h2 : gravityFindAbove g0 col row with
    | none => simpa [gravityStepCell, h1, h2] using ha
    | some rg =>
      simp only [gravityStepCell, h1, h2]
      exact consistent_setCell_none
        (consistent_setCell_some ha row col
          (Gem.mk rg.2.type col row rg.2.special) ⟨rfl, rfl⟩) rg.1 col

theorem consistent_applyGravity {g : Grid} (hg : Consistent g) :
    Consistent (g.applyGravity).1 := by
  rw [Grid.applyGravity]
  exact foldl_preserve (P := fun (a : Grid × Bool) => Consistent a.1)
    (fun a col ha =>
      foldl_preserve (P := fun (b : Grid × Bool) => Consistent b.1)
        (fun b row hb => consistent_gravityStepCell b hb col row) _ a ha)
    _ (g, false) hg

theorem consistent_fillEmpty {g : Grid} (hg : Consistent g) (rng : Rng) :
    Consistent (g.fillEmpty rng).1 := by
  rw [Grid.fillEmpty]
  refine foldl_preserve (P := fun (a : Grid × Rng × List Gem) => Consistent a.1)
    (fun a col ha => ?_) _ (g, rng, []) hg
  refine foldl_preserve (P := fun (b : Grid × Rng × List Gem) => Consistent b.1)
    (fun b row hb => ?_) _ a ha
  obtain ⟨g0, rng0, acc⟩ := b
  cases h1 : g0.cell row col with
  | some gem => simpa [fillCell, h1] using hb
  | none =>
    simp only [fillCell, h1]
    exact consistent_createGemAt hb row col _ Special.snone

/-- C9: cell–coordinate consistency is an invariant of every board
operation that places or moves gems: `createGemAt`, `swapGems`,
`applyGravity`, and `fillEmpty` (which places via `createGemAt`) all
preserve the property that a gem stored at cell `[r][c]` has
`gridY = r` and `gridX = c`. -/
theorem c9_coordinate_invariant (g : Grid) (hg : Consistent g) (gem1 gem2 : Gem)
    (row col ty : Nat) (sp : Special) (rng : Rng) :
    Consistent (g.createGemAt row col ty sp).1 ∧
    Consistent (g.swapGems gem1 gem2).1 ∧
    Consistent (g.applyGravity).1 ∧
    Consistent (g.fillEmpty rng).1 :=
  ⟨consistent_createGemAt hg row col ty sp, consistent_swapGems hg gem1 gem2,
    consistent_applyGravity hg, consistent_fillEmpty hg rng⟩

/-- Concrete instantiation of `c9_coordinate_invariant` on a 2×2 board. -/
theorem c9_coordinate_invariant_witness :
    Consistent ((mkGrid 4 [[pg 0, pg 1], [pg 1, pg 0]]).createGemAt 0 0 2 Special.sbomb).1 ∧
    Consistent ((mkGrid 4 [[pg 0, pg 1], [pg 1, pg 0]]).swapGems
      (Gem.mk 0 0 0 Special.snone) (Gem.mk 1 1 0 Special.snone)).1 ∧
    Consistent ((mkGrid 4 [[pg 0, pg 1], [pg 1, pg 0]]).applyGravity).1 ∧
    Consistent ((mkGrid 4 [[pg 0, pg 1], [pg 1, pg 0]]).fillEmpty (Rng.mk (fun n => n) 0)).1 :=
  c9_coordinate_invariant (mkGrid 4 [[pg 0, pg 1], [pg 1, pg 0]])
    (consistentB_sound (by decide)) (Gem.mk 0 0 0 Special.snone)
    (Gem.mk 1 1 0 Special.snone) 0 0 2 Special.sbomb (Rng.mk (fun n => n) 0)

theorem cell_setCell_inb {g : Grid} {r c : Nat} (hr : r < g.gems.length)
    (hc : c < (g.gems.getD r []).length) (v : Option Gem) (r' c' : Nat) :
    (g.setCell r c v).cell r' c' = if r = r' ∧ c = c' then v else g.cell r' c' := by
  rw [cell_setCell]
  by_cases h : r = r' ∧ c = c'
  · rw [if_pos ⟨h.1, h.2, hr, hc⟩, if_pos h]
  · rw [if_neg (by tauto), if_neg h]

/-- Swapping two gems that occupy their own cells and swapping the
returned (coordinate-updated) gems back restores the grid exactly. -/
theorem swapGems_revert (g : Grid) (gem1 gem2 : Gem)
    (h1 : g.cell gem1.gridY gem1.gridX = some gem1)
    (h2 : g.cell gem2.gridY gem2.gridX = some gem2)
    (hne : gem1 ≠ gem2) :
    ((g.swapGems gem1 gem2).1.swapGems (g.swapGems gem1 gem2).2.1
        (g.swapGems gem1 gem2).2.2).1 = g := by
  obtain ⟨hr1, hc1⟩ := cell_some_bounds h1
  obtain ⟨hr2, hc2⟩ := cell_some_bounds h2
  have hcells : ¬(gem1.gridY = gem2.gridY ∧ gem1.gridX = gem2.gridX) := by
    rintro ⟨hy, hx⟩
    rw [hy, hx, h2] at h1
    exact hne (Option.some.inj h1).symm
  show ((((g.setCell gem1.gridY gem1.gridX
      (some (Gem.mk gem2.type gem1.gridX gem1.gridY gem2.special))).setCell
        gem2.gridY gem2.gridX
        (some (Gem.mk gem1.type gem2.gridX gem2.gridY gem1.special))).setCell
          gem2.gridY gem2.gridX
          (some (Gem.mk gem2.type gem2.gridX gem2.gridY gem2.special))).setCell
            gem1.gridY gem1.gridX
            (some (Gem.mk gem1.type gem1.gridX gem1.gridY gem1.special))) = g
  have e1 : Gem.mk gem1.type gem1.gridX gem1.gridY gem1.special = gem1 := rfl
  have e2 : Gem.mk gem2.type gem2.gridX gem2.gridY gem2.special = gem2 := rfl
  rw [e1, e2]
  set a1 := Gem.mk gem2.type gem1.gridX gem1.gridY gem2.special with ha1
  set a2 := Gem.mk gem1.type gem2.gridX gem2.gridY gem1.special with ha2
  apply Grid.ext_cells
  · rfl
  · simp [gems_length_setCell]
  · intro r
    rw [row_length_setCell, row_length_setCell, row_length_setCell, row_length_setCell]
  · intro r c
    have L1r : (g.setCell gem1.gridY gem1.gridX (some a1)).gems.length = g.gems.length :=
      gems_length_setCell ..
    have L1c : ∀ r', ((g.setCell gem1.gridY gem1.gridX (some a1)).gems.getD r' []).length
        = (g.gems.getD r' []).length := fun r' => row_length_setCell ..
    have L2r := gems_length_setCell (g.setCell gem1.gridY gem1.gridX (some a1))
      gem2.gridY gem2.gridX (some a2)
    have L2c := fun r' => row_length_setCell (g.setCell gem1.gridY gem1.gridX (some a1))
      gem2.gridY gem2.gridX (some a2) r'
    have L3r := gems_length_setCell ((g.setCell gem1.gridY gem1.gridX (some a1)).setCell
      gem2.gridY gem2.gridX (some a2)) gem2.gridY gem2.gridX (some gem2)
    have L3c := fun r' => row_length_setCell ((g.setCell gem1.gridY gem1.gridX
      (some a1)).setCell gem2.gridY gem2.gridX (some a2)) gem2.gridY gem2.gridX
      (some gem2) r'
    rw [cell_setCell_inb (by rw [L3r, L2r, L1r]; exact hr1)
      (by rw [L3c, L2c, L1c]; exact hc1)]
    rw [cell_setCell_inb (by rw [L2r, L1r]; exact hr2) (by rw [L2c, L1c]; exact hc2)]
    rw [cell_setCell_inb (by rw [L1r]; exact hr2) (by rw [L1c]; exact hc2)]
    rw [cell_setCell_inb hr1 hc1]
    by_cases k1 : gem1.gridY = r ∧ gem1.gridX = c
    · simp only [if_pos k1]
      rw [← k1.1, ← k1.2, h1]
    · simp only [if_neg k1]
      by_cases k2 : gem2.gridY = r ∧ gem2.gridX = c
      · simp only [if_pos k2]
        rw [← k2.1, ← k2.2, h2]
      · simp only [if_neg k2]

theorem isPlus_of_none {g : Gem} (h : g.special = Special.snone) : g.isPlus = false := by
  simp [Gem.isPlus, h]

theorem isBomb_of_none {g : Gem} (h : g.special = Special.snone) : g.isBomb = false := by
  simp [Gem.isBomb, h]

/-- C6: a swap of two non-special gems whose post-swap board has no
match is reverted: the grid returns to the exact pre-swap layout, and
neither `movesRemaining` nor the score changes (the whole session and
random source are unchanged). -/
theorem c6_no_match_swap_reverts (fuel : Nat) (s : Session) (rng : Rng)
    (gem1 gem2 : Gem)
    (h1 : s.grid.cell gem1.gridY gem1.gridX = some gem1)
    (h2 : s.grid.cell gem2.gridY gem2.gridX = some gem2)
    (hne : gem1 ≠ gem2)
    (hs1 : gem1.special = Special.snone) (hs2 : gem2.special = Special.snone)
    (hnm : ((s.grid.swapGems gem1 gem2).1).findMatches = []) :
    performSwap fuel s rng gem1 gem2 = SwapOutcome.mk s rng true := by
  have c1 : ¬(gem1.isPlus = true ∧ gem2.isPlus = true) := by
    simp [isPlus_of_none hs1]
  have c2 : ¬((gem1.isBomb = true ∧ gem2.isPlus = true)
      ∨ (gem2.isBomb = true ∧ gem1.isPlus = true)) := by
    simp [isPlus_of_none hs1, isPlus_of_none hs2]
  have c3 : ¬(gem1.isBomb = true ∧ gem2.isBomb = true) := by
    simp [isBomb_of_none hs1]
  have hrt := swapGems_revert s.grid gem1 gem2 h1 h2 hne
  simp only [performSwap, if_neg c1, if_neg c2, if_neg c3, hnm, ne_eq,
    not_true_eq_false, if_false, ite_false]
  congr 1
  show Session.mk ((s.grid.swapGems gem1 gem2).1.swapGems
    (s.grid.swapGems gem1 gem2).2.1 (s.grid.swapGems gem1 gem2).2.2).1
    s.score s.moves = s
  rw [hrt]

/-- Concrete instantiation of `c6_no_match_swap_reverts` on a 2×2 board. -/
theorem c6_no_match_swap_reverts_witness :
    performSwap 3 (Session.mk (mkGrid 4 [[pg 0, pg 1], [pg 1, pg 0]]) 0 30)
      (Rng.mk (fun n => n) 0) (Gem.mk 0 0 0 Special.snone)
      (Gem.mk 1 1 0 Special.snone)
    = SwapOutcome.mk (Session.mk (mkGrid 4 [[pg 0, pg 1], [pg 1, pg 0]]) 0 30)
      (Rng.mk (fun n => n) 0) true :=
  c6_no_match_swap_reverts 3 (Session.mk (mkGrid 4 [[pg 0, pg 1], [pg 1, pg 0]]) 0 30)
    (Rng.mk (fun n => n) 0) (Gem.mk 0 0 0 Special.snone) (Gem.mk 1 1 0 Special.snone)
    (by decide) (by decide) (by decide) (by decide) (by decide) (by decide)

/-- Well-shapedness: the cell array has exactly `rows` rows of `cols`
cells each. -/
def Shaped (g : Grid) : Prop :=
  g.gems.length = g.config.rows ∧
    ∀ r, r < g.config.rows → (g.gems.getD r []).length = g.config.cols

theorem shaped_setCell {g : Grid} (hs : Shaped g) (r c : Nat) (v : Option Gem) :
    Shaped (g.setCell r c v) := by
  refine ⟨?_, ?_⟩
  · rw [gems_length_setCell]
    exact hs.1
  · intro r' hr'
    rw [row_length_setCell]
    exact hs.2 r' hr'

theorem config_removeGems (g : Grid) (l : List Gem) :
    (g.removeGems l).config = g.config := by
  rw [Grid.removeGems]
  refine foldl_preserve (P := fun x => x.config = g.config) ?_ l g rfl
  intro x gem hx
  rw [config_setCell]
  exact hx

theorem shaped_removeGems {g : Grid} (hs : Shaped g) (l : List Gem) :
    Shaped (g.removeGems l) := by
  rw [Grid.removeGems]
  exact foldl_preserve (P := fun x => Shaped x)
    (fun x gem hx => shaped_setCell hx gem.gridY gem.gridX none) l g hs

theorem config_gravityStepCell (a : Grid × Bool) (col row : Nat) :
    (gravityStepCell col a row).1.config = a.1.config := by
  obtain ⟨g0, mv⟩ := a
  cases h1 : g0.cell row col with
  | some gem => simp [gravityStepCell, h1]
  | none =>
    cases h2 : gravityFindAbove g0 col row with
    | none => simp [gravityStepCell, h1, h2]
    | some rg => simp [gravityStepCell, h1, h2, config_setCell]

theorem shaped_gravityStepCell (a : Grid × Bool) (ha : Shaped a.1) (col row : Nat) :
    Shaped (gravityStepCell col a row).1 := by
  obtain ⟨g0, mv⟩ := a
  cases h1 : g0.cell row col with
  | some gem => simpa [gravityStepCell, h1] using ha
  | none =>
    cases h2 : gravityFindAbove g0 col row with
    | none => simpa [gravityStepCell, h1, h2] using ha
    | some rg =>
      simp only [gravityStepCell, h1, h2]
      exact shaped_setCell (shaped_setCell ha _ _ _) _ _ _

theorem shaped_config_applyGravity {g : Grid} (hs : Shaped g) :
    Shaped (g.applyGravity).1 ∧ (g.applyGravity).1.config = g.config := by
  rw [Grid.applyGravity]
  exact foldl_preserve
    (P := fun (a : Grid × Bool) => Shaped a.1 ∧ a.1.config = g.config)
    (fun a col ha =>
      foldl_preserve (P := fun (b : Grid × Bool) => Shaped b.1 ∧ b.1.config = g.config)
        (fun b row hb =>
          ⟨shaped_gravityStepCell b hb.1 col row,
            (config_gravityStepCell b col row).trans hb.2⟩) _ a ha)
    _ (g, false) ⟨hs, rfl⟩

theorem isSome_cell_setCell_mono {g : Grid} {r' c' : Nat} (r c : Nat) (x : Gem)
    (h : (g.cell r' c').isSome = true) :
    ((g.setCell r c (some x)).cell r' c').isSome = true := by
  rw [cell_setCell]
  split
  · rfl
  · exact h

theorem fillCell_full {cfg : GridConfig} (col : Nat) (hcol : col < cfg.cols) :
    ∀ (l : List Nat) (a : Grid × Rng × List Gem),
      Shaped a.1 → a.1.config = cfg → (∀ r ∈ l, r < cfg.rows) →
      Shaped (l.foldl (fillCell col) a).1 ∧
        (l.foldl (fillCell col) a).1.config = cfg ∧
        (∀ r c, (a.1.cell r c).isSome = true →
          ((l.foldl (fillCell col) a).1.cell r c).isSome = true) ∧
        (∀ r ∈ l, ((l.foldl (fillCell col) a).1.cell r col).isSome = true) := by
  intro l
  induction l with
  | nil =>
    intro a hsh hcfg _
    exact ⟨hsh, hcfg, fun r c h => h, fun r hr => absurd hr (List.not_mem_nil r)⟩
  | cons r0 t ih =>
    intro a hsh hcfg hmem
    rw [List.foldl_cons]
    have hr0 : r0 < cfg.rows := hmem r0 (by simp)
    cases h1 : a.1.cell r0 col with
    | some gem =>
      have ha' : fillCell col a r0 = a := by simp [fillCell, h1]
      rw [ha']
      obtain ⟨p1, p2, p3, p4⟩ := ih a hsh hcfg (fun r hr => hmem r (by simp [hr]))
      refine ⟨p1, p2, p3, fun r hr => ?_⟩
      rcases List.mem_cons.mp hr with h | h
      · subst h
        exact p3 r col (by rw [h1]; rfl)
      · exact p4 r h
    | none =>
      have hbr : r0 < a.1.gems.length := by rw [hsh.1, hcfg]; exact hr0
      have hbc : col < (a.1.gems.getD r0 []).length := by
        rw [hsh.2 r0 (by rw [hcfg]; exact hr0), hcfg]
        exact hcol
      have ha' : (fillCell col a r0).1 =
          a.1.setCell r0 col (some (Gem.mk (a.1.getRandomGemType a.2.1).1 col r0
            Special.snone)) := by
        simp [fillCell, h1, Grid.createGemAt]
      have hsh' : Shaped (fillCell col a r0).1 := by
        rw [ha']
        exact shaped_setCell hsh r0 col _
      have hcfg' : (fillCell col a r0).1.config = cfg := by
        rw [ha', config_setCell]
        exact hcfg
      obtain ⟨p1, p2, p3, p4⟩ := ih (fillCell col a r0) hsh' hcfg'
        (fun r hr => hmem r (by simp [hr]))
      refine ⟨p1, p2, ?_, ?_⟩
      · intro r c h
        refine p3 r c ?_
        rw [ha']
        exact isSome_cell_setCell_mono r0 col _ h
      · intro r hr
        rcases List.mem_cons.mp hr with h | h
        · subst h
          refine p3 r col ?_
          rw [ha', cell_setCell_inb hbr hbc]
          simp
        · exact p4 r h

theorem fill_all_full {cfg : GridConfig} :
    ∀ (L : List Nat) (a : Grid × Rng × List Gem),
      Shaped a.1 → a.1.config = cfg → (∀ c ∈ L, c < cfg.cols) →
      Shaped (L.foldl (fun acc col => (List.range cfg.rows).foldl (fillCell col) acc) a).1 ∧
        (L.foldl (fun acc col => (List.range cfg.rows).foldl (fillCell col) acc) a).1.config
          = cfg ∧
        (∀ c ∈ L, ∀ r, r < cfg.rows →
          (((L.foldl (fun acc col =>
            (List.range cfg.rows).foldl (fillCell col) acc) a).1).cell r c).isSome
              = true) := by
  intro L
  induction L with
  | nil =>
    intro a hsh hcfg _
    exact ⟨hsh, hcfg, fun c hc => absurd hc (List.not_mem_nil c)⟩
  | cons c0 t ih =>
    intro a hsh hcfg hmem
    rw [List.foldl_cons]
    have hc0 : c0 < cfg.cols := hmem c0 (by simp)
    obtain ⟨q1, q2, q3, q4⟩ := fillCell_full c0 hc0 (List.range cfg.rows) a hsh hcfg
      (fun r hr => List.mem_range.mp hr)
    obtain ⟨p1, p2, p3⟩ := ih _ q1 q2 (fun c hc => hmem c (by simp [hc]))
    refine ⟨p1, p2, fun c hc r hrr => ?_⟩
    rcases List.mem_cons.mp hc with h | h
    · subst h
      have mono : ∀ (l2 : List Nat) (b : Grid × Rng × List Gem) (r' c' : Nat),
          (b.1.cell r' c').isSome = true →
          (((l2.foldl (fun acc col => (List.range cfg.rows).foldl (fillCell col) acc)
            b).1).cell r' c').isSome = true := by
        intro l2
        induction l2 with
        | nil => intro b r' c' h; exact h
        | cons x xs ihx =>
          intro b r' c' h
          rw [List.foldl_cons]
          refine ihx _ r' c' ?_
          have monoCol : ∀ (l3 : List Nat) (d : Grid × Rng × List Gem) (r' c' : Nat),
              (d.1.cell r' c').isSome = true →
              ((l3.foldl (fillCell x) d).1.cell r' c').isSome = true := by
            intro l3
            induction l3 with
            | nil => intro d r' c' hd; exact hd
            | cons y ys ihy =>
              intro d r' c' hd
              rw [List.foldl_cons]
              refine ihy _ r' c' ?_
              cases h1 : d.1.cell y x with
              | some gem => simpa [fillCell, h1] using hd
              | none =>
                have : (fillCell x d y).1 = d.1.setCell y x
                    (some (Gem.mk (d.1.getRandomGemType d.2.1).1 x y Special.snone)) := by
                  simp [fillCell, h1, Grid.createGemAt]
                rw [this]
                exact isSome_cell_setCell_mono y x _ hd
          exact monoCol _ _ r' c' h
      exact mono t _ r c (q4 r (List.mem_range.mpr hrr))
    · exact p3 c h r hrr

theorem filterMap_length_of_isSome {α β : Type} (f : α → Option β) :
    ∀ (l : List α), (∀ x ∈ l, (f x).isSome = true) →
      (l.filterMap f).length = l.length := by
  intro l
  induction l with
  | nil => intro _; rfl
  | cons x t ih =>
    intro h
    have hx := h x (by simp)
    rw [List.filterMap_cons]
    cases hfx : f x with
    | none => rw [hfx] at hx; exact absurd hx (by simp)
    | some y =>
      simp only [List.length_cons]
      rw [ih (fun z hz => h z (by simp [hz]))]

theorem flatten_length_const {α β : Type} (k : Nat) (f : α → List β) :
    ∀ (L : List α), (∀ x ∈ L, (f x).length = k) →
      ((L.map f).flatten).length = L.length * k := by
  intro L
  induction L with
  | nil => intro _; simp
  | cons x t ih =>
    intro h
    simp only [List.map_cons, List.flatten_cons, List.length_append, List.length_cons]
    rw [h x (by simp), ih (fun z hz => h z (by simp [hz]))]
    ring

theorem allGems_length_full (g : Grid)
    (h : ∀ r, r < g.config.rows → ∀ c, c < g.config.cols →
      (g.cell r c).isSome = true) :
    g.allGems.length = g.config.rows * g.config.cols := by
  rw [Grid.allGems]
  rw [flatten_length_const g.config.cols (fun row =>
    (List.range g.config.cols).filterMap (fun col => g.cell row col))]
  · rw [List.length_range]
  · intro row hrow
    rw [filterMap_length_of_isSome _ _ (fun c hc =>
      h row (List.mem_range.mp hrow) c (List.mem_range.mp hc))]
    exact List.length_range g.config.cols

/-- C7: on a well-shaped board, removing any set of tiles and then
running `applyGravity` followed by `fillEmpty` leaves no empty cell and
exactly `rows × cols` gems on the grid. -/
theorem c7_gravity_fill_conservation (g : Grid) (tiles : List Gem) (rng : Rng)
    (hs : Shaped g) :
    (∀ r, r < g.config.rows → ∀ c, c < g.config.cols →
      (((((g.removeGems tiles).applyGravity).1).fillEmpty rng).1.cell r c).isSome
        = true) ∧
    ((((g.removeGems tiles).applyGravity).1).fillEmpty rng).1.allGems.length
      = g.config.rows * g.config.cols := by
  have hs0 : Shaped (g.removeGems tiles) := shaped_removeGems hs tiles
  have hc0 : (g.removeGems tiles).config = g.config := config_removeGems g tiles
  obtain ⟨hs1, hc1⟩ := shaped_config_applyGravity hs0
  have hc1g : ((g.removeGems tiles).applyGravity).1.config = g.config := hc1.trans hc0
  rw [Grid.fillEmpty]
  obtain ⟨p1, p2, p3⟩ := fill_all_full
    (List.range ((g.removeGems tiles).applyGravity).1.config.cols)
    (((g.removeGems tiles).applyGravity).1, rng, []) hs1 rfl
    (fun c hc => List.mem_range.mp hc)
  have hall : ∀ r, r < g.config.rows → ∀ c, c < g.config.cols →
      ((((List.range ((g.removeGems tiles).applyGravity).1.config.cols).foldl
        (fun acc col =>
          (List.range ((g.removeGems tiles).applyGravity).1.config.rows).foldl
            (fillCell col) acc)
        (((g.removeGems tiles).applyGravity).1, rng, [])).1).cell r c).isSome
          = true := by
    intro r hr c hc
    exact p3 c (List.mem_range.mpr (by rw [hc1g]; exact hc)) r (by rw [hc1g]; exact hr)
  refine ⟨hall, ?_⟩
  have p2g := p2.trans hc1g
  have hcount := allGems_length_full
    ((List.range ((g.removeGems tiles).applyGravity).1.config.cols).foldl
      (fun acc col =>
        (List.range ((g.removeGems tiles).applyGravity).1.config.rows).foldl
          (fillCell col) acc)
      (((g.removeGems tiles).applyGravity).1, rng, [])).1
    (fun r hr c hc =>
      hall r (by rw [p2g] at hr; exact hr) c (by rw [p2g] at hc; exact hc))
  rw [hcount, p2g]

/-- Concrete instantiation of `c7_gravity_fill_conservation` on 2×2. -/
theorem c7_gravity_fill_conservation_witness :
    (∀ r, r < (mkGrid 4 [[pg 0, pg 1], [pg 1, pg 0]]).config.rows →
      ∀ c, c < (mkGrid 4 [[pg 0, pg 1], [pg 1, pg 0]]).config.cols →
      ((((((mkGrid 4 [[pg 0, pg 1], [pg 1, pg 0]]).removeGems
        [Gem.mk 0 0 0 Special.snone]).applyGravity).1).fillEmpty
          (Rng.mk (fun n => n) 0)).1.cell r c).isSome = true) ∧
    ((((mkGrid 4 [[pg 0, pg 1], [pg 1, pg 0]]).removeGems
      [Gem.mk 0 0 0 Special.snone]).applyGravity).1.fillEmpty
        (Rng.mk (fun n => n) 0)).1.allGems.length
      = (mkGrid 4 [[pg 0, pg 1], [pg 1, pg 0]]).config.rows
          * (mkGrid 4 [[pg 0, pg 1], [pg 1, pg 0]]).config.cols :=
  c7_gravity_fill_conservation (mkGrid 4 [[pg 0, pg 1], [pg 1, pg 0]])
    [Gem.mk 0 0 0 Special.snone] (Rng.mk (fun n => n) 0)
    (by constructor
        · decide
        · decide)

theorem foldl_congr_id {α β : Type} (f : α → β → α) :
    ∀ (l : List β), (∀ a x, x ∈ l → f a x = a) → ∀ a, l.foldl f a = a := by
  intro l
  induction l with
  | nil => intro _ a; rfl
  | cons x t ih =>
    intro h a
    rw [List.foldl_cons, h a x (by simp), ih (fun a' y hy => h a' y (by simp [hy]))]

theorem ordPairs_mem : ∀ {l : List Nat} {p : Nat × Nat}, p ∈ ordPairs l →
    p.1 ∈ l ∧ p.2 ∈ l := by
  intro l
  induction l with
  | nil => intro p hp; simp [ordPairs] at hp
  | cons x t ih =>
    intro p hp
    rw [ordPairs] at hp
    rcases List.mem_append.mp hp with h | h
    · obtain ⟨y, hy, hxy⟩ := List.mem_map.mp h
      subst hxy
      exact ⟨by simp, by simp [hy]⟩
    · obtain ⟨h1, h2⟩ := ih h
      exact ⟨by simp [h1], by simp [h2]⟩

theorem mapAdd_idx_lt {n : Nat} {m : List (Gem × List Nat)} {g : Gem} {idx : Nat}
    (hm : ∀ e ∈ m, ∀ i ∈ e.2, i < n) (hidx : idx < n) :
    ∀ e ∈ mapAdd m g idx, ∀ i ∈ e.2, i < n := by
  intro e he i hi
  rw [mapAdd] at he
  split at he
  · obtain ⟨p, hp, hpe⟩ := List.mem_map.mp he
    by_cases hpg : p.1 = g
    · rw [if_pos hpg] at hpe
      subst hpe
      simp only [List.mem_append, List.mem_singleton] at hi
      rcases hi with h | h
      · exact hm p hp i h
      · omega
    · rw [if_neg hpg] at hpe
      subst hpe
      exact hm p hp i hi
  · rcases List.mem_append.mp he with h | h
    · exact hm e h i hi
    · simp only [List.mem_singleton] at h
      subst h
      simp only [List.mem_singleton] at hi
      omega

theorem buildGemToGroups_idx_lt (ms0 : List (List Gem)) :
    ∀ e ∈ buildGemToGroups ms0, ∀ i ∈ e.2, i < ms0.length := by
  rw [buildGemToGroups]
  have main : ∀ (L : List (Nat × List Gem)) (m : List (Gem × List Nat)),
      (∀ p ∈ L, p.1 < ms0.length) → (∀ e ∈ m, ∀ i ∈ e.2, i < ms0.length) →
      ∀ e ∈ L.foldl (fun m2 p => p.2.foldl (fun m3 g => mapAdd m3 g p.1) m2) m,
        ∀ i ∈ e.2, i < ms0.length := by
    intro L
    induction L with
    | nil => intro m _ hm; exact hm
    | cons p t ih =>
      intro m hL hm
      rw [List.foldl_cons]
      refine ih _ (fun q hq => hL q (by simp [hq])) ?_
      have hp : p.1 < ms0.length := hL p (by simp)
      exact foldl_preserve
        (P := fun m2 => ∀ e ∈ m2, ∀ i ∈ e.2, i < ms0.length)
        (fun m2 g hm2 => mapAdd_idx_lt hm2 hp) p.2 m hm
  refine main ms0.enum [] (fun p hp => ?_) (by simp)
  exact (List.fst_lt_of_mem_enum hp)

theorem ltScan_singleton (group : List Gem) :
    ltScan [group] (buildGemToGroups [group]) = LtAcc.mk [] [] := by
  rw [ltScan]
  have hidx := buildGemToGroups_idx_lt [group]
  refine foldl_congr_id _ _ (fun a e he => ?_) _
  by_cases hlen : e.2.length < 2
  · rw [if_pos hlen]
  · rw [if_neg hlen]
    refine foldl_congr_id _ _ (fun a' pr hpr => ?_) a
    obtain ⟨hp1, hp2⟩ := ordPairs_mem hpr
    have h1 : pr.1 = 0 := by
      have := hidx e he pr.1 hp1
      simpa using this
    have h2 : pr.2 = 0 := by
      have := hidx e he pr.2 hp2
      simpa using this
    rw [ltScanPair, h1, h2, if_pos rfl]

theorem composeMatches_singleton (group : List Gem) :
    composeMatches [group] (ltScan [group] (buildGemToGroups [group]))
      (buildGemToGroups [group]) = [(group, none)] := by
  rw [ltScan_singleton, composeMatches]
  rfl

theorem markGroup_plain (group : List Gem) :
    ∀ (acc : PassAcc), markGroup acc group false false =
      { acc with toRemove := group.foldl pushSet acc.toRemove } := by
  induction group with
  | nil => intro acc; rfl
  | cons g t ih =>
    intro acc
    rw [markGroup, List.foldl_cons]
    have : ({ acc with
        toRemove := pushSet acc.toRemove g
        bombsToExplode := if false && g.isBomb then pushSet acc.bombsToExplode g
          else acc.bombsToExplode
        plusesToExplode := if false && g.isPlus then pushSet acc.plusesToExplode g
          else acc.plusesToExplode } : PassAcc)
        = { acc with toRemove := pushSet acc.toRemove g } := by
      simp
    rw [this]
    have ih2 := ih { acc with toRemove := pushSet acc.toRemove g }
    rw [markGroup] at ih2
    rw [ih2, List.foldl_cons]

theorem classifyGroup_len4 (acc : PassAcc) (group : List Gem)
    (hfb : group.find? (fun g => g.isBomb) = none)
    (hfp : group.find? (fun g => g.isPlus) = none)
    (hlen : group.length = 4) :
    classifyGroup acc (group, none) =
      { acc with
        toRemove := group.foldl pushSet acc.toRemove
        bombsToSpawn := acc.bombsToSpawn ++ [SpawnReq.mk (group.getD 2 dGem).gridY
          (group.getD 2 dGem).gridX (group.getD 2 dGem).type] } := by
  rw [classifyGroup]
  simp only [hfb, hfp, Option.isSome_none, hlen]
  norm_num
  rw [markGroup_plain]

theorem classifyGroup_len5 (acc : PassAcc) (group : List Gem)
    (hfb : group.find? (fun g => g.isBomb) = none)
    (hfp : group.find? (fun g => g.isPlus) = none)
    (hlen : group.length = 5) :
    classifyGroup acc (group, none) =
      { acc with
        toRemove := group.foldl pushSet acc.toRemove
        plusesToSpawn := acc.plusesToSpawn ++ [SpawnReq.mk (group.getD 2 dGem).gridY
          (group.getD 2 dGem).gridX (group.getD 2 dGem).type] } := by
  rw [classifyGroup]
  simp only [hfb, hfp, Option.isSome_none, hlen]
  norm_num
  rw [markGroup_plain]

theorem mExpand_no_specials (grid : Grid) (pass : PassAcc)
    (hb : pass.bombsToExplode = []) (hp : pass.plusesToExplode = []) :
    mExpand grid pass =
      MExpSt.mk pass.toRemove [] [] [] [] [] := by
  rw [mExpand, hb, hp, mRun]
  simp [mDone]

theorem spawnSpecials_one_bomb (grid : Grid) (pass : PassAcc) (req : SpawnReq)
    (hb : pass.bombsToSpawn = [req]) (hp : pass.plusesToSpawn = []) :
    spawnSpecials grid pass =
      (grid.setCell req.row req.col (some (Gem.mk req.ty req.col req.row Special.sbomb)),
        [Gem.mk req.ty req.col req.row Special.sbomb], []) := by
  rw [spawnSpecials, hb, hp]
  rfl

theorem spawnSpecials_one_plus (grid : Grid) (pass : PassAcc) (req : SpawnReq)
    (hb : pass.bombsToSpawn = []) (hp : pass.plusesToSpawn = [req]) :
    spawnSpecials grid pass =
      (grid.setCell req.row req.col (some (Gem.mk req.ty req.col req.row Special.splus)),
        [], [Gem.mk req.ty req.col req.row Special.splus]) := by
  rw [spawnSpecials, hb, hp]
  rfl

theorem spawnTriggered_nil (sg : Gem) : spawnTriggered [] [] sg = false := rfl

theorem processMatchesOnce_single4 (s : Session) (group : List Gem)
    (hlen : group.length = 4) (hsp : ∀ x ∈ group, x.special = Special.snone)
    (hnd : group.Nodup) :
    processMatchesOnce s [group] =
      (Session.mk ((s.grid.removeGems group).setCell (group.getD 2 dGem).gridY
          (group.getD 2 dGem).gridX
          (some (Gem.mk (group.getD 2 dGem).type (group.getD 2 dGem).gridX
            (group.getD 2 dGem).gridY Special.sbomb)))
          (s.score + 60) s.moves,
       PassInfo.mk 4 1 0 0 group group [] 60 [] 0) := by
  have hfb : group.find? (fun g => g.isBomb) = none :=
    List.find?_eq_none.mpr (fun x hx => by simp [Gem.isBomb, hsp x hx])
  have hfp : group.find? (fun g => g.isPlus) = none :=
    List.find?_eq_none.mpr (fun x hx => by simp [Gem.isPlus, hsp x hx])
  have hne : group ≠ [] := by
    intro h
    rw [h] at hlen
    simp at hlen
  have hjs : List.foldl pushSet ([] : List Gem) group = group := jsDedup_eq_self hnd
  have hpass : firstPass (composeMatches [group]
      (ltScan [group] (buildGemToGroups [group])) (buildGemToGroups [group]))
      = PassAcc.mk group [SpawnReq.mk (group.getD 2 dGem).gridY
          (group.getD 2 dGem).gridX (group.getD 2 dGem).type] [] [] [] := by
    rw [composeMatches_singleton, firstPass, List.foldl_cons,
      classifyGroup_len4 _ _ hfb hfp hlen, List.foldl_nil]
    simp [hjs]
  have hexp := mExpand_no_specials s.grid (PassAcc.mk group
    [SpawnReq.mk (group.getD 2 dGem).gridY (group.getD 2 dGem).gridX
      (group.getD 2 dGem).type] [] [] []) rfl rfl
  simp only [processMatchesOnce, hpass, hexp]
  rw [spawnSpecials_one_bomb _ _ (SpawnReq.mk (group.getD 2 dGem).gridY
    (group.getD 2 dGem).gridX (group.getD 2 dGem).type) rfl rfl]
  simp only [spawnTriggered_nil, List.filter_cons, List.filter_nil, Bool.false_eq_true,
    if_false, ne_eq, not_true_eq_false, or_self, ite_false, if_neg hne, hlen]
  simp [hne, hlen]

theorem processMatchesOnce_single5 (s : Session) (group : List Gem)
    (hlen : group.length = 5) (hsp : ∀ x ∈ group, x.special = Special.snone)
    (hnd : group.Nodup) :
    processMatchesOnce s [group] =
      (Session.mk ((s.grid.removeGems group).setCell (group.getD 2 dGem).gridY
          (group.getD 2 dGem).gridX
          (some (Gem.mk (group.getD 2 dGem).type (group.getD 2 dGem).gridX
            (group.getD 2 dGem).gridY Special.splus)))
          (s.score + 80) s.moves,
       PassInfo.mk 5 0 1 0 group group [] 80 [] 0) := by
  have hfb : group.find? (fun g => g.isBomb) = none :=
    List.find?_eq_none.mpr (fun x hx => by simp [Gem.isBomb, hsp x hx])
  have hfp : group.find? (fun g => g.isPlus) = none :=
    List.find?_eq_none.mpr (fun x hx => by simp [Gem.isPlus, hsp x hx])
  have hne : group ≠ [] := by
    intro h
    rw [h] at hlen
    simp at hlen
  have hjs : List.foldl pushSet ([] : List Gem) group = group := jsDedup_eq_self hnd
  have hpass : firstPass (composeMatches [group]
      (ltScan [group] (buildGemToGroups [group])) (buildGemToGroups [group]))
      = PassAcc.mk group [] [SpawnReq.mk (group.getD 2 dGem).gridY
          (group.getD 2 dGem).gridX (group.getD 2 dGem).type] [] [] := by
    rw [composeMatches_singleton, firstPass, List.foldl_cons,
      classifyGroup_len5 _ _ hfb hfp hlen, List.foldl_nil]
    simp [hjs]
  have hexp := mExpand_no_specials s.grid (PassAcc.mk group []
    [SpawnReq.mk (group.getD 2 dGem).gridY (group.getD 2 dGem).gridX
      (group.getD 2 dGem).type] [] []) rfl rfl
  simp only [processMatchesOnce, hpass, hexp]
  rw [spawnSpecials_one_plus _ _ (SpawnReq.mk (group.getD 2 dGem).gridY
    (group.getD 2 dGem).gridX (group.getD 2 dGem).type) rfl rfl]
  simp only [spawnTriggered_nil, List.filter_cons, List.filter_nil, Bool.false_eq_true,
    if_false, ne_eq, not_true_eq_false, or_self, ite_false, if_neg hne, hlen]
  simp [hne, hlen]

/-- C2: in a resolution pass over a group that contains no special tile
and is part of no L/T union, a run of exactly 4 same-type tiles spawns
exactly one BOMB (and no PLUS) at the run's middle-index tile
(`group[group.length / 2]`), with all 4 tiles removed and nothing else;
a run of exactly 5 spawns exactly one PLUS there, with all 5 removed. -/
theorem c2_match_length_spawn_mapping (s : Session) (group4 group5 : List Gem)
    (hsh : Shaped s.grid)
    (h4len : group4.length = 4)
    (h4sp : ∀ x ∈ group4, x.special = Special.snone)
    (h4nd : group4.Nodup)
    (h4y : (group4.getD 2 dGem).gridY < s.grid.config.rows)
    (h4x : (group4.getD 2 dGem).gridX < s.grid.config.cols)
    (h5len : group5.length = 5)
    (h5sp : ∀ x ∈ group5, x.special = Special.snone)
    (h5nd : group5.Nodup)
    (h5y : (group5.getD 2 dGem).gridY < s.grid.config.rows)
    (h5x : (group5.getD 2 dGem).gridX < s.grid.config.cols) :
    ((processMatchesOnce s [group4]).2.finalRemoved = group4 ∧
      (processMatchesOnce s [group4]).2.bombsSpawned = 1 ∧
      (processMatchesOnce s [group4]).2.plusesSpawned = 0 ∧
      (processMatchesOnce s [group4]).1.grid.cell (group4.getD 2 dGem).gridY
        (group4.getD 2 dGem).gridX
        = some (Gem.mk (group4.getD 2 dGem).type (group4.getD 2 dGem).gridX
            (group4.getD 2 dGem).gridY Special.sbomb)) ∧
    ((processMatchesOnce s [group5]).2.finalRemoved = group5 ∧
      (processMatchesOnce s [group5]).2.bombsSpawned = 0 ∧
      (processMatchesOnce s [group5]).2.plusesSpawned = 1 ∧
      (processMatchesOnce s [group5]).1.grid.cell (group5.getD 2 dGem).gridY
        (group5.getD 2 dGem).gridX
        = some (Gem.mk (group5.getD 2 dGem).type (group5.getD 2 dGem).gridX
            (group5.getD 2 dGem).gridY Special.splus)) := by
  have hshr4 : Shaped (s.grid.removeGems group4) := shaped_removeGems hsh group4
  have hcfg4 : (s.grid.removeGems group4).config = s.grid.config :=
    config_removeGems s.grid group4
  have hshr5 : Shaped (s.grid.removeGems group5) := shaped_removeGems hsh group5
  have hcfg5 : (s.grid.removeGems group5).config = s.grid.config :=
    config_removeGems s.grid group5
  constructor
  · rw [processMatchesOnce_single4 s group4 h4len h4sp h4nd]
    refine ⟨rfl, rfl, rfl, ?_⟩
    have hbr : (group4.getD 2 dGem).gridY < (s.grid.removeGems group4).gems.length := by
      rw [hshr4.1, hcfg4]
      exact h4y
    have hbc : (group4.getD 2 dGem).gridX
        < ((s.grid.removeGems group4).gems.getD (group4.getD 2 dGem).gridY []).length := by
      rw [hshr4.2 (group4.getD 2 dGem).gridY (by rw [hcfg4]; exact h4y), hcfg4]
      exact h4x
    show ((s.grid.removeGems group4).setCell _ _ _).cell _ _ = _
    rw [cell_setCell_inb hbr hbc, if_pos ⟨rfl, rfl⟩]
  · rw [processMatchesOnce_single5 s group5 h5len h5sp h5nd]
    refine ⟨rfl, rfl, rfl, ?_⟩
    have hbr : (group5.getD 2 dGem).gridY < (s.grid.removeGems group5).gems.length := by
      rw [hshr5.1, hcfg5]
      exact h5y
    have hbc : (group5.getD 2 dGem).gridX
        < ((s.grid.removeGems group5).gems.getD (group5.getD 2 dGem).gridY []).length := by
      rw [hshr5.2 (group5.getD 2 dGem).gridY (by rw [hcfg5]; exact h5y), hcfg5]
      exact h5x
    show ((s.grid.removeGems group5).setCell _ _ _).cell _ _ = _
    rw [cell_setCell_inb hbr hbc, if_pos ⟨rfl, rfl⟩]

/-- Concrete instantiation of `c2_match_length_spawn_mapping`: a 2×5
board with a 4-run of type 0 in row 0 and a 5-run of type 2 in row 1. -/
theorem c2_match_length_spawn_mapping_witness :
    ((processMatchesOnce (Session.mk (mkGrid 4 [[pg 0, pg 0, pg 0, pg 0, pg 1],
        [pg 2, pg 2, pg 2, pg 2, pg 2]]) 0 30)
      [[Gem.mk 0 0 0 Special.snone, Gem.mk 0 1 0 Special.snone,
        Gem.mk 0 2 0 Special.snone, Gem.mk 0 3 0 Special.snone]]).2.finalRemoved
        = [Gem.mk 0 0 0 Special.snone, Gem.mk 0 1 0 Special.snone,
           Gem.mk 0 2 0 Special.snone, Gem.mk 0 3 0 Special.snone] ∧
      (processMatchesOnce (Session.mk (mkGrid 4 [[pg 0, pg 0, pg 0, pg 0, pg 1],
        [pg 2, pg 2, pg 2, pg 2, pg 2]]) 0 30)
      [[Gem.mk 0 0 0 Special.snone, Gem.mk 0 1 0 Special.snone,
        Gem.mk 0 2 0 Special.snone, Gem.mk 0 3 0 Special.snone]]).2.bombsSpawned = 1 ∧
      (processMatchesOnce (Session.mk (mkGrid 4 [[pg 0, pg 0, pg 0, pg 0, pg 1],
        [pg 2, pg 2, pg 2, pg 2, pg 2]]) 0 30)
      [[Gem.mk 0 0 0 Special.snone, Gem.mk 0 1 0 Special.snone,
        Gem.mk 0 2 0 Special.snone, Gem.mk 0 3 0 Special.snone]]).2.plusesSpawned = 0 ∧
      (processMatchesOnce (Session.mk (mkGrid 4 [[pg 0, pg 0, pg 0, pg 0, pg 1],
        [pg 2, pg 2, pg 2, pg 2, pg 2]]) 0 30)
      [[Gem.mk 0 0 0 Special.snone, Gem.mk 0 1 0 Special.snone,
        Gem.mk 0 2 0 Special.snone, Gem.mk 0 3 0 Special.snone]]).1.grid.cell 0 2
        = some (Gem.mk 0 2 0 Special.sbomb)) ∧
    ((processMatchesOnce (Session.mk (mkGrid 4 [[pg 0, pg 0, pg 0, pg 0, pg 1],
        [pg 2, pg 2, pg 2, pg 2, pg 2]]) 0 30)
      [[Gem.mk 2 0 1 Special.snone, Gem.mk 2 1 1 Special.snone,
        Gem.mk 2 2 1 Special.snone, Gem.mk 2 3 1 Special.snone,
        Gem.mk 2 4 1 Special.snone]]).2.finalRemoved
        = [Gem.mk 2 0 1 Special.snone, Gem.mk 2 1 1 Special.snone,
           Gem.mk 2 2 1 Special.snone, Gem.mk 2 3 1 Special.snone,
           Gem.mk 2 4 1 Special.snone] ∧
      (processMatchesOnce (Session.mk (mkGrid 4 [[pg 0, pg 0, pg 0, pg 0, pg 1],
        [pg 2, pg 2, pg 2, pg 2, pg 2]]) 0 30)
      [[Gem.mk 2 0 1 Special.snone, Gem.mk 2 1 1 Special.snone,
        Gem.mk 2 2 1 Special.snone, Gem.mk 2 3 1 Special.snone,
        Gem.mk 2 4 1 Special.snone]]).2.bombsSpawned = 0 ∧
      (processMatchesOnce (Session.mk (mkGrid 4 [[pg 0, pg 0, pg 0, pg 0, pg 1],
        [pg 2, pg 2, pg 2, pg 2, pg 2]]) 0 30)
      [[Gem.mk 2 0 1 Special.snone, Gem.mk 2 1 1 Special.snone,
        Gem.mk 2 2 1 Special.snone, Gem.mk 2 3 1 Special.snone,
        Gem.mk 2 4 1 Special.snone]]).2.plusesSpawned = 1 ∧
      (processMatchesOnce (Session.mk (mkGrid 4 [[pg 0, pg 0, pg 0, pg 0, pg 1],
        [pg 2, pg 2, pg 2, pg 2, pg 2]]) 0 30)
      [[Gem.mk 2 0 1 Special.snone, Gem.mk 2 1 1 Special.snone,
        Gem.mk 2 2 1 Special.snone, Gem.mk 2 3 1 Special.snone,
        Gem.mk 2 4 1 Special.snone]]).1.grid.cell 1 2
        = some (Gem.mk 2 2 1 Special.splus)) :=
  c2_match_length_spawn_mapping
    (Session.mk (mkGrid 4 [[pg 0, pg 0, pg 0, pg 0, pg 1],
      [pg 2, pg 2, pg 2, pg 2, pg 2]]) 0 30)
    [Gem.mk 0 0 0 Special.snone, Gem.mk 0 1 0 Special.snone,
      Gem.mk 0 2 0 Special.snone, Gem.mk 0 3 0 Special.snone]
    [Gem.mk 2 0 1 Special.snone, Gem.mk 2 1 1 Special.snone,
      Gem.mk 2 2 1 Special.snone, Gem.mk 2 3 1 Special.snone,
      Gem.mk 2 4 1 Special.snone]
    (by constructor
        · decide
        · decide)
    (by decide) (by decide) (by decide) (by decide) (by decide)
    (by decide) (by decide) (by decide) (by decide) (by decide)

/-- Pre-swap board of the C1 counterexample: swapping (0,3) with (1,3)
creates a horizontal 4-run of type 0 in row 0 (spawning a bomb at
(0,2)) together with a 3-run in row 2 containing a PLUS at (2,2), whose
column runs through the bomb-spawn cell. -/
def exGridPre : Grid := mkGrid 4 [
  [pg 0, pg 0, pg 0, pg 3, pg 2],
  [pg 2, pg 3, pg 2, pg 0, pg 1],
  [pg 1, pg 1, (1, Special.splus), pg 2, pg 0],
  [pg 3, pg 2, pg 3, pg 0, pg 1],
  [pg 0, pg 1, pg 0, pg 1, pg 2]]

def c1Grid : Grid :=
  (exGridPre.swapGems (Gem.mk 3 3 0 Special.snone) (Gem.mk 0 3 1 Special.snone)).1

def c1Run : Session × PassInfo :=
  processMatchesOnce (Session.mk c1Grid 0 30) c1Grid.findMatches

/-- C1 counterexample: on the post-swap board `c1Grid` (a normal swap
producing matches), the MATCHING pass adds 250 points while the claimed
formula `removedCount×10 + bombsSpawned×20 + plusesSpawned×30 +
explosionAddedCount×10` gives 190: the spawned bomb lies on the queued
plus's column, so it is chain-triggered inside the same pass and its
explosion adds a further 20 points per tile removed. -/
theorem c1_scoring_counterexample :
    c1Grid.findMatches ≠ [] ∧
    c1Run.2.chainRemoved ≠ [] ∧
    c1Run.1.score ≠ (Session.mk c1Grid 0 30).score
      + (c1Run.2.removedCount * 10 + c1Run.2.bombsSpawned * 20
        + c1Run.2.plusesSpawned * 30 + c1Run.2.explosionAddedCount * 10) := by
  decide

theorem mHitGem_split {st : MExpSt} {init : List Gem} (g : Gem)
    (h : st.toRemove = init ++ st.explosionAdded) :
    (mHitGem st g).toRemove = init ++ (mHitGem st g).explosionAdded := by
  rw [mHitGem]
  split
  · exact h
  · rename_i hg
    have hga : g ∉ st.explosionAdded := fun hx =>
      hg (h ▸ List.mem_append.mpr (Or.inr hx))
    simp only [pushSet, if_neg hg, if_neg hga]
    rw [h, List.append_assoc]

theorem mHitCell_split {st : MExpSt} {init : List Gem} (grid : Grid) (rc : Int × Int)
    (h : st.toRemove = init ++ st.explosionAdded) :
    (mHitCell grid st rc).toRemove = init ++ (mHitCell grid st rc).explosionAdded := by
  rw [mHitCell]
  cases grid.getGemAt rc.1 rc.2 with
  | some g => exact mHitGem_split g h
  | none => exact h

theorem mStep_split {init : List Gem} (grid : Grid) (st : MExpSt)
    (h : st.toRemove = init ++ st.explosionAdded) :
    (mStep grid st).toRemove = init ++ (mStep grid st).explosionAdded := by
  rw [mStep]
  cases st.queueBombs with
  | cons bomb rest =>
    exact foldl_preserve
      (P := fun (x : MExpSt) => x.toRemove = init ++ x.explosionAdded)
      (fun x rc hx => mHitCell_split grid rc hx) _ _ h
  | nil =>
    cases st.queuePluses with
    | cons plus rest =>
      exact foldl_preserve
        (P := fun (x : MExpSt) => x.toRemove = init ++ x.explosionAdded)
        (fun x rc hx => mHitCell_split grid rc hx) _ _ h
    | nil => exact h

theorem mRun_split {init : List Gem} (grid : Grid) :
    ∀ (fuel : Nat) (st : MExpSt), st.toRemove = init ++ st.explosionAdded →
      (mRun grid fuel st).toRemove = init ++ (mRun grid fuel st).explosionAdded := by
  intro fuel
  induction fuel with
  | zero => intro st h; exact h
  | succ n ih =>
    intro st h
    rw [mRun]
    split
    · exact h
    · exact ih _ (mStep_split grid st h)

theorem mExpand_split (grid : Grid) (pass : PassAcc) :
    (mExpand grid pass).toRemove = pass.toRemove ++ (mExpand grid pass).explosionAdded := by
  rw [mExpand]
  exact mRun_split grid _ _ (by simp)

theorem moves_processExplosionsS (s : Session) (sb : List (Gem × Nat))
    (sp : List Gem) : (processExplosionsS s sb sp).1.moves = s.moves := by
  rw [processExplosionsS]
  split
  · rfl
  · rfl

theorem score_processExplosionsS (s : Session) (sb : List (Gem × Nat))
    (sp : List Gem) :
    (processExplosionsS s sb sp).1.score
      = s.score + (processExplosionsS s sb sp).2.1.length * 20 := by
  rw [processExplosionsS]
  split
  · rename_i h
    simp
  · rename_i h
    show s.score + (s.grid.processExplosions sb sp).2 = _
    rw [Grid.processExplosions]

theorem moves_processMatchesOnce (s : Session) (ms0 : List (List Gem)) :
    (processMatchesOnce s ms0).1.moves = s.moves := by
  simp only [processMatchesOnce]
  split
  all_goals try split
  all_goals first
    | (rw [moves_processExplosionsS])
    | rfl

theorem moves_applyGravityAndFillS (s : Session) (rng : Rng) :
    (applyGravityAndFillS s rng).1.moves = s.moves := rfl

theorem moves_processMatchesLoop :
    ∀ (fuel : Nat) (s : Session) (rng : Rng) (ms0 : List (List Gem)),
      (processMatchesLoop fuel s rng ms0).1.moves = s.moves := by
  intro fuel
  induction fuel with
  | zero => intro s rng ms0; rfl
  | succ n ih =>
    intro s rng ms0
    rw [processMatchesLoop]
    split
    · rw [ih]
      rw [moves_applyGravityAndFillS, moves_processMatchesOnce]
    · rw [moves_applyGravityAndFillS, moves_processMatchesOnce]

/-- C1 (amended): a normal matched swap decrements `movesRemaining` by
exactly 1 (cascades included), and each MATCHING pass adds exactly
`removedCount×10 + bombsSpawned×20 + plusesSpawned×30 +
explosionAddedCount×10` plus `20` per tile removed by the immediate
chain-trigger of a newly spawned special; the `explosionAdded` set is
exactly the removal beyond the initially matched groups. -/
theorem c1_scoring_and_move_decrement (s : Session) (ms0 : List (List Gem))
    (fuel : Nat) (rng : Rng) (gem1 gem2 : Gem)
    (hs1 : gem1.special = Special.snone) (hs2 : gem2.special = Special.snone)
    (hm : ((s.grid.swapGems gem1 gem2).1).findMatches ≠ []) :
    ((processMatchesOnce s ms0).1.score = s.score
      + ((processMatchesOnce s ms0).2.finalRemoved.length * 10
        + (processMatchesOnce s ms0).2.bombsSpawned * 20
        + (processMatchesOnce s ms0).2.plusesSpawned * 30
        + (processMatchesOnce s ms0).2.explosionAdded.length * 10
        + (processMatchesOnce s ms0).2.chainRemoved.length * 20)) ∧
    ((processMatchesOnce s ms0).2.finalRemoved
      = (processMatchesOnce s ms0).2.initialRemoved
        ++ (processMatchesOnce s ms0).2.explosionAdded) ∧
    ((processMatchesOnce s ms0).1.moves = s.moves) ∧
    ((performSwap fuel s rng gem1 gem2).session.moves = s.moves - 1) := by
  refine ⟨?_, ?_, moves_processMatchesOnce s ms0, ?_⟩
  · simp only [processMatchesOnce]
    split
    all_goals try split
    all_goals try rw [score_processExplosionsS]
    all_goals dsimp only
    all_goals try simp only [List.length_nil]
    all_goals omega
  · simp only [processMatchesOnce]
    exact mExpand_split s.grid _
  · have c1 : ¬(gem1.isPlus = true ∧ gem2.isPlus = true) := by
      simp [isPlus_of_none hs1]
    have c2 : ¬((gem1.isBomb = true ∧ gem2.isPlus = true)
        ∨ (gem2.isBomb = true ∧ gem1.isPlus = true)) := by
      simp [isPlus_of_none hs1, isPlus_of_none hs2]
    have c3 : ¬(gem1.isBomb = true ∧ gem2.isBomb = true) := by
      simp [isBomb_of_none hs1]
    simp only [performSwap, if_neg c1, if_neg c2, if_neg c3, if_pos hm]
    rw [moves_processMatchesLoop]

/-- Concrete instantiation of `c1_scoring_and_move_decrement` on the
counterexample board. -/
theorem c1_scoring_and_move_decrement_witness :
    ((processMatchesOnce (Session.mk c1Grid 0 30) c1Grid.findMatches).1.score = 0
      + ((processMatchesOnce (Session.mk c1Grid 0 30)
            c1Grid.findMatches).2.finalRemoved.length * 10
        + (processMatchesOnce (Session.mk c1Grid 0 30)
            c1Grid.findMatches).2.bombsSpawned * 20
        + (processMatchesOnce (Session.mk c1Grid 0 30)
            c1Grid.findMatches).2.plusesSpawned * 30
        + (processMatchesOnce (Session.mk c1Grid 0 30)
            c1Grid.findMatches).2.explosionAdded.length * 10
        + (processMatchesOnce (Session.mk c1Grid 0 30)
            c1Grid.findMatches).2.chainRemoved.length * 20)) ∧
    ((processMatchesOnce (Session.mk c1Grid 0 30) c1Grid.findMatches).2.finalRemoved
      = (processMatchesOnce (Session.mk c1Grid 0 30)
          c1Grid.findMatches).2.initialRemoved
        ++ (processMatchesOnce (Session.mk c1Grid 0 30)
          c1Grid.findMatches).2.explosionAdded) ∧
    ((processMatchesOnce (Session.mk c1Grid 0 30) c1Grid.findMatches).1.moves = 30) ∧
    ((performSwap 3 (Session.mk exGridPre 0 30) (Rng.mk (fun n => n) 0)
      (Gem.mk 3 3 0 Special.snone) (Gem.mk 0 3 1 Special.snone)).session.moves
        = 30 - 1) :=
  c1_scoring_and_move_decrement (Session.mk exGridPre 0 30) c1Grid.findMatches 3
    (Rng.mk (fun n => n) 0) (Gem.mk 3 3 0 Special.snone) (Gem.mk 0 3 1 Special.snone)
    (by decide) (by decide) (by decide)

theorem score_mono_processMatchesOnce (s : Session) (ms0 : List (List Gem)) :
    s.score ≤ (processMatchesOnce s ms0).1.score := by
  simp only [processMatchesOnce]
  split
  all_goals try split
  all_goals try rw [score_processExplosionsS]
  all_goals dsimp only
  all_goals omega

theorem score_applyGravityAndFillS (s : Session) (rng : Rng) :
    (applyGravityAndFillS s rng).1.score = s.score := rfl

theorem score_mono_processMatchesLoop :
    ∀ (fuel : Nat) (s : Session) (rng : Rng) (ms0 : List (List Gem)),
      s.score ≤ (processMatchesLoop fuel s rng ms0).1.score := by
  intro fuel
  induction fuel with
  | zero => intro s rng ms0; exact Nat.le_refl _
  | succ n ih =>
    intro s rng ms0
    rw [processMatchesLoop]
    split
    · refine Nat.le_trans (score_mono_processMatchesOnce s ms0) ?_
      have h2 := ih (applyGravityAndFillS (processMatchesOnce s ms0).1 rng).1
        (applyGravityAndFillS (processMatchesOnce s ms0).1 rng).2
        ((applyGravityAndFillS (processMatchesOnce s ms0).1 rng).1.grid.findMatches)
      rw [score_applyGravityAndFillS] at h2
      exact h2
    · refine Nat.le_trans (score_mono_processMatchesOnce s ms0) ?_
      exact Nat.le_of_eq (score_applyGravityAndFillS (processMatchesOnce s ms0).1 rng).symm

theorem moves_clearBoardS (s : Session) : (clearBoardS s).moves = s.moves := by
  rw [clearBoardS]
  split
  · rfl
  · rfl

theorem score_mono_clearBoardS (s : Session) : s.score ≤ (clearBoardS s).score := by
  rw [clearBoardS]
  split
  · exact Nat.le_refl _
  · exact Nat.le_add_right _ _

theorem moves_explodePlusAtS (s : Session) (plus : Gem) :
    (explodePlusAtS s plus).1.moves = s.moves := by
  rw [explodePlusAtS]
  split
  · rfl
  · rfl

theorem score_mono_explodePlusAtS (s : Session) (plus : Gem) :
    s.score ≤ (explodePlusAtS s plus).1.score := by
  rw [explodePlusAtS]
  split
  · exact Nat.le_refl _
  · exact Nat.le_add_right _ _

theorem score_mono_processExplosionsS (s : Session) (sb : List (Gem × Nat))
    (sp : List Gem) : s.score ≤ (processExplosionsS s sb sp).1.score := by
  rw [score_processExplosionsS]
  exact Nat.le_add_right _ _

theorem moves_explodeAtS (s : Session) (bombGem : Gem) (radius : Nat) :
    (explodeAtS s bombGem radius).1.moves = s.moves :=
  moves_processExplosionsS s [(bombGem, radius)] []

theorem score_mono_explodeAtS (s : Session) (bombGem : Gem) (radius : Nat) :
    s.score ≤ (explodeAtS s bombGem radius).1.score :=
  score_mono_processExplosionsS s [(bombGem, radius)] []

theorem tail_moves (fuel : Nat) (x : Session) (rng : Rng) :
    (if (applyGravityAndFillS x rng).1.grid.findMatches ≠ [] then
        processMatchesLoop fuel (applyGravityAndFillS x rng).1
          (applyGravityAndFillS x rng).2
          (applyGravityAndFillS x rng).1.grid.findMatches
      else applyGravityAndFillS x rng).1.moves = x.moves := by
  split
  · rw [moves_processMatchesLoop, moves_applyGravityAndFillS]
  · rw [moves_applyGravityAndFillS]

theorem tail_score (fuel : Nat) (x : Session) (rng : Rng) :
    x.score ≤ (if (applyGravityAndFillS x rng).1.grid.findMatches ≠ [] then
        processMatchesLoop fuel (applyGravityAndFillS x rng).1
          (applyGravityAndFillS x rng).2
          (applyGravityAndFillS x rng).1.grid.findMatches
      else applyGravityAndFillS x rng).1.score := by
  split
  · have h2 := score_mono_processMatchesLoop fuel (applyGravityAndFillS x rng).1
      (applyGravityAndFillS x rng).2 ((applyGravityAndFillS x rng).1.grid.findMatches)
    rw [score_applyGravityAndFillS] at h2
    exact h2
  · exact Nat.le_of_eq (score_applyGravityAndFillS x rng).symm

theorem performSwap_two_plus (fuel : Nat) (s : Session) (rng : Rng)
    (gem1 gem2 : Gem) (h1 : gem1.isPlus = true) (h2 : gem2.isPlus = true) :
    (performSwap fuel s rng gem1 gem2).checkedGameOver = false ∧
    (performSwap fuel s rng gem1 gem2).session.moves = s.moves ∧
    s.score ≤ (performSwap fuel s rng gem1 gem2).session.score := by
  have hcond : (gem1.isPlus = true ∧ gem2.isPlus = true) := ⟨h1, h2⟩
  simp only [performSwap, if_pos hcond]
  refine ⟨by trivial, ?_, ?_⟩
  · rw [tail_moves, moves_clearBoardS]
  · exact Nat.le_trans
      (score_mono_clearBoardS (Session.mk (s.grid.swapGems gem1 gem2).1 s.score s.moves))
      (tail_score fuel _ rng)

theorem performSwap_bomb_plus (fuel : Nat) (s : Session) (rng : Rng)
    (gem1 gem2 : Gem)
    (hc1 : ¬(gem1.isPlus = true ∧ gem2.isPlus = true))
    (hbp : (gem1.isBomb = true ∧ gem2.isPlus = true)
      ∨ (gem2.isBomb = true ∧ gem1.isPlus = true)) :
    (performSwap fuel s rng gem1 gem2).checkedGameOver = false ∧
    (performSwap fuel s rng gem1 gem2).session.moves = s.moves ∧
    s.score ≤ (performSwap fuel s rng gem1 gem2).session.score := by
  simp only [performSwap, if_neg hc1, if_pos hbp]
  refine ⟨by trivial, ?_, ?_⟩
  · rw [tail_moves, moves_explodePlusAtS, moves_explodeAtS]
  · refine Nat.le_trans ?_ (tail_score fuel _ rng)
    refine Nat.le_trans
      (score_mono_explodeAtS (Session.mk (s.grid.swapGems gem1 gem2).1 s.score s.moves)
        (if gem1.isBomb = true then (s.grid.swapGems gem1 gem2).2.1
          else (s.grid.swapGems gem1 gem2).2.2) 1) ?_
    exact score_mono_explodePlusAtS _ _

theorem performSwap_two_bombs (fuel : Nat) (s : Session) (rng : Rng)
    (gem1 gem2 : Gem)
    (hc1 : ¬(gem1.isPlus = true ∧ gem2.isPlus = true))
    (hc2 : ¬((gem1.isBomb = true ∧ gem2.isPlus = true)
      ∨ (gem2.isBomb = true ∧ gem1.isPlus = true)))
    (hbb : gem1.isBomb = true ∧ gem2.isBomb = true) :
    (performSwap fuel s rng gem1 gem2).checkedGameOver = false ∧
    (performSwap fuel s rng gem1 gem2).session.moves = s.moves ∧
    s.score ≤ (performSwap fuel s rng gem1 gem2).session.score := by
  simp only [performSwap, if_neg hc1, if_neg hc2, if_pos hbb]
  refine ⟨by trivial, ?_, ?_⟩
  · rw [tail_moves, moves_explodeAtS, moves_explodeAtS]
  · refine Nat.le_trans ?_ (tail_score fuel _ rng)
    refine Nat.le_trans
      (score_mono_explodeAtS (Session.mk (s.grid.swapGems gem1 gem2).1 s.score s.moves)
        (s.grid.swapGems gem1 gem2).2.1 2) ?_
    exact score_mono_explodeAtS _ _ _

/-- C10: a direct special-tile swap (two pluses, bomb + plus, or two
bombs) never decrements `movesRemaining`, only adds to the score, and
returns without evaluating the `moves <= 0` game-over check; the only
path that both decrements the counter and reaches that check is the
non-special swap whose post-swap board has a match. -/
theorem c10_special_swap_frame (fuel : Nat) (s : Session) (rng : Rng)
    (gem1 gem2 : Gem) :
    (((gem1.isPlus = true ∧ gem2.isPlus = true)
      ∨ (gem1.isBomb = true ∧ gem2.isPlus = true)
      ∨ (gem2.isBomb = true ∧ gem1.isPlus = true)
      ∨ (gem1.isBomb = true ∧ gem2.isBomb = true)) →
      (performSwap fuel s rng gem1 gem2).checkedGameOver = false ∧
      (performSwap fuel s rng gem1 gem2).session.moves = s.moves ∧
      s.score ≤ (performSwap fuel s rng gem1 gem2).session.score) ∧
    ((performSwap fuel s rng gem1 gem2).checkedGameOver = true ∧
      (performSwap fuel s rng gem1 gem2).session.moves ≠ s.moves →
      ((s.grid.swapGems gem1 gem2).1.findMatches ≠ [] ∧
        ¬(gem1.isPlus = true ∧ gem2.isPlus = true) ∧
        ¬((gem1.isBomb = true ∧ gem2.isPlus = true)
          ∨ (gem2.isBomb = true ∧ gem1.isPlus = true)) ∧
        ¬(gem1.isBomb = true ∧ gem2.isBomb = true) ∧
        (performSwap fuel s rng gem1 gem2).session.moves = s.moves - 1)) := by
  constructor
  · intro hcase
    by_cases b1 : gem1.isPlus = true ∧ gem2.isPlus = true
    · exact performSwap_two_plus fuel s rng gem1 gem2 b1.1 b1.2
    · by_cases b2 : (gem1.isBomb = true ∧ gem2.isPlus = true)
        ∨ (gem2.isBomb = true ∧ gem1.isPlus = true)
      · exact performSwap_bomb_plus fuel s rng gem1 gem2 b1 b2
      · by_cases b3 : gem1.isBomb = true ∧ gem2.isBomb = true
        · exact performSwap_two_bombs fuel s rng gem1 gem2 b1 b2 b3
        · rcases hcase with h | h | h | h
          · exact absurd h b1
          · exact absurd (Or.inl h) b2
          · exact absurd (Or.inr h) b2
          · exact absurd h b3
  · rintro ⟨hchk, hmv⟩
    by_cases b1 : gem1.isPlus = true ∧ gem2.isPlus = true
    · have hf := (performSwap_two_plus fuel s rng gem1 gem2 b1.1 b1.2).1
      rw [hf] at hchk
      exact absurd hchk (by simp)
    · by_cases b2 : (gem1.isBomb = true ∧ gem2.isPlus = true)
        ∨ (gem2.isBomb = true ∧ gem1.isPlus = true)
      · have hf := (performSwap_bomb_plus fuel s rng gem1 gem2 b1 b2).1
        rw [hf] at hchk
        exact absurd hchk (by simp)
      · by_cases b3 : gem1.isBomb = true ∧ gem2.isBomb = true
        · have hf := (performSwap_two_bombs fuel s rng gem1 gem2 b1 b2 b3).1
          rw [hf] at hchk
          exact absurd hchk (by simp)
        · by_cases hm : (s.grid.swapGems gem1 gem2).1.findMatches ≠ []
          · refine ⟨hm, b1, b2, b3, ?_⟩
            simp only [performSwap, if_neg b1, if_neg b2, if_neg b3, if_pos hm]
            rw [moves_processMatchesLoop]
          · exfalso
            apply hmv
            simp only [performSwap, if_neg b1, if_neg b2, if_neg b3, if_neg hm]

/-- Concrete instantiation of `c10_special_swap_frame`: two adjacent
PLUS gems on a 2×2 board. -/
theorem c10_special_swap_frame_witness :
    (performSwap 3 (Session.mk (mkGrid 4 [[(0, Special.splus), (1, Special.splus)],
        [pg 1, pg 0]]) 5 30) (Rng.mk (fun n => n) 0)
      (Gem.mk 0 0 0 Special.splus) (Gem.mk 1 1 0 Special.splus)).checkedGameOver
        = false ∧
    (performSwap 3 (Session.mk (mkGrid 4 [[(0, Special.splus), (1, Special.splus)],
        [pg 1, pg 0]]) 5 30) (Rng.mk (fun n => n) 0)
      (Gem.mk 0 0 0 Special.splus) (Gem.mk 1 1 0 Special.splus)).session.moves = 30 ∧
    5 ≤ (performSwap 3 (Session.mk (mkGrid 4 [[(0, Special.splus), (1, Special.splus)],
        [pg 1, pg 0]]) 5 30) (Rng.mk (fun n => n) 0)
      (Gem.mk 0 0 0 Special.splus) (Gem.mk 1 1 0 Special.splus)).session.score :=
  (c10_special_swap_frame 3 (Session.mk (mkGrid 4 [[(0, Special.splus),
      (1, Special.splus)], [pg 1, pg 0]]) 5 30) (Rng.mk (fun n => n) 0)
    (Gem.mk 0 0 0 Special.splus) (Gem.mk 1 1 0 Special.splus)).1
    (Or.inl (by decide))

/-- Gems found at a list of (possibly out-of-bounds) cells. -/
def gemsAt (grid : Grid) (cells : List (Int × Int)) : List Gem :=
  cells.filterMap (fun rc => grid.getGemAt rc.1 rc.2)

/-- `radius || 1` of the source: a zero radius falls back to 1. -/
def normRad (r : Nat) : Nat := if r = 0 then 1 else r

/-- Radius with which a bomb detonates: its first seed entry's radius
(seed entries precede pushed duplicates in the FIFO queue), else the
chain radius 1. -/
def seedRadius (seedB : List (Gem × Nat)) (g : Gem) : Nat :=
  match seedB.find? (fun p => p.1 = g) with
  | some p => normRad p.2
  | none => 1

/-- Blast area of a special gem: the square neighborhood for a bomb (at
its detonation radius), the full row and column for a plus. -/
def blastOf (grid : Grid) (seedB : List (Gem × Nat)) (s : Gem) : List Gem :=
  if s.isBomb then gemsAt grid (bombCells s.gridY s.gridX (seedRadius seedB s))
  else if s.isPlus then gemsAt grid (plusCells grid s.gridY s.gridX)
  else []

/-- Transitive reachability of special-tile activations: the seeds are
reachable, and every special inside the blast of a reachable special is
reachable. -/
inductive Reachable (grid : Grid) (seedB : List (Gem × Nat)) (seedP : List Gem) :
    Gem → Prop
  | bombSeed (g : Gem) (r : Nat) (h : (g, r) ∈ seedB) : Reachable grid seedB seedP g
  | plusSeed (g : Gem) (h : g ∈ seedP) : Reachable grid seedB seedP g
  | chain (s t : Gem) (hs : Reachable grid seedB seedP s)
      (ht : t ∈ blastOf grid seedB s) (hsp : t.special ≠ Special.snone) :
      Reachable grid seedB seedP t

theorem getGemAt_mem_allGems {grid : Grid} {r c : Int} {g : Gem}
    (h : grid.getGemAt r c = some g) : g ∈ grid.allGems := by
  rw [Grid.getGemAt] at h
  split at h
  · exact Option.noConfusion h
  · rename_i hb
    push_neg at hb
    obtain ⟨h1, h2, h3, h4⟩ := hb
    rw [Grid.allGems]
    rw [List.mem_flatten]
    refine ⟨(List.range grid.config.cols).filterMap (fun col => grid.cell r.toNat col), ?_, ?_⟩
    · exact List.mem_map.mpr ⟨r.toNat, List.mem_range.mpr (by omega), rfl⟩
    · exact List.mem_filterMap.mpr ⟨c.toNat, List.mem_range.mpr (by omega), h⟩

theorem length_filter_mono (ys l : List Gem) (x : Gem) :
    (ys.filter (fun y => decide (y ∉ l ++ [x]))).length
      ≤ (ys.filter (fun y => decide (y ∉ l))).length := by
  refine List.Sublist.length_le (List.monotone_filter_right ys ?_)
  intro a ha
  simp only [decide_eq_true_eq] at ha ⊢
  intro hal
  exact ha (by simp [hal])

theorem length_filter_push (xs l : List Gem) (x : Gem) (hx : x ∈ xs) (hnx : x ∉ l) :
    (xs.filter (fun y => decide (y ∉ l ++ [x]))).length
      < (xs.filter (fun y => decide (y ∉ l))).length := by
  induction xs with
  | nil => cases hx
  | cons a t ih =>
    rw [List.filter_cons, List.filter_cons]
    by_cases hax : a = x
    · subst hax
      have h1 : (decide (a ∉ l ++ [a])) = false := by simp
      have h2 : (decide (a ∉ l)) = true := by simpa using hnx
      rw [h1, h2]
      simp only [Bool.false_eq_true, if_false, if_true, List.length_cons]
      exact Nat.lt_succ_of_le (length_filter_mono t l a)
    · have hxt : x ∈ t := by
        rcases List.mem_cons.mp hx with h | h
        · exact absurd h.symm hax
        · exact h
      by_cases hal : a ∈ l
      · have h1 : (decide (a ∉ l ++ [x])) = false := by simp [hal]
        have h2 : (decide (a ∉ l)) = false := by simp [hal]
        rw [h1, h2]
        simp only [Bool.false_eq_true, if_false]
        exact ih hxt
      · have h1 : (decide (a ∉ l ++ [x])) = true := by simp [hal, hax]
        have h2 : (decide (a ∉ l)) = true := by simpa using hal
        rw [h1, h2]
        simp only [if_true, List.length_cons]
        exact Nat.succ_lt_succ (ih hxt)

theorem expMeasure_hitGem {grid : Grid} (st : ExpSt) {g : Gem}
    (hg : g ∈ grid.allGems) :
    expMeasure grid (expHitGem st g) ≤ expMeasure grid st := by
  rw [expHitGem]
  split
  · exact Nat.le_refl _
  · rename_i hgr
    have hstrict := length_filter_push grid.allGems st.toRemove g hg hgr
    simp only [expMeasure, List.length_append]
    have hb : (if g.isBomb = true ∧ g ∉ st.bombsProcessed then [(g, 1)] else
        ([] : List (Gem × Nat))).length ≤ 1 := by
      split
      · simp
      · simp
    have hp : (if g.isPlus = true ∧ g ∉ st.plusesProcessed then [g] else
        ([] : List Gem)).length ≤ 1 := by
      split
      · simp
      · simp
    omega

theorem expMeasure_hitCell {grid : Grid} (st : ExpSt) (rc : Int × Int) :
    expMeasure grid (expHitCell grid st rc) ≤ expMeasure grid st := by
  rw [expHitCell]
  cases h : grid.getGemAt rc.1 rc.2 with
  | some g => exact expMeasure_hitGem st (getGemAt_mem_allGems h)
  | none => exact Nat.le_refl _

theorem expMeasure_fold {grid : Grid} :
    ∀ (cells : List (Int × Int)) (st : ExpSt),
      expMeasure grid (cells.foldl (expHitCell grid) st) ≤ expMeasure grid st := by
  intro cells
  induction cells with
  | nil => intro st; exact Nat.le_refl _
  | cons rc t ih =>
    intro st
    rw [List.foldl_cons]
    exact Nat.le_trans (ih _) (expMeasure_hitCell st rc)

theorem expStep_decr {grid : Grid} (pick : ExpSt → Bool) (st : ExpSt)
    (hnd : expDone st = false) :
    expMeasure grid (expStep grid pick st) < expMeasure grid st := by
  obtain ⟨tr, bq, pq, bp, pp⟩ := st
  rw [expDone] at hnd
  simp only [Bool.and_eq_false_iff, List.isEmpty_eq_false] at hnd
  rw [expStep]
  split
  · rename_i hcond
    obtain ⟨hbq, _⟩ := hcond
    cases bq with
    | nil => exact absurd rfl hbq
    | cons br rest =>
      dsimp only
      split
      · simp only [expMeasure, List.length_cons]
        omega
      · refine Nat.lt_of_le_of_lt (expMeasure_fold _ _) ?_
        simp only [expMeasure, List.length_cons]
        omega
  · rename_i hcond
    have hpq : pq ≠ [] := by
      intro hpqe
      subst hpqe
      rcases hnd with h | h
      · exact hcond ⟨h, Or.inl rfl⟩
      · exact h rfl
    cases pq with
    | nil => exact absurd rfl hpq
    | cons plus rest =>
      dsimp only
      split
      · simp only [expMeasure, List.length_cons]
        omega
      · refine Nat.lt_of_le_of_lt (expMeasure_fold _ _) ?_
        simp only [expMeasure, List.length_cons]
        omega

theorem expRun_done (grid : Grid) (pick : ExpSt → Bool) :
    ∀ (fuel : Nat) (st : ExpSt), expMeasure grid st < fuel →
      expDone (expRun grid pick fuel st) = true := by
  intro fuel
  induction fuel with
  | zero => intro st h; exact absurd h (Nat.not_lt_zero _)
  | succ n ih =>
    intro st h
    rw [expRun]
    split
    · rename_i hd
      exact hd
    · rename_i hd
      have hd2 : expDone st = false := by
        cases hxx : expDone st
        · rfl
        · exact absurd hxx hd
      refine ih _ ?_
      have := @expStep_decr grid pick st hd2
      omega

theorem mem_gemsAt {grid : Grid} {cells : List (Int × Int)} {g : Gem} :
    g ∈ gemsAt grid cells ↔ ∃ rc ∈ cells, grid.getGemAt rc.1 rc.2 = some g := by
  rw [gemsAt, List.mem_filterMap]

theorem expHitGem_toRemove_mono (st : ExpSt) (g x : Gem) (hx : x ∈ st.toRemove) :
    x ∈ (expHitGem st g).toRemove := by
  rw [expHitGem]
  split
  · exact hx
  · simp [hx]

theorem expHitGem_toRemove_self (st : ExpSt) (g : Gem) :
    g ∈ (expHitGem st g).toRemove := by
  rw [expHitGem]
  split
  · assumption
  · simp

theorem expHitGem_toRemove_orig (st : ExpSt) (g x : Gem)
    (hx : x ∈ (expHitGem st g).toRemove) : x ∈ st.toRemove ∨ x = g := by
  rw [expHitGem] at hx
  split at hx
  · exact Or.inl hx
  · simp only [List.mem_append, List.mem_singleton] at hx
    exact hx

theorem expHitGem_processed (st : ExpSt) (g : Gem) :
    (expHitGem st g).bombsProcessed = st.bombsProcessed ∧
    (expHitGem st g).plusesProcessed = st.plusesProcessed := by
  rw [expHitGem]
  split
  · exact ⟨rfl, rfl⟩
  · exact ⟨rfl, rfl⟩

theorem expHitGem_nodup (st : ExpSt) (g : Gem) (h : st.toRemove.Nodup) :
    (expHitGem st g).toRemove.Nodup := by
  rw [expHitGem]
  split
  · exact h
  · rename_i hg
    simpa [List.nodup_append] using ⟨h, hg⟩

theorem expHitCell_toRemove_mono (grid : Grid) (st : ExpSt) (rc : Int × Int)
    (x : Gem) (hx : x ∈ st.toRemove) : x ∈ (expHitCell grid st rc).toRemove := by
  rw [expHitCell]
  cases grid.getGemAt rc.1 rc.2 with
  | some g => exact expHitGem_toRemove_mono st g x hx
  | none => exact hx

theorem expHitCell_queues (grid : Grid) (st : ExpSt) (rc : Int × Int) :
    ∃ exB exP,
      (expHitCell grid st rc).bombsQueue = st.bombsQueue ++ exB ∧
      (expHitCell grid st rc).plusQueue = st.plusQueue ++ exP ∧
      (∀ e ∈ exB, e.2 = 1 ∧ e.1.isBomb = true ∧ grid.getGemAt rc.1 rc.2 = some e.1 ∧
        e.1 ∉ st.bombsProcessed) ∧
      (∀ g ∈ exP, g.isPlus = true ∧ grid.getGemAt rc.1 rc.2 = some g ∧
        g ∉ st.plusesProcessed) := by
  cases hg : grid.getGemAt rc.1 rc.2 with
  | none =>
    simp only [expHitCell, hg]
    exact ⟨[], [], by simp, by simp, by simp, by simp⟩
  | some g0 =>
    simp only [expHitCell, hg]
    rw [expHitGem]
    split
    · exact ⟨[], [], by simp, by simp, by simp, by simp⟩
    · refine ⟨(if g0.isBomb = true ∧ g0 ∉ st.bombsProcessed then [(g0, 1)] else []),
        (if g0.isPlus = true ∧ g0 ∉ st.plusesProcessed then [g0] else []),
        rfl, rfl, ?_, ?_⟩
      · intro e he
        split at he
        · rename_i hc
          simp only [List.mem_singleton] at he
          subst he
          exact ⟨rfl, hc.1, rfl, hc.2⟩
        · simp at he
      · intro g hgm
        split at hgm
        · rename_i hc
          simp only [List.mem_singleton] at hgm
          subst hgm
          exact ⟨hc.1, rfl, hc.2⟩
        · simp at hgm

theorem fold_toRemove_mono (grid : Grid) :
    ∀ (cells : List (Int × Int)) (st : ExpSt) (x : Gem), x ∈ st.toRemove →
      x ∈ (cells.foldl (expHitCell grid) st).toRemove := by
  intro cells
  induction cells with
  | nil => intro st x hx; exact hx
  | cons rc t ih =>
    intro st x hx
    rw [List.foldl_cons]
    exact ih _ x (expHitCell_toRemove_mono grid st rc x hx)

theorem fold_covers (grid : Grid) :
    ∀ (cells : List (Int × Int)) (st : ExpSt) (rc : Int × Int) (g : Gem),
      rc ∈ cells → grid.getGemAt rc.1 rc.2 = some g →
      g ∈ (cells.foldl (expHitCell grid) st).toRemove := by
  intro cells
  induction cells with
  | nil => intro st rc g hrc _; cases hrc
  | cons rc0 t ih =>
    intro st rc g hrc hg
    rw [List.foldl_cons]
    rcases List.mem_cons.mp hrc with h | h
    · subst h
      refine fold_toRemove_mono grid t _ g ?_
      rw [expHitCell, hg]
      exact expHitGem_toRemove_self st g
    · exact ih _ rc g h hg

theorem fold_toRemove_orig (grid : Grid) :
    ∀ (cells : List (Int × Int)) (st : ExpSt) (x : Gem),
      x ∈ (cells.foldl (expHitCell grid) st).toRemove →
      x ∈ st.toRemove ∨ x ∈ gemsAt grid cells := by
  intro cells
  induction cells with
  | nil => intro st x hx; exact Or.inl hx
  | cons rc t ih =>
    intro st x hx
    rw [List.foldl_cons] at hx
    rcases ih _ x hx with h | h
    · rw [expHitCell] at h
      cases hg : grid.getGemAt rc.1 rc.2 with
      | some g0 =>
        rw [hg] at h
        rcases expHitGem_toRemove_orig st g0 x h with h2 | h2
        · exact Or.inl h2
        · subst h2
          exact Or.inr (mem_gemsAt.mpr ⟨rc, by simp, hg⟩)
      | none =>
        rw [hg] at h
        exact Or.inl h
    · exact Or.inr (mem_gemsAt.mpr (by
        obtain ⟨rc2, hrc2, hg2⟩ := mem_gemsAt.mp h
        exact ⟨rc2, by simp [hrc2], hg2⟩))

theorem fold_processed (grid : Grid) :
    ∀ (cells : List (Int × Int)) (st : ExpSt),
      (cells.foldl (expHitCell grid) st).bombsProcessed = st.bombsProcessed ∧
      (cells.foldl (expHitCell grid) st).plusesProcessed = st.plusesProcessed := by
  intro cells
  induction cells with
  | nil => intro st; exact ⟨rfl, rfl⟩
  | cons rc t ih =>
    intro st
    rw [List.foldl_cons]
    obtain ⟨h1, h2⟩ := ih (expHitCell grid st rc)
    rw [h1, h2, expHitCell]
    cases grid.getGemAt rc.1 rc.2 with
    | some g => exact expHitGem_processed st g
    | none => exact ⟨rfl, rfl⟩

theorem fold_queues (grid : Grid) :
    ∀ (cells : List (Int × Int)) (st : ExpSt),
      ∃ exB exP,
        (cells.foldl (expHitCell grid) st).bombsQueue = st.bombsQueue ++ exB ∧
        (cells.foldl (expHitCell grid) st).plusQueue = st.plusQueue ++ exP ∧
        (∀ e ∈ exB, e.2 = 1 ∧ e.1.isBomb = true ∧ e.1 ∈ gemsAt grid cells) ∧
        (∀ g ∈ exP, g.isPlus = true ∧ g ∈ gemsAt grid cells) := by
  intro cells
  induction cells with
  | nil => intro st; exact ⟨[], [], by simp, by simp, by simp, by simp⟩
  | cons rc t ih =>
    intro st
    rw [List.foldl_cons]
    obtain ⟨e0B, e0P, he1, he2, he3, he4⟩ := expHitCell_queues grid st rc
    obtain ⟨exB, exP, hf1, hf2, hf3, hf4⟩ := ih (expHitCell grid st rc)
    refine ⟨e0B ++ exB, e0P ++ exP, ?_, ?_, ?_, ?_⟩
    · rw [hf1, he1, List.append_assoc]
    · rw [hf2, he2, List.append_assoc]
    · intro e he
      rcases List.mem_append.mp he with h | h
      · obtain ⟨ha, hb, hc, _⟩ := he3 e h
        exact ⟨ha, hb, mem_gemsAt.mpr ⟨rc, by simp, hc⟩⟩
      · obtain ⟨ha, hb, hc⟩ := hf3 e h
        obtain ⟨rc2, hrc2, hg2⟩ := mem_gemsAt.mp hc
        exact ⟨ha, hb, mem_gemsAt.mpr ⟨rc2, by simp [hrc2], hg2⟩⟩
    · intro g hgm
      rcases List.mem_append.mp hgm with h | h
      · obtain ⟨ha, hb, _⟩ := he4 g h
        exact ⟨ha, mem_gemsAt.mpr ⟨rc, by simp, hb⟩⟩
      · obtain ⟨ha, hb⟩ := hf4 g h
        obtain ⟨rc2, hrc2, hg2⟩ := mem_gemsAt.mp hb
        exact ⟨ha, mem_gemsAt.mpr ⟨rc2, by simp [hrc2], hg2⟩⟩

theorem fold_nodup (grid : Grid) :
    ∀ (cells : List (Int × Int)) (st : ExpSt), st.toRemove.Nodup →
      (cells.foldl (expHitCell grid) st).toRemove.Nodup := by
  intro cells
  refine foldl_preserve (P := fun (x : ExpSt) => x.toRemove.Nodup) ?_ cells
  intro x rc hx
  rw [expHitCell]
  cases grid.getGemAt rc.1 rc.2 with
  | some g => exact expHitGem_nodup x g hx
  | none => exact hx

theorem expHitGem_tracked_bomb (st : ExpSt) (g : Gem)
    (h : ∀ x ∈ st.toRemove, x.isBomb = true →
      x ∈ st.bombsQueue.map Prod.fst ∨ x ∈ st.bombsProcessed) :
    ∀ x ∈ (expHitGem st g).toRemove, x.isBomb = true →
      x ∈ (expHitGem st g).bombsQueue.map Prod.fst ∨
        x ∈ (expHitGem st g).bombsProcessed := by
  intro x hx hxb
  rw [expHitGem] at hx ⊢
  split at hx
  · rename_i hg
    simp only [if_pos hg]
    exact h x hx hxb
  · rename_i hg
    simp only [if_neg hg]
    rcases List.mem_append.mp hx with h2 | h2
    · rcases h x h2 hxb with h3 | h3
      · refine Or.inl ?_
        obtain ⟨e, he, hee⟩ := List.mem_map.mp h3
        exact List.mem_map.mpr ⟨e, by simp [he], hee⟩
      · exact Or.inr h3
    · simp only [List.mem_singleton] at h2
      subst h2
      by_cases hp : x ∈ st.bombsProcessed
      · exact Or.inr hp
      · refine Or.inl (List.mem_map.mpr ⟨(x, 1), ?_, rfl⟩)
        simp [hxb, hp]

theorem expHitGem_tracked_plus (st : ExpSt) (g : Gem)
    (h : ∀ x ∈ st.toRemove, x.isPlus = true →
      x ∈ st.plusQueue ∨ x ∈ st.plusesProcessed) :
    ∀ x ∈ (expHitGem st g).toRemove, x.isPlus = true →
      x ∈ (expHitGem st g).plusQueue ∨ x ∈ (expHitGem st g).plusesProcessed := by
  intro x hx hxp
  rw [expHitGem] at hx ⊢
  split at hx
  · rename_i hg
    simp only [if_pos hg]
    exact h x hx hxp
  · rename_i hg
    simp only [if_neg hg]
    rcases List.mem_append.mp hx with h2 | h2
    · rcases h x h2 hxp with h3 | h3
      · exact Or.inl (by simp [h3])
      · exact Or.inr h3
    · simp only [List.mem_singleton] at h2
      subst h2
      by_cases hp : x ∈ st.plusesProcessed
      · exact Or.inr hp
      · refine Or.inl ?_
        simp [hxp, hp]

theorem fold_tracked_bomb (grid : Grid) :
    ∀ (cells : List (Int × Int)) (st : ExpSt),
      (∀ x ∈ st.toRemove, x.isBomb = true →
        x ∈ st.bombsQueue.map Prod.fst ∨ x ∈ st.bombsProcessed) →
      ∀ x ∈ (cells.foldl (expHitCell grid) st).toRemove, x.isBomb = true →
        x ∈ (cells.foldl (expHitCell grid) st).bombsQueue.map Prod.fst ∨
          x ∈ (cells.foldl (expHitCell grid) st).bombsProcessed := by
  intro cells
  refine foldl_preserve (P := fun (y : ExpSt) => ∀ x ∈ y.toRemove, x.isBomb = true →
    x ∈ y.bombsQueue.map Prod.fst ∨ x ∈ y.bombsProcessed) ?_ cells
  intro y rc hy
  rw [expHitCell]
  cases grid.getGemAt rc.1 rc.2 with
  | some g => exact expHitGem_tracked_bomb y g hy
  | none => exact hy

theorem fold_tracked_plus (grid : Grid) :
    ∀ (cells : List (Int × Int)) (st : ExpSt),
      (∀ x ∈ st.toRemove, x.isPlus = true →
        x ∈ st.plusQueue ∨ x ∈ st.plusesProcessed) →
      ∀ x ∈ (cells.foldl (expHitCell grid) st).toRemove, x.isPlus = true →
        x ∈ (cells.foldl (expHitCell grid) st).plusQueue ∨
          x ∈ (cells.foldl (expHitCell grid) st).plusesProcessed := by
  intro cells
  refine foldl_preserve (P := fun (y : ExpSt) => ∀ x ∈ y.toRemove, x.isPlus = true →
    x ∈ y.plusQueue ∨ x ∈ y.plusesProcessed) ?_ cells
  intro y rc hy
  rw [expHitCell]
  cases grid.getGemAt rc.1 rc.2 with
  | some g => exact expHitGem_tracked_plus y g hy
  | none => exact hy

theorem isBomb_of_isPlus {g : Gem} (h : g.isPlus = true) : g.isBomb = false := by
  rw [Gem.isPlus] at h
  simp only [decide_eq_true_eq] at h
  simp [Gem.isBomb, h]

theorem special_ne_of_isBomb {g : Gem} (h : g.isBomb = true) :
    g.special ≠ Special.snone := by
  rw [Gem.isBomb] at h
  simp only [decide_eq_true_eq] at h
  simp [h]

theorem special_ne_of_isPlus {g : Gem} (h : g.isPlus = true) :
    g.special ≠ Special.snone := by
  rw [Gem.isPlus] at h
  simp only [decide_eq_true_eq] at h
  simp [h]

theorem special_trichotomy (g : Gem) :
    g.isBomb = true ∨ g.isPlus = true ∨ g.special = Special.snone := by
  cases h : g.special
  · exact Or.inr (Or.inr rfl)
  · exact Or.inl (by simp [Gem.isBomb, h])
  · exact Or.inr (Or.inl (by simp [Gem.isPlus, h]))

/-- Invariant of the `processExplosions` worklist loop. -/
structure ExpInv (grid : Grid) (seedB : List (Gem × Nat)) (seedP : List Gem)
    (st : ExpSt) : Prop where
  qb_bomb : ∀ e ∈ st.bombsQueue, e.1.isBomb = true
  qp_plus : ∀ g ∈ st.plusQueue, g.isPlus = true
  pb_bomb : ∀ g ∈ st.bombsProcessed, g.isBomb = true
  pp_plus : ∀ g ∈ st.plusesProcessed, g.isPlus = true
  qb_reach : ∀ e ∈ st.bombsQueue, Reachable grid seedB seedP e.1
  qp_reach : ∀ g ∈ st.plusQueue, Reachable grid seedB seedP g
  pb_reach : ∀ g ∈ st.bombsProcessed, Reachable grid seedB seedP g
  pp_reach : ∀ g ∈ st.plusesProcessed, Reachable grid seedB seedP g
  rem_sound : ∀ g ∈ st.toRemove,
    ∃ t, Reachable grid seedB seedP t ∧ g ∈ blastOf grid seedB t
  pb_blast : ∀ t ∈ st.bombsProcessed, ∀ g ∈ blastOf grid seedB t, g ∈ st.toRemove
  pp_blast : ∀ t ∈ st.plusesProcessed, ∀ g ∈ blastOf grid seedB t, g ∈ st.toRemove
  rem_bomb_tracked : ∀ g ∈ st.toRemove, g.isBomb = true →
    g ∈ st.bombsQueue.map Prod.fst ∨ g ∈ st.bombsProcessed
  rem_plus_tracked : ∀ g ∈ st.toRemove, g.isPlus = true →
    g ∈ st.plusQueue ∨ g ∈ st.plusesProcessed
  seedb_tracked : ∀ e ∈ seedB,
    e.1 ∈ st.bombsQueue.map Prod.fst ∨ e.1 ∈ st.bombsProcessed
  seedp_tracked : ∀ g ∈ seedP, g ∈ st.plusQueue ∨ g ∈ st.plusesProcessed
  qb_entries : ∀ e ∈ st.bombsQueue, e ∈ seedB ∨ e.2 = 1
  qb_first : ∀ g, g ∉ st.bombsProcessed → (∃ r, (g, r) ∈ seedB) →
    st.bombsQueue.find? (fun e => e.1 = g) = seedB.find? (fun e => e.1 = g)
  rem_nodup : st.toRemove.Nodup

theorem expInv_init (grid : Grid) (seedB : List (Gem × Nat)) (seedP : List Gem)
    (hB : ∀ e ∈ seedB, e.1.isBomb = true) (hP : ∀ g ∈ seedP, g.isPlus = true) :
    ExpInv grid seedB seedP (expInit seedB seedP) := by
  refine ⟨hB, hP, ?_, ?_, ?_, ?_, ?_, ?_, ?_, ?_, ?_, ?_, ?_, ?_, ?_, ?_, ?_, ?_⟩
  · intro g hg
    cases hg
  · intro g hg
    cases hg
  · intro e he
    exact Reachable.bombSeed e.1 e.2 (by simpa using he)
  · intro g hg
    exact Reachable.plusSeed g hg
  · intro g hg
    cases hg
  · intro g hg
    cases hg
  · intro g hg
    cases hg
  · intro t ht _ _
    cases ht
  · intro t ht _ _
    cases ht
  · intro g hg
    cases hg
  · intro g hg
    cases hg
  · intro e he
    exact Or.inl (List.mem_map.mpr ⟨e, he, rfl⟩)
  · intro g hg
    exact Or.inl hg
  · intro e he
    exact Or.inl he
  · intro g _ _
    rfl
  · exact List.nodup_nil

theorem find?_cons_of_neg {α : Type} {p : α → Bool} {a : α} {l : List α}
    (h : p a = false) : List.find? p (a :: l) = List.find? p l := by
  rw [List.find?_cons, h]

theorem find?_cons_of_pos {α : Type} {p : α → Bool} {a : α} {l : List α}
    (h : p a = true) : List.find? p (a :: l) = some a := by
  rw [List.find?_cons, h]

theorem seedRadius_of_find {seedB : List (Gem × Nat)} {g : Gem} {e : Gem × Nat}
    (h : seedB.find? (fun p => p.1 = g) = some e) :
    seedRadius seedB g = normRad e.2 := by
  rw [seedRadius, h]

theorem seedRadius_of_none {seedB : List (Gem × Nat)} {g : Gem}
    (h : seedB.find? (fun p => p.1 = g) = none) : seedRadius seedB g = 1 := by
  rw [seedRadius, h]

theorem seed_find_isSome {seedB : List (Gem × Nat)} {g : Gem}
    (h : ∃ r, (g, r) ∈ seedB) :
    ∃ e, seedB.find? (fun p => p.1 = g) = some e := by
  obtain ⟨r, hr⟩ := h
  cases hf : seedB.find? (fun p => p.1 = g) with
  | some e => exact ⟨e, rfl⟩
  | none =>
    rw [List.find?_eq_none] at hf
    exact absurd (by simp : (decide (((g, r) : Gem × Nat).1 = g)) = true) (hf (g, r) hr)

/-- One worklist iteration preserves the invariant, for every drain
choice. -/
theorem expStep_inv (grid : Grid) (seedB : List (Gem × Nat)) (seedP : List Gem)
    (pick : ExpSt → Bool) (st : ExpSt) (hInv : ExpInv grid seedB seedP st) :
    ExpInv grid seedB seedP (expStep grid pick st) := by
  rw [expStep]
  split
  · rename_i hcond
    cases hq : st.bombsQueue with
    | nil => exact absurd hq hcond.1
    | cons br rest =>
      have hbrq : br ∈ st.bombsQueue := by rw [hq]; simp
      have hbomb : br.1.isBomb = true := hInv.qb_bomb br hbrq
      have hreach : Reachable grid seedB seedP br.1 := hInv.qb_reach br hbrq
      dsimp only
      split
      · rename_i hproc
        refine ⟨?_, hInv.qp_plus, hInv.pb_bomb, hInv.pp_plus, ?_, hInv.qp_reach,
          hInv.pb_reach, hInv.pp_reach, hInv.rem_sound, hInv.pb_blast,
          hInv.pp_blast, ?_, hInv.rem_plus_tracked, ?_, hInv.seedp_tracked,
          ?_, ?_, hInv.rem_nodup⟩
        · intro e he
          exact hInv.qb_bomb e (by rw [hq]; simp [he])
        · intro e he
          exact hInv.qb_reach e (by rw [hq]; simp [he])
        · intro g hg hgb
          rcases hInv.rem_bomb_tracked g hg hgb with h | h
          · rw [hq] at h
            simp only [List.map_cons, List.mem_cons] at h
            rcases h with h | h
            · subst h
              exact Or.inr hproc
            · exact Or.inl h
          · exact Or.inr h
        · intro e he
          rcases hInv.seedb_tracked e he with h | h
          · rw [hq] at h
            simp only [List.map_cons, List.mem_cons] at h
            rcases h with h | h
            · rw [h]
              exact Or.inr hproc
            · exact Or.inl h
          · exact Or.inr h
        · intro e he
          exact hInv.qb_entries e (by rw [hq]; simp [he])
        · intro g hgp hseed
          have hgbr : ¬(br.1 = g) := fun hh => hgp (hh ▸ hproc)
          have := hInv.qb_first g hgp hseed
          rw [hq, find?_cons_of_neg (by simpa using hgbr)] at this
          exact this
      · rename_i hproc
        have hrad : (if br.2 = 0 then 1 else br.2) = seedRadius seedB br.1 := by
          by_cases hseed : ∃ r, (br.1, r) ∈ seedB
          · have hfind := hInv.qb_first br.1 hproc hseed
            rw [hq, find?_cons_of_pos (by simp)] at hfind
            rw [seedRadius_of_find hfind.symm]
            rfl
          · rcases hInv.qb_entries br hbrq with h | h
            · exact absurd ⟨br.2, by simpa using h⟩ hseed
            · have hf : seedB.find? (fun p => p.1 = br.1) = none := by
                rw [List.find?_eq_none]
                intro x hx hpx
                simp only [decide_eq_true_eq] at hpx
                exact hseed ⟨x.2, by rw [← hpx]; simpa using hx⟩
              rw [seedRadius_of_none hf, h]
              rfl
        have hblast : blastOf grid seedB br.1
            = gemsAt grid (bombCells br.1.gridY br.1.gridX
              (if br.2 = 0 then 1 else br.2)) := by
          rw [blastOf, if_pos hbomb, hrad]
        obtain ⟨hpb, hpp⟩ := fold_processed grid
          (bombCells br.1.gridY br.1.gridX (if br.2 = 0 then 1 else br.2))
          (ExpSt.mk st.toRemove rest st.plusQueue
            (st.bombsProcessed ++ [br.1]) st.plusesProcessed)
        obtain ⟨exB, exP, hq1, hq2, hq3, hq4⟩ := fold_queues grid
          (bombCells br.1.gridY br.1.gridX (if br.2 = 0 then 1 else br.2))
          (ExpSt.mk st.toRemove rest st.plusQueue
            (st.bombsProcessed ++ [br.1]) st.plusesProcessed)
        refine ⟨?_, ?_, ?_, ?_, ?_, ?_, ?_, ?_, ?_, ?_, ?_, ?_, ?_, ?_, ?_, ?_, ?_, ?_⟩
        · intro e he
          rw [hq1] at he
          rcases List.mem_append.mp he with h | h
          · exact hInv.qb_bomb e (by rw [hq]; simp [h])
          · exact (hq3 e h).2.1
        · intro g hg
          rw [hq2] at hg
          rcases List.mem_append.mp hg with h | h
          · exact hInv.qp_plus g h
          · exact (hq4 g h).1
        · intro g hg
          rw [hpb] at hg
          rcases List.mem_append.mp hg with h | h
          · exact hInv.pb_bomb g h
          · simp only [List.mem_singleton] at h
            exact h ▸ hbomb
        · intro g hg
          rw [hpp] at hg
          exact hInv.pp_plus g hg
        · intro e he
          rw [hq1] at he
          rcases List.mem_append.mp he with h | h
          · exact hInv.qb_reach e (by rw [hq]; simp [h])
          · refine Reachable.chain br.1 e.1 hreach ?_ ?_
            · rw [hblast]
              exact (hq3 e h).2.2
            · exact special_ne_of_isBomb (hq3 e h).2.1
        · intro g hg
          rw [hq2] at hg
          rcases List.mem_append.mp hg with h | h
          · exact hInv.qp_reach g h
          · refine Reachable.chain br.1 g hreach ?_ ?_
            · rw [hblast]
              exact (hq4 g h).2
            · exact special_ne_of_isPlus (hq4 g h).1
        · intro g hg
          rw [hpb] at hg
          rcases List.mem_append.mp hg with h | h
          · exact hInv.pb_reach g h
          · simp only [List.mem_singleton] at h
            exact h ▸ hreach
        · intro g hg
          rw [hpp] at hg
          exact hInv.pp_reach g hg
        · intro g hg
          rcases fold_toRemove_orig grid _ _ g hg with h | h
          · exact hInv.rem_sound g h
          · exact ⟨br.1, hreach, by rw [hblast]; exact h⟩
        · intro t ht g hg
          rw [hpb] at ht
          rcases List.mem_append.mp ht with h | h
          · exact fold_toRemove_mono grid _ _ g (hInv.pb_blast t h g hg)
          · simp only [List.mem_singleton] at h
            subst h
            rw [hblast] at hg
            obtain ⟨rc, hrc, hgg⟩ := mem_gemsAt.mp hg
            exact fold_covers grid _ _ rc g hrc hgg
        · intro t ht g hg
          rw [hpp] at ht
          exact fold_toRemove_mono grid _ _ g (hInv.pp_blast t ht g hg)
        · refine fold_tracked_bomb grid _ _ ?_
          intro x hx hxb
          rcases hInv.rem_bomb_tracked x hx hxb with h | h
          · rw [hq] at h
            simp only [List.map_cons, List.mem_cons] at h
            rcases h with h | h
            · subst h
              exact Or.inr (by simp)
            · exact Or.inl h
          · exact Or.inr (by simp [h])
        · refine fold_tracked_plus grid _ _ ?_
          intro x hx hxp
          exact hInv.rem_plus_tracked x hx hxp
        · intro e he
          rcases hInv.seedb_tracked e he with h | h
          · rw [hq] at h
            simp only [List.map_cons, List.mem_cons] at h
            rcases h with h | h
            · rw [hpb, h]
              exact Or.inr (by simp)
            · rw [hq1]
              refine Or.inl ?_
              obtain ⟨e2, he2, hee2⟩ := List.mem_map.mp h
              exact List.mem_map.mpr ⟨e2, by simp [he2], hee2⟩
          · rw [hpb]
            exact Or.inr (by simp [h])
        · intro g hg
          rcases hInv.seedp_tracked g hg with h | h
          · rw [hq2]
            exact Or.inl (by simp [h])
          · rw [hpp]
            exact Or.inr h
        · intro e he
          rw [hq1] at he
          rcases List.mem_append.mp he with h | h
          · exact hInv.qb_entries e (by rw [hq]; simp [h])
          · exact Or.inr (hq3 e h).1
        · intro g hgp hseed
          rw [hpb] at hgp
          have hgold : g ∉ st.bombsProcessed := fun hh => hgp (by simp [hh])
          have hgbr : ¬(br.1 = g) := fun hh => hgp (by simp [hh])
          have hfold := hInv.qb_first g hgold hseed
          rw [hq, find?_cons_of_neg (by simpa using hgbr)] at hfold
          obtain ⟨e0, he0⟩ := seed_find_isSome hseed
          rw [hq1, List.find?_append]
          dsimp only
          rw [hfold, he0]
          simp
        · exact fold_nodup grid _ _ hInv.rem_nodup
  · cases hq : st.plusQueue with
    | nil => exact hInv
    | cons plus rest =>
      have hplq : plus ∈ st.plusQueue := by rw [hq]; simp
      have hplus : plus.isPlus = true := hInv.qp_plus plus hplq
      have hreach : Reachable grid seedB seedP plus := hInv.qp_reach plus hplq
      dsimp only
      split
      · rename_i hproc
        refine ⟨hInv.qb_bomb, ?_, hInv.pb_bomb, hInv.pp_plus, hInv.qb_reach, ?_,
          hInv.pb_reach, hInv.pp_reach, hInv.rem_sound, hInv.pb_blast,
          hInv.pp_blast, hInv.rem_bomb_tracked, ?_, hInv.seedb_tracked, ?_,
          hInv.qb_entries, hInv.qb_first, hInv.rem_nodup⟩
        · intro g hg
          exact hInv.qp_plus g (by rw [hq]; simp [hg])
        · intro g hg
          exact hInv.qp_reach g (by rw [hq]; simp [hg])
        · intro g hg hgp
          rcases hInv.rem_plus_tracked g hg hgp with h | h
          · rw [hq] at h
            rcases List.mem_cons.mp h with h | h
            · subst h
              exact Or.inr hproc
            · exact Or.inl h
          · exact Or.inr h
        · intro g hg
          rcases hInv.seedp_tracked g hg with h | h
          · rw [hq] at h
            rcases List.mem_cons.mp h with h | h
            · rw [h]
              exact Or.inr hproc
            · exact Or.inl h
          · exact Or.inr h
      · rename_i hproc
        have hblast : blastOf grid seedB plus
            = gemsAt grid (plusCells grid plus.gridY plus.gridX) := by
          rw [blastOf, isBomb_of_isPlus hplus]
          simp only [Bool.false_eq_true, if_false, if_pos hplus]
        obtain ⟨hpb, hpp⟩ := fold_processed grid
          (plusCells grid plus.gridY plus.gridX)
          (ExpSt.mk st.toRemove st.bombsQueue rest st.bombsProcessed
            (st.plusesProcessed ++ [plus]))
        obtain ⟨exB, exP, hq1, hq2, hq3, hq4⟩ := fold_queues grid
          (plusCells grid plus.gridY plus.gridX)
          (ExpSt.mk st.toRemove st.bombsQueue rest st.bombsProcessed
            (st.plusesProcessed ++ [plus]))
        refine ⟨?_, ?_, ?_, ?_, ?_, ?_, ?_, ?_, ?_, ?_, ?_, ?_, ?_, ?_, ?_, ?_, ?_, ?_⟩
        · intro e he
          rw [hq1] at he
          rcases List.mem_append.mp he with h | h
          · exact hInv.qb_bomb e h
          · exact (hq3 e h).2.1
        · intro g hg
          rw [hq2] at hg
          rcases List.mem_append.mp hg with h | h
          · exact hInv.qp_plus g (by rw [hq]; simp [h])
          · exact (hq4 g h).1
        · intro g hg
          rw [hpb] at hg
          exact hInv.pb_bomb g hg
        · intro g hg
          rw [hpp] at hg
          rcases List.mem_append.mp hg with h | h
          · exact hInv.pp_plus g h
          · simp only [List.mem_singleton] at h
            exact h ▸ hplus
        · intro e he
          rw [hq1] at he
          rcases List.mem_append.mp he with h | h
          · exact hInv.qb_reach e h
          · refine Reachable.chain plus e.1 hreach ?_ ?_
            · rw [hblast]
              exact (hq3 e h).2.2
            · exact special_ne_of_isBomb (hq3 e h).2.1
        · intro g hg
          rw [hq2] at hg
          rcases List.mem_append.mp hg with h | h
          · exact hInv.qp_reach g (by rw [hq]; simp [h])
          · refine Reachable.chain plus g hreach ?_ ?_
            · rw [hblast]
              exact (hq4 g h).2
            · exact special_ne_of_isPlus (hq4 g h).1
        · intro g hg
          rw [hpb] at hg
          exact hInv.pb_reach g hg
        · intro g hg
          rw [hpp] at hg
          rcases List.mem_append.mp hg with h | h
          · exact hInv.pp_reach g h
          · simp only [List.mem_singleton] at h
            exact h ▸ hreach
        · intro g hg
          rcases fold_toRemove_orig grid _ _ g hg with h | h
          · exact hInv.rem_sound g h
          · exact ⟨plus, hreach, by rw [hblast]; exact h⟩
        · intro t ht g hg
          rw [hpb] at ht
          exact fold_toRemove_mono grid _ _ g (hInv.pb_blast t ht g hg)
        · intro t ht g hg
          rw [hpp] at ht
          rcases List.mem_append.mp ht with h | h
          · exact fold_toRemove_mono grid _ _ g (hInv.pp_blast t h g hg)
          · simp only [List.mem_singleton] at h
            subst h
            rw [hblast] at hg
            obtain ⟨rc, hrc, hgg⟩ := mem_gemsAt.mp hg
            exact fold_covers grid _ _ rc g hrc hgg
        · refine fold_tracked_bomb grid _ _ ?_
          intro x hx hxb
          exact hInv.rem_bomb_tracked x hx hxb
        · refine fold_tracked_plus grid _ _ ?_
          intro x hx hxp
          rcases hInv.rem_plus_tracked x hx hxp with h | h
          · rw [hq] at h
            rcases List.mem_cons.mp h with h | h
            · subst h
              exact Or.inr (by simp)
            · exact Or.inl h
          · exact Or.inr (by simp [h])
        · intro e he
          rcases hInv.seedb_tracked e he with h | h
          · rw [hq1]
            refine Or.inl ?_
            obtain ⟨e2, he2, hee2⟩ := List.mem_map.mp h
            exact List.mem_map.mpr ⟨e2, by simp [he2], hee2⟩
          · rw [hpb]
            exact Or.inr h
        · intro g hg
          rcases hInv.seedp_tracked g hg with h | h
          · rw [hq] at h
            rcases List.mem_cons.mp h with h | h
            · rw [hpp, h]
              exact Or.inr (by simp)
            · rw [hq2]
              exact Or.inl (by simp [h])
          · rw [hpp]
            exact Or.inr (by simp [h])
        · intro e he
          rw [hq1] at he
          rcases List.mem_append.mp he with h | h
          · exact hInv.qb_entries e h
          · exact Or.inr (hq3 e h).1
        · intro g hgp hseed
          rw [hpb] at hgp
          have hfold := hInv.qb_first g hgp hseed
          obtain ⟨e0, he0⟩ := seed_find_isSome hseed
          rw [hq1, List.find?_append]
          dsimp only
          rw [hfold, he0]
          simp
        · exact fold_nodup grid _ _ hInv.rem_nodup

theorem expRun_inv (grid : Grid) (seedB : List (Gem × Nat)) (seedP : List Gem)
    (pick : ExpSt → Bool) :
    ∀ (fuel : Nat) (st : ExpSt), ExpInv grid seedB seedP st →
      ExpInv grid seedB seedP (expRun grid pick fuel st) := by
  intro fuel
  induction fuel with
  | zero => intro st h; exact h
  | succ n ih =>
    intro st h
    rw [expRun]
    split
    · exact h
    · exact ih _ (expStep_inv grid seedB seedP pick st h)

theorem expInv_done_reach_processed (grid : Grid) (seedB : List (Gem × Nat))
    (seedP : List Gem) (st : ExpSt) (hInv : ExpInv grid seedB seedP st)
    (hdone : expDone st = true) :
    ∀ t, Reachable grid seedB seedP t →
      t ∈ st.bombsProcessed ∨ t ∈ st.plusesProcessed := by
  rw [expDone, Bool.and_eq_true, List.isEmpty_iff, List.isEmpty_iff] at hdone
  intro t ht
  induction ht with
  | bombSeed g r h =>
    rcases hInv.seedb_tracked (g, r) h with h2 | h2
    · rw [hdone.1] at h2
      simp at h2
    · exact Or.inl h2
  | plusSeed g h =>
    rcases hInv.seedp_tracked g h with h2 | h2
    · rw [hdone.2] at h2
      cases h2
    · exact Or.inr h2
  | chain s t hs hblast hsp ih =>
    have hrem : t ∈ st.toRemove := by
      rcases ih with h | h
      · exact hInv.pb_blast s h t hblast
      · exact hInv.pp_blast s h t hblast
    rcases special_trichotomy t with h | h | h
    · rcases hInv.rem_bomb_tracked t hrem h with h2 | h2
      · rw [hdone.1] at h2
        simp at h2
      · exact Or.inl h2
    · rcases hInv.rem_plus_tracked t hrem h with h2 | h2
      · rw [hdone.2] at h2
        cases h2
      · exact Or.inr h2
    · exact absurd h hsp

theorem expInv_done_char (grid : Grid) (seedB : List (Gem × Nat))
    (seedP : List Gem) (st : ExpSt) (hInv : ExpInv grid seedB seedP st)
    (hdone : expDone st = true) :
    ∀ g, g ∈ st.toRemove ↔
      ∃ t, Reachable grid seedB seedP t ∧ g ∈ blastOf grid seedB t := by
  intro g
  constructor
  · exact hInv.rem_sound g
  · rintro ⟨t, hreach, hblast⟩
    rcases expInv_done_reach_processed grid seedB seedP st hInv hdone t hreach
      with h | h
    · exact hInv.pb_blast t h g hblast
    · exact hInv.pp_blast t h g hblast

theorem expansion_characterization (grid : Grid) (pick : ExpSt → Bool)
    (seedB : List (Gem × Nat)) (seedP : List Gem)
    (hB : ∀ e ∈ seedB, e.1.isBomb = true) (hP : ∀ g ∈ seedP, g.isPlus = true) :
    expDone (processExplosionsPick grid pick seedB seedP) = true ∧
    (processExplosionsPick grid pick seedB seedP).toRemove.Nodup ∧
    ∀ g, g ∈ (processExplosionsPick grid pick seedB seedP).toRemove ↔
      ∃ t, Reachable grid seedB seedP t ∧ g ∈ blastOf grid seedB t := by
  have hdone := expRun_done grid pick (expMeasure grid (expInit seedB seedP) + 1)
    (expInit seedB seedP) (Nat.lt_succ_self _)
  have hInv := expRun_inv grid seedB seedP pick
    (expMeasure grid (expInit seedB seedP) + 1) (expInit seedB seedP)
    (expInv_init grid seedB seedP hB hP)
  exact ⟨hdone, hInv.rem_nodup,
    expInv_done_char grid seedB seedP _ hInv hdone⟩

/-- C3: for any seeded bomb/plus activations, the explosion worklist
terminates; its final removed set is duplicate-free and equals the union
of the blast areas of all transitively reachable special tiles — for
EVERY drain-order choice, so the result is independent of the
bombs-before-pluses order the source uses (`pick = fun _ => true`). -/
theorem c3_explosion_chain_characterization (grid : Grid)
    (seedB : List (Gem × Nat)) (seedP : List Gem)
    (hB : ∀ e ∈ seedB, e.1.isBomb = true) (hP : ∀ g ∈ seedP, g.isPlus = true) :
    (∀ pick, expDone (processExplosionsPick grid pick seedB seedP) = true) ∧
    (∀ pick, (processExplosionsPick grid pick seedB seedP).toRemove.Nodup) ∧
    (∀ pick g, g ∈ (processExplosionsPick grid pick seedB seedP).toRemove ↔
      ∃ t, Reachable grid seedB seedP t ∧ g ∈ blastOf grid seedB t) ∧
    (∀ pick1 pick2 g,
      g ∈ (processExplosionsPick grid pick1 seedB seedP).toRemove ↔
        g ∈ (processExplosionsPick grid pick2 seedB seedP).toRemove) ∧
    (grid.processExplosions seedB seedP).1
      = (processExplosionsPick grid (fun _ => true) seedB seedP).toRemove := by
  refine ⟨?_, ?_, ?_, ?_, rfl⟩
  · intro pick
    exact (expansion_characterization grid pick seedB seedP hB hP).1
  · intro pick
    exact (expansion_characterization grid pick seedB seedP hB hP).2.1
  · intro pick
    exact (expansion_characterization grid pick seedB seedP hB hP).2.2
  · intro pick1 pick2 g
    rw [(expansion_characterization grid pick1 seedB seedP hB hP).2.2 g,
      (expansion_characterization grid pick2 seedB seedP hB hP).2.2 g]

/-- Concrete instantiation of `c3_explosion_chain_characterization`: a
single seeded bomb on a 2×2 board. -/
theorem c3_explosion_chain_characterization_witness :
    (∀ pick, expDone (processExplosionsPick
      (mkGrid 4 [[(0, Special.sbomb), pg 1], [pg 1, pg 0]]) pick
      [(Gem.mk 0 0 0 Special.sbomb, 1)] []) = true) ∧
    (∀ pick, (processExplosionsPick
      (mkGrid 4 [[(0, Special.sbomb), pg 1], [pg 1, pg 0]]) pick
      [(Gem.mk 0 0 0 Special.sbomb, 1)] []).toRemove.Nodup) ∧
    (∀ pick g, g ∈ (processExplosionsPick
      (mkGrid 4 [[(0, Special.sbomb), pg 1], [pg 1, pg 0]]) pick
      [(Gem.mk 0 0 0 Special.sbomb, 1)] []).toRemove ↔
      ∃ t, Reachable (mkGrid 4 [[(0, Special.sbomb), pg 1], [pg 1, pg 0]])
        [(Gem.mk 0 0 0 Special.sbomb, 1)] [] t ∧
        g ∈ blastOf (mkGrid 4 [[(0, Special.sbomb), pg 1], [pg 1, pg 0]])
          [(Gem.mk 0 0 0 Special.sbomb, 1)] t) ∧
    (∀ pick1 pick2 g, g ∈ (processExplosionsPick
      (mkGrid 4 [[(0, Special.sbomb), pg 1], [pg 1, pg 0]]) pick1
      [(Gem.mk 0 0 0 Special.sbomb, 1)] []).toRemove ↔
      g ∈ (processExplosionsPick
        (mkGrid 4 [[(0, Special.sbomb), pg 1], [pg 1, pg 0]]) pick2
        [(Gem.mk 0 0 0 Special.sbomb, 1)] []).toRemove) ∧
    ((mkGrid 4 [[(0, Special.sbomb), pg 1], [pg 1, pg 0]]).processExplosions
      [(Gem.mk 0 0 0 Special.sbomb, 1)] []).1
      = (processExplosionsPick (mkGrid 4 [[(0, Special.sbomb), pg 1], [pg 1, pg 0]])
        (fun _ => true) [(Gem.mk 0 0 0 Special.sbomb, 1)] []).toRemove :=
  c3_explosion_chain_characterization
    (mkGrid 4 [[(0, Special.sbomb), pg 1], [pg 1, pg 0]])
    [(Gem.mk 0 0 0 Special.sbomb, 1)] [] (by decide) (by decide)

theorem normRad_one : normRad 1 = 1 := rfl

theorem mem_bombCells (cy cx radius : Nat) (rc : Int × Int) :
    rc ∈ bombCells cy cx radius ↔
      (cy : Int) - (radius : Int) ≤ rc.1 ∧ rc.1 ≤ (cy : Int) + (radius : Int) ∧
      (cx : Int) - (radius : Int) ≤ rc.2 ∧ rc.2 ≤ (cx : Int) + (radius : Int) := by
  obtain ⟨a, b⟩ := rc
  rw [bombCells]
  rw [List.mem_flatten]
  constructor
  · rintro ⟨row, hrow, hmem⟩
    rw [List.mem_map] at hrow
    obtain ⟨i, hi, rfl⟩ := hrow
    rw [List.mem_map] at hmem
    obtain ⟨j, hj, hpair⟩ := hmem
    rw [List.mem_range] at hi
    rw [List.mem_range] at hj
    rw [Prod.mk.injEq] at hpair
    obtain ⟨h1, h2⟩ := hpair
    omega
  · intro h
    refine ⟨_, List.mem_map.mpr ⟨(a - ((cy : Int) - (radius : Int))).toNat,
      List.mem_range.mpr (by omega), rfl⟩, ?_⟩
    rw [List.mem_map]
    refine ⟨(b - ((cx : Int) - (radius : Int))).toNat,
      List.mem_range.mpr (by omega), ?_⟩
    rw [Prod.mk.injEq]
    constructor <;> omega

theorem reachable_single_bomb (grid : Grid) (b : Gem)
    (hno : ∀ g ∈ blastOf grid [(b, 1)] b, g ≠ b → g.special = Special.snone) :
    ∀ t, Reachable grid [(b, 1)] [] t → t = b := by
  intro t ht
  induction ht with
  | bombSeed g r h =>
    rw [List.mem_singleton, Prod.mk.injEq] at h
    exact h.1
  | plusSeed g h => cases h
  | chain s t hs hblast hsp ih =>
    subst ih
    by_contra hne
    exact hsp (hno t hblast hne)

theorem seedRadius_single (b : Gem) (r : Nat) :
    seedRadius [(b, r)] b = normRad r := by
  rw [seedRadius]
  rw [List.find?_cons_of_pos _ (by simp)]

theorem blastOf_single_bomb (grid : Grid) (b : Gem) (hb : b.isBomb = true)
    (g : Gem) :
    g ∈ blastOf grid [(b, 1)] b ↔
      ∃ r c : Int, (b.gridY : Int) - 1 ≤ r ∧ r ≤ (b.gridY : Int) + 1 ∧
        (b.gridX : Int) - 1 ≤ c ∧ c ≤ (b.gridX : Int) + 1 ∧
        grid.getGemAt r c = some g := by
  rw [blastOf, if_pos hb, seedRadius_single, normRad_one]
  constructor
  · intro h
    obtain ⟨rc, hmem, hget⟩ := mem_gemsAt.mp h
    rw [mem_bombCells] at hmem
    exact ⟨rc.1, rc.2, by omega, by omega, by omega, by omega, hget⟩
  · rintro ⟨r, c, h1, h2, h3, h4, hget⟩
    exact mem_gemsAt.mpr ⟨(r, c),
      (mem_bombCells b.gridY b.gridX 1 (r, c)).mpr (by dsimp only; omega), hget⟩

/-- C4: activating a single radius-1 bomb with no other special in its
blast removes exactly the gems the board holds in the 3×3 neighborhood
of the bomb (clipped at edges, since out-of-bounds probes return no
gem), each at most once. -/
theorem c4_bomb_blast_clipping (grid : Grid) (b : Gem) (hb : b.isBomb = true)
    (hno : ∀ g ∈ blastOf grid [(b, 1)] b, g ≠ b → g.special = Special.snone) :
    (grid.processExplosions [(b, 1)] []).1.Nodup ∧
    ∀ g, g ∈ (grid.processExplosions [(b, 1)] []).1 ↔
      ∃ r c : Int, (b.gridY : Int) - 1 ≤ r ∧ r ≤ (b.gridY : Int) + 1 ∧
        (b.gridX : Int) - 1 ≤ c ∧ c ≤ (b.gridX : Int) + 1 ∧
        grid.getGemAt r c = some g := by
  have hchar := expansion_characterization grid (fun _ => true) [(b, 1)] []
    (by
      intro e he
      rw [List.mem_singleton] at he
      subst he
      exact hb)
    (by
      intro g hg
      cases hg)
  have heq : (grid.processExplosions [(b, 1)] []).1
      = (processExplosionsPick grid (fun _ => true) [(b, 1)] []).toRemove := rfl
  rw [heq]
  refine ⟨hchar.2.1, ?_⟩
  intro g
  rw [hchar.2.2 g]
  constructor
  · rintro ⟨t, hreach, hblast⟩
    have ht : t = b := reachable_single_bomb grid b hno t hreach
    rw [ht] at hblast
    exact (blastOf_single_bomb grid b hb g).mp hblast
  · intro h
    exact ⟨b, Reachable.bombSeed b 1 (by simp),
      (blastOf_single_bomb grid b hb g).mpr h⟩

/-- Concrete instantiation of `c4_bomb_blast_clipping`: a corner bomb on
a 3×3 board, showing the clipped 2×2 neighborhood. -/
theorem c4_bomb_blast_clipping_witness :
    ((mkGrid 4 [[(0, Special.sbomb), pg 1, pg 2], [pg 1, pg 2, pg 0],
      [pg 2, pg 0, pg 1]]).processExplosions
      [(Gem.mk 0 0 0 Special.sbomb, 1)] []).1.Nodup ∧
    ∀ g, g ∈ ((mkGrid 4 [[(0, Special.sbomb), pg 1, pg 2], [pg 1, pg 2, pg 0],
      [pg 2, pg 0, pg 1]]).processExplosions
      [(Gem.mk 0 0 0 Special.sbomb, 1)] []).1 ↔
      ∃ r c : Int, ((0 : Nat) : Int) - 1 ≤ r ∧ r ≤ ((0 : Nat) : Int) + 1 ∧
        ((0 : Nat) : Int) - 1 ≤ c ∧ c ≤ ((0 : Nat) : Int) + 1 ∧
        (mkGrid 4 [[(0, Special.sbomb), pg 1, pg 2], [pg 1, pg 2, pg 0],
          [pg 2, pg 0, pg 1]]).getGemAt r c = some g :=
  c4_bomb_blast_clipping
    (mkGrid 4 [[(0, Special.sbomb), pg 1, pg 2], [pg 1, pg 2, pg 0],
      [pg 2, pg 0, pg 1]])
    (Gem.mk 0 0 0 Special.sbomb) (by decide) (by decide)

theorem mem_plusCells (grid : Grid) (cy cx : Nat) (rc : Int × Int) :
    rc ∈ plusCells grid cy cx ↔
      (∃ col : Nat, col < grid.config.cols ∧ rc = ((cy : Int), (col : Int))) ∨
      (∃ row : Nat, row < grid.config.rows ∧ rc = ((row : Int), (cx : Int))) := by
  rw [plusCells, List.mem_append]
  constructor
  · rintro (h | h)
    · obtain ⟨col, hcol, rfl⟩ := List.mem_map.mp h
      exact Or.inl ⟨col, List.mem_range.mp hcol, rfl⟩
    · obtain ⟨row, hrow, rfl⟩ := List.mem_map.mp h
      exact Or.inr ⟨row, List.mem_range.mp hrow, rfl⟩
  · rintro (⟨col, hcol, rfl⟩ | ⟨row, hrow, rfl⟩)
    · exact Or.inl (List.mem_map.mpr ⟨col, List.mem_range.mpr hcol, rfl⟩)
    · exact Or.inr (List.mem_map.mpr ⟨row, List.mem_range.mpr hrow, rfl⟩)

theorem reachable_single_plus (grid : Grid) (p : Gem)
    (hno : ∀ g ∈ blastOf grid [] p, g ≠ p → g.special = Special.snone) :
    ∀ t, Reachable grid [] [p] t → t = p := by
  intro t ht
  induction ht with
  | bombSeed g r h => cases h
  | plusSeed g h =>
    rw [List.mem_singleton] at h
    exact h
  | chain s t hs hblast hsp ih =>
    subst ih
    by_contra hne
    exact hsp (hno t hblast hne)

theorem blastOf_single_plus (grid : Grid) (p : Gem) (hp : p.isPlus = true)
    (g : Gem) :
    g ∈ blastOf grid [] p ↔
      (∃ col : Nat, col < grid.config.cols ∧
        grid.getGemAt (p.gridY : Int) (col : Int) = some g) ∨
      (∃ row : Nat, row < grid.config.rows ∧
        grid.getGemAt (row : Int) (p.gridX : Int) = some g) := by
  have hblast : blastOf grid [] p
      = gemsAt grid (plusCells grid p.gridY p.gridX) := by
    rw [blastOf, isBomb_of_isPlus hp]
    simp only [Bool.false_eq_true, if_false, if_pos hp]
  rw [hblast]
  constructor
  · intro h
    obtain ⟨rc, hmem, hget⟩ := mem_gemsAt.mp h
    rcases (mem_plusCells grid p.gridY p.gridX rc).mp hmem with
      ⟨col, hcol, rfl⟩ | ⟨row, hrow, rfl⟩
    · exact Or.inl ⟨col, hcol, hget⟩
    · exact Or.inr ⟨row, hrow, hget⟩
  · rintro (⟨col, hcol, hget⟩ | ⟨row, hrow, hget⟩)
    · exact mem_gemsAt.mpr ⟨((p.gridY : Int), (col : Int)),
        (mem_plusCells grid p.gridY p.gridX _).mpr (Or.inl ⟨col, hcol, rfl⟩), hget⟩
    · exact mem_gemsAt.mpr ⟨((row : Int), (p.gridX : Int)),
        (mem_plusCells grid p.gridY p.gridX _).mpr (Or.inr ⟨row, hrow, rfl⟩), hget⟩

theorem mem_explodePlusAtG (grid : Grid) (p : Gem) (g : Gem) :
    g ∈ (explodePlusAtG grid p).1 ↔
      (∃ col : Nat, col < grid.config.cols ∧
        grid.getGemAt (p.gridY : Int) (col : Int) = some g) ∨
      (∃ row : Nat, row < grid.config.rows ∧
        grid.getGemAt (row : Int) (p.gridX : Int) = some g) := by
  rw [explodePlusAtG]
  dsimp only
  rw [mem_jsDedup, List.mem_append]
  constructor
  · rintro (h | h)
    · obtain ⟨col, hcol, hget⟩ := List.mem_filterMap.mp h
      exact Or.inl ⟨col, List.mem_range.mp hcol, hget⟩
    · obtain ⟨row, hrow, hget⟩ := List.mem_filterMap.mp h
      exact Or.inr ⟨row, List.mem_range.mp hrow, hget⟩
  · rintro (⟨col, hcol, hget⟩ | ⟨row, hrow, hget⟩)
    · exact Or.inl (List.mem_filterMap.mpr ⟨col, List.mem_range.mpr hcol, hget⟩)
    · exact Or.inr (List.mem_filterMap.mpr ⟨row, List.mem_range.mpr hrow, hget⟩)

/-- C5: a single plus with no other special in its row or column removes,
on both the direct `explodePlusAt` path and the queued `processExplosions`
path, exactly the gems the board holds in its row and column, each at most
once (the plus's own cell, shared by the row and the column, is
de-duplicated), and the direct path awards 20 points per unique removed
gem. -/
theorem c5_plus_cross (grid : Grid) (p : Gem) (hp : p.isPlus = true)
    (hno : ∀ g ∈ blastOf grid [] p, g ≠ p → g.special = Special.snone) :
    (explodePlusAtG grid p).1.Nodup ∧
    (explodePlusAtG grid p).2 = (explodePlusAtG grid p).1.length * 20 ∧
    (∀ g, g ∈ (explodePlusAtG grid p).1 ↔
      (∃ col : Nat, col < grid.config.cols ∧
        grid.getGemAt (p.gridY : Int) (col : Int) = some g) ∨
      (∃ row : Nat, row < grid.config.rows ∧
        grid.getGemAt (row : Int) (p.gridX : Int) = some g)) ∧
    (grid.processExplosions [] [p]).1.Nodup ∧
    (∀ g, g ∈ (grid.processExplosions [] [p]).1 ↔
      (∃ col : Nat, col < grid.config.cols ∧
        grid.getGemAt (p.gridY : Int) (col : Int) = some g) ∨
      (∃ row : Nat, row < grid.config.rows ∧
        grid.getGemAt (row : Int) (p.gridX : Int) = some g)) := by
  have hchar := expansion_characterization grid (fun _ => true) [] [p]
    (by
      intro e he
      cases he)
    (by
      intro g hg
      rw [List.mem_singleton] at hg
      subst hg
      exact hp)
  have heq : (grid.processExplosions [] [p]).1
      = (processExplosionsPick grid (fun _ => true) [] [p]).toRemove := rfl
  refine ⟨jsDedup_nodup _, rfl, mem_explodePlusAtG grid p, ?_, ?_⟩
  · rw [heq]
    exact hchar.2.1
  · intro g
    rw [heq, hchar.2.2 g]
    constructor
    · rintro ⟨t, hreach, hblast⟩
      have ht : t = p := reachable_single_plus grid p hno t hreach
      rw [ht] at hblast
      exact (blastOf_single_plus grid p hp g).mp hblast
    · intro h
      exact ⟨p, Reachable.plusSeed p (by simp),
        (blastOf_single_plus grid p hp g).mpr h⟩

/-- Concrete instantiation of `c5_plus_cross`: a centre plus on a 3×3
board removes the five distinct row/column gems once each. -/
theorem c5_plus_cross_witness :
    ((explodePlusAtG (mkGrid 4 [[pg 0, pg 1, pg 2], [pg 1, (2, Special.splus),
      pg 0], [pg 2, pg 0, pg 1]]) (Gem.mk 2 1 1 Special.splus)).1.Nodup ∧
    (explodePlusAtG (mkGrid 4 [[pg 0, pg 1, pg 2], [pg 1, (2, Special.splus),
      pg 0], [pg 2, pg 0, pg 1]]) (Gem.mk 2 1 1 Special.splus)).2
      = (explodePlusAtG (mkGrid 4 [[pg 0, pg 1, pg 2], [pg 1,
        (2, Special.splus), pg 0], [pg 2, pg 0, pg 1]])
        (Gem.mk 2 1 1 Special.splus)).1.length * 20 ∧
    (∀ g, g ∈ (explodePlusAtG (mkGrid 4 [[pg 0, pg 1, pg 2], [pg 1,
      (2, Special.splus), pg 0], [pg 2, pg 0, pg 1]])
      (Gem.mk 2 1 1 Special.splus)).1 ↔
      (∃ col : Nat, col < (mkGrid 4 [[pg 0, pg 1, pg 2], [pg 1,
        (2, Special.splus), pg 0], [pg 2, pg 0, pg 1]]).config.cols ∧
        (mkGrid 4 [[pg 0, pg 1, pg 2], [pg 1, (2, Special.splus), pg 0],
          [pg 2, pg 0, pg 1]]).getGemAt ((1 : Nat) : Int) (col : Int) = some g) ∨
      (∃ row : Nat, row < (mkGrid 4 [[pg 0, pg 1, pg 2], [pg 1,
        (2, Special.splus), pg 0], [pg 2, pg 0, pg 1]]).config.rows ∧
        (mkGrid 4 [[pg 0, pg 1, pg 2], [pg 1, (2, Special.splus), pg 0],
          [pg 2, pg 0, pg 1]]).getGemAt (row : Int) ((1 : Nat) : Int) = some g)) ∧
    ((mkGrid 4 [[pg 0, pg 1, pg 2], [pg 1, (2, Special.splus), pg 0],
      [pg 2, pg 0, pg 1]]).processExplosions [] [Gem.mk 2 1 1 Special.splus]).1.Nodup ∧
    (∀ g, g ∈ ((mkGrid 4 [[pg 0, pg 1, pg 2], [pg 1, (2, Special.splus), pg 0],
      [pg 2, pg 0, pg 1]]).processExplosions []
      [Gem.mk 2 1 1 Special.splus]).1 ↔
      (∃ col : Nat, col < (mkGrid 4 [[pg 0, pg 1, pg 2], [pg 1,
        (2, Special.splus), pg 0], [pg 2, pg 0, pg 1]]).config.cols ∧
        (mkGrid 4 [[pg 0, pg 1, pg 2], [pg 1, (2, Special.splus), pg 0],
          [pg 2, pg 0, pg 1]]).getGemAt ((1 : Nat) : Int) (col : Int) = some g) ∨
      (∃ row : Nat, row < (mkGrid 4 [[pg 0, pg 1, pg 2], [pg 1,
        (2, Special.splus), pg 0], [pg 2, pg 0, pg 1]]).config.rows ∧
        (mkGrid 4 [[pg 0, pg 1, pg 2], [pg 1, (2, Special.splus), pg 0],
          [pg 2, pg 0, pg 1]]).getGemAt (row : Int) ((1 : Nat) : Int) = some g))) :=
  c5_plus_cross
    (mkGrid 4 [[pg 0, pg 1, pg 2], [pg 1, (2, Special.splus), pg 0],
      [pg 2, pg 0, pg 1]])
    (Gem.mk 2 1 1 Special.splus) (by decide) (by decide)

/-- No horizontal run of three equal types anywhere on the board. -/
def NoTripleH (g : Grid) : Prop :=
  ∀ r c a b c2, g.cell r c = some a → g.cell r (c + 1) = some b →
    g.cell r (c + 2) = some c2 → ¬(a.type = b.type ∧ b.type = c2.type)

/-- No vertical run of three equal types anywhere on the board. -/
def NoTripleV (g : Grid) : Prop :=
  ∀ r c a b c2, g.cell r c = some a → g.cell (r + 1) c = some b →
    g.cell (r + 2) c = some c2 → ¬(a.type = b.type ∧ b.type = c2.type)

theorem scanRowAux_empty (g : Grid) (hH : NoTripleH g) (row : Nat) :
    ∀ fuel col, scanRowAux g row col fuel = [] := by
  intro fuel
  induction fuel with
  | zero => intro col; rfl
  | succ n ih =>
    intro col
    rw [scanRowAux]
    split
    · cases ha : g.cell row col with
      | none =>
        simp only [ha]
        exact ih _
      | some a =>
        cases hb : g.cell row (col + 1) with
        | none =>
          simp only [ha, hb]
          exact ih _
        | some b =>
          cases hc : g.cell row (col + 2) with
          | none =>
            simp only [ha, hb, hc]
            exact ih _
          | some c2 =>
            simp only [ha, hb, hc]
            rw [if_neg (hH row col a b c2 ha hb hc)]
            exact ih _
    · rfl

theorem scanColAux_empty (g : Grid) (hV : NoTripleV g) (col : Nat) :
    ∀ fuel row, scanColAux g col row fuel = [] := by
  intro fuel
  induction fuel with
  | zero => intro row; rfl
  | succ n ih =>
    intro row
    rw [scanColAux]
    split
    · cases ha : g.cell row col with
      | none =>
        simp only [ha]
        exact ih _
      | some a =>
        cases hb : g.cell (row + 1) col with
        | none =>
          simp only [ha, hb]
          exact ih _
        | some b =>
          cases hc : g.cell (row + 2) col with
          | none =>
            simp only [ha, hb, hc]
            exact ih _
          | some c2 =>
            simp only [ha, hb, hc]
            rw [if_neg (hV row col a b c2 ha hb hc)]
            exact ih _
    · rfl

theorem findMatches_empty (g : Grid) (hH : NoTripleH g) (hV : NoTripleV g) :
    g.findMatches = [] := by
  rw [Grid.findMatches]
  rw [List.append_eq_nil]
  constructor
  · rw [List.flatten_eq_nil_iff]
    intro xs hxs
    obtain ⟨row, hrow, hx⟩ := List.mem_map.mp hxs
    rw [← hx]
    exact scanRowAux_empty g hH row _ 0
  · rw [List.flatten_eq_nil_iff]
    intro xs hxs
    obtain ⟨col, hcol, hx⟩ := List.mem_map.mp hxs
    rw [← hx]
    exact scanColAux_empty g hV col _ 0

theorem cell_some_cfg_bounds {g : Grid} (hs : Shaped g) {r c : Nat} {x : Gem}
    (h : g.cell r c = some x) : r < g.config.rows ∧ c < g.config.cols := by
  obtain ⟨h1, h2⟩ := cell_some_bounds h
  rw [hs.1] at h1
  rw [hs.2 r h1] at h2
  exact ⟨h1, h2⟩

/-- Row-major frontier of `initializeGrid`: the cells strictly before
position `(row, col)` are occupied, the cells at or after it are empty. -/
def FilledBelow (g : Grid) (row col : Nat) : Prop :=
  ∀ r c, r < g.config.rows → c < g.config.cols →
    (((r < row ∨ (r = row ∧ c < col)) → (g.cell r c).isSome = true) ∧
     ((row < r ∨ (r = row ∧ col ≤ c)) → g.cell r c = none))

theorem filledBelow_empty (g : Grid)
    (hempty : ∀ r, r < g.config.rows → ∀ c, c < g.config.cols →
      g.cell r c = none) :
    FilledBelow g 0 0 := by
  intro r c hr hc
  constructor
  · intro h
    exfalso
    rcases h with h | ⟨h1, h2⟩ <;> omega
  · intro _
    exact hempty r hr c hc

theorem filledBelow_step_row (g : Grid) (row : Nat)
    (h : FilledBelow g row g.config.cols) : FilledBelow g (row + 1) 0 := by
  intro r c hr hc
  obtain ⟨h1, h2⟩ := h r c hr hc
  constructor
  · intro hcase
    apply h1
    rcases hcase with hlt | ⟨he, hc0⟩
    · rcases Nat.lt_or_ge r row with h3 | h3
      · exact Or.inl h3
      · exact Or.inr ⟨by omega, hc⟩
    · omega
  · intro hcase
    apply h2
    rcases hcase with hlt | ⟨he, _⟩
    · exact Or.inl (by omega)
    · exact Or.inl (by omega)

theorem noTripleH_of_none (g : Grid) (hs : Shaped g)
    (hempty : ∀ r, r < g.config.rows → ∀ c, c < g.config.cols →
      g.cell r c = none) :
    NoTripleH g := by
  intro r c a b c2 ha _ _
  obtain ⟨h1, h2⟩ := cell_some_cfg_bounds hs ha
  rw [hempty r h1 c h2] at ha
  exact Option.noConfusion ha

theorem noTripleV_of_none (g : Grid) (hs : Shaped g)
    (hempty : ∀ r, r < g.config.rows → ∀ c, c < g.config.cols →
      g.cell r c = none) :
    NoTripleV g := by
  intro r c a b c2 ha _ _
  obtain ⟨h1, h2⟩ := cell_some_cfg_bounds hs ha
  rw [hempty r h1 c h2] at ha
  exact Option.noConfusion ha

theorem initPlace_inv (g : Grid) (row col ty : Nat) (hs : Shaped g)
    (hrow : row < g.config.rows) (hcol : col < g.config.cols)
    (hfb : FilledBelow g row col) (hH : NoTripleH g) (hV : NoTripleV g)
    (hwm : g.wouldCreateMatch row col ty = false) :
    Shaped (g.createGemAt row col ty Special.snone).1 ∧
    FilledBelow (g.createGemAt row col ty Special.snone).1 row (col + 1) ∧
    NoTripleH (g.createGemAt row col ty Special.snone).1 ∧
    NoTripleV (g.createGemAt row col ty Special.snone).1 := by
  have hr' : row < g.gems.length := by
    rw [hs.1]
    exact hrow
  have hc' : col < (g.gems.getD row []).length := by
    rw [hs.2 row hrow]
    exact hcol
  have hcell : ∀ r c, (g.createGemAt row col ty Special.snone).1.cell r c
      = if row = r ∧ col = c then some (Gem.mk ty col row Special.snone)
        else g.cell r c := by
    intro r c
    exact cell_setCell_inb hr' hc' _ r c
  have hcfg : (g.createGemAt row col ty Special.snone).1.config = g.config := rfl
  have hHc : ¬ 3 ≤ 1 + hCountLeft g row ty col
      + hCountRight g row ty (col + 1) g.config.cols := by
    intro h3
    have hsplit := hwm
    simp only [Grid.wouldCreateMatch] at hsplit
    rw [if_pos h3] at hsplit
    exact Bool.noConfusion hsplit
  have hVc : ¬ 3 ≤ 1 + vCountUp g col ty row
      + vCountDown g col ty (row + 1) g.config.rows := by
    intro h3
    have hsplit := hwm
    simp only [Grid.wouldCreateMatch] at hsplit
    split at hsplit
    · exact Bool.noConfusion hsplit
    · exact absurd h3 (of_decide_eq_false hsplit)
  refine ⟨shaped_setCell hs row col _, ?_, ?_, ?_⟩
  · intro r c hr hc
    rw [hcfg] at hr hc
    constructor
    · intro h
      rw [hcell]
      split
      · rfl
      · rename_i hne
        apply (hfb r c hr hc).1
        rcases h with h | ⟨he, hlt⟩
        · exact Or.inl h
        · subst he
          refine Or.inr ⟨rfl, ?_⟩
          rcases Nat.lt_or_ge c col with h2 | h2
          · exact h2
          · exact absurd ⟨rfl, by omega⟩ hne
    · intro h
      rw [hcell]
      split
      · rename_i hpos
        exfalso
        obtain ⟨h1, h2⟩ := hpos
        rcases h with h | ⟨he, hle⟩ <;> omega
      · apply (hfb r c hr hc).2
        rcases h with h | ⟨he, hle⟩
        · exact Or.inl h
        · exact Or.inr ⟨he, by omega⟩
  · intro r c a b c2 ha hb hc habc
    obtain ⟨hab, hbc⟩ := habc
    rw [hcell] at ha hb hc
    by_cases hA : row = r ∧ col = c
    · obtain ⟨hA1, hA2⟩ := hA
      rw [if_neg (by rintro ⟨-, h2⟩; omega)] at hb
      obtain ⟨hbr, hbc2⟩ := cell_some_cfg_bounds hs hb
      rw [(hfb r (c + 1) hbr hbc2).2 (Or.inr ⟨hA1.symm, by omega⟩)] at hb
      exact Option.noConfusion hb
    · by_cases hB : row = r ∧ col = c + 1
      · obtain ⟨hB1, hB2⟩ := hB
        rw [if_neg (by rintro ⟨-, h2⟩; omega)] at hc
        obtain ⟨hcr, hcc⟩ := cell_some_cfg_bounds hs hc
        rw [(hfb r (c + 2) hcr hcc).2 (Or.inr ⟨hB1.symm, by omega⟩)] at hc
        exact Option.noConfusion hc
      · by_cases hC : row = r ∧ col = c + 2
        · obtain ⟨hC1, hC2⟩ := hC
          rw [if_pos ⟨hC1, hC2⟩] at hc
          rw [if_neg (by rintro ⟨-, h2⟩; omega)] at ha
          rw [if_neg (by rintro ⟨-, h2⟩; omega)] at hb
          have hc2ty : c2.type = ty := by
            have h0 := Option.some.inj hc
            rw [← h0]
          have hbty : b.type = ty := by rw [hbc, hc2ty]
          have haty : a.type = ty := by rw [hab, hbty]
          apply hHc
          rw [hC1, hC2]
          have e1 : hCountLeft g r ty (c + 2) = hCountLeft g r ty (c + 1) + 1 := by
            show hCountLeft g r ty (c + 1 + 1) = hCountLeft g r ty (c + 1) + 1
            rw [hCountLeft]
            simp only [hb, hbty, if_true]
          have e2 : 1 ≤ hCountLeft g r ty (c + 1) := by
            rw [hCountLeft]
            simp only [ha, haty, if_true]
            omega
          omega
        · rw [if_neg hA] at ha
          rw [if_neg hB] at hb
          rw [if_neg hC] at hc
          exact hH r c a b c2 ha hb hc ⟨hab, hbc⟩
  · intro r c a b c2 ha hb hc habc
    obtain ⟨hab, hbc⟩ := habc
    rw [hcell] at ha hb hc
    by_cases hA : row = r ∧ col = c
    · obtain ⟨hA1, hA2⟩ := hA
      rw [if_neg (by rintro ⟨h1, -⟩; omega)] at hb
      obtain ⟨hbr, hbc2⟩ := cell_some_cfg_bounds hs hb
      rw [(hfb (r + 1) c hbr hbc2).2 (Or.inl (by omega))] at hb
      exact Option.noConfusion hb
    · by_cases hB : row = r + 1 ∧ col = c
      · obtain ⟨hB1, hB2⟩ := hB
        rw [if_neg (by rintro ⟨h1, -⟩; omega)] at hc
        obtain ⟨hcr, hcc⟩ := cell_some_cfg_bounds hs hc
        rw [(hfb (r + 2) c hcr hcc).2 (Or.inl (by omega))] at hc
        exact Option.noConfusion hc
      · by_cases hC : row = r + 2 ∧ col = c
        · obtain ⟨hC1, hC2⟩ := hC
          rw [if_pos ⟨hC1, hC2⟩] at hc
          rw [if_neg (by rintro ⟨h1, -⟩; omega)] at ha
          rw [if_neg (by rintro ⟨h1, -⟩; omega)] at hb
          have hc2ty : c2.type = ty := by
            have h0 := Option.some.inj hc
            rw [← h0]
          have hbty : b.type = ty := by rw [hbc, hc2ty]
          have haty : a.type = ty := by rw [hab, hbty]
          apply hVc
          rw [hC1, hC2]
          have e1 : vCountUp g c ty (r + 2) = vCountUp g c ty (r + 1) + 1 := by
            show vCountUp g c ty (r + 1 + 1) = vCountUp g c ty (r + 1) + 1
            rw [vCountUp]
            simp only [hb, hbty, if_true]
          have e2 : 1 ≤ vCountUp g c ty (r + 1) := by
            rw [vCountUp]
            simp only [ha, haty, if_true]
            omega
          omega
        · rw [if_neg hA] at ha
          rw [if_neg hB] at hb
          rw [if_neg hC] at hc
          exact hV r c a b c2 ha hb hc ⟨hab, hbc⟩

/-- Invariant carried through the `initializeGrid` folds: fixed
configuration, well-shaped board, row-major frontier at `(row, col)`,
and no run of three anywhere. -/
def InitInv (cfg : GridConfig) (row col : Nat) (acc : Grid × Rng × Bool) : Prop :=
  acc.1.config = cfg ∧ Shaped acc.1 ∧ FilledBelow acc.1 row col ∧
    NoTripleH acc.1 ∧ NoTripleV acc.1

theorem initCell_flag_mono (row : Nat) (acc : Grid × Rng × Bool) (col : Nat)
    (h : acc.2.2 = true) : (initCell row acc col).2.2 = true := by
  rw [initCell]
  dsimp only
  rw [h]
  rfl

theorem initCell_inv (cfg : GridConfig) (row col : Nat) (acc : Grid × Rng × Bool)
    (hrow : row < cfg.rows) (hcol : col < cfg.cols)
    (hinv : InitInv cfg row col acc)
    (hflag : (initCell row acc col).2.2 = false) :
    InitInv cfg row (col + 1) (initCell row acc col) := by
  obtain ⟨hcfg, hs, hfb, hH, hV⟩ := hinv
  have hwm : acc.1.wouldCreateMatch row col
      (retryDraw acc.1 row col (acc.1.getRandomGemType acc.2.1).1
        (acc.1.getRandomGemType acc.2.1).2 10).1 = false := by
    rw [initCell] at hflag
    dsimp only at hflag
    exact (Bool.or_eq_false_iff.mp hflag).2
  have hstep := initPlace_inv acc.1 row col
    (retryDraw acc.1 row col (acc.1.getRandomGemType acc.2.1).1
      (acc.1.getRandomGemType acc.2.1).2 10).1 hs
    (by rw [hcfg]; exact hrow) (by rw [hcfg]; exact hcol) hfb hH hV hwm
  exact ⟨hcfg, hstep.1, hstep.2.1, hstep.2.2.1, hstep.2.2.2⟩

theorem initRow_fold_inv (cfg : GridConfig) (row : Nat) (hrow : row < cfg.rows) :
    ∀ (len start : Nat), start + len ≤ cfg.cols →
      ∀ acc : Grid × Rng × Bool, InitInv cfg row start acc →
        ((List.range' start len).foldl (initCell row) acc).2.2 = false →
        InitInv cfg row (start + len)
          ((List.range' start len).foldl (initCell row) acc) := by
  intro len
  induction len with
  | zero =>
    intro start h acc hinv hflag
    simpa using hinv
  | succ n ih =>
    intro start h acc hinv hflag
    rw [List.range'_succ] at hflag ⊢
    rw [List.foldl_cons] at hflag ⊢
    have hstep_flag : (initCell row acc start).2.2 = false := by
      cases hx : (initCell row acc start).2.2 with
      | false => rfl
      | true =>
        have htrue := foldl_preserve
          (P := fun (x : Grid × Rng × Bool) => x.2.2 = true)
          (fun x b hx2 => initCell_flag_mono row x b hx2)
          (List.range' (start + 1) n) (initCell row acc start) hx
        rw [htrue] at hflag
        exact Bool.noConfusion hflag
    have hinv' := initCell_inv cfg row start acc hrow (by omega) hinv hstep_flag
    have hres := ih (start + 1) (by omega) (initCell row acc start) hinv' hflag
    have heq : start + (n + 1) = start + 1 + n := by omega
    rw [heq]
    exact hres

theorem init_rows_fold_inv (cfg : GridConfig) :
    ∀ (len start : Nat), start + len ≤ cfg.rows →
      ∀ acc : Grid × Rng × Bool, InitInv cfg start 0 acc →
        ((List.range' start len).foldl
          (fun a row => (List.range cfg.cols).foldl (initCell row) a)
          acc).2.2 = false →
        InitInv cfg (start + len) 0
          ((List.range' start len).foldl
            (fun a row => (List.range cfg.cols).foldl (initCell row) a) acc) := by
  intro len
  induction len with
  | zero =>
    intro start h acc hinv hflag
    simpa using hinv
  | succ n ih =>
    intro start h acc hinv hflag
    rw [List.range'_succ] at hflag ⊢
    rw [List.foldl_cons] at hflag ⊢
    have hrow : start < cfg.rows := by omega
    have hstep_flag : ((List.range cfg.cols).foldl (initCell start) acc).2.2
        = false := by
      cases hx : ((List.range cfg.cols).foldl (initCell start) acc).2.2 with
      | false => rfl
      | true =>
        have htrue := foldl_preserve
          (P := fun (x : Grid × Rng × Bool) => x.2.2 = true)
          (fun x b hx2 => foldl_preserve
            (P := fun (y : Grid × Rng × Bool) => y.2.2 = true)
            (fun y b2 hy => initCell_flag_mono b y b2 hy)
            (List.range cfg.cols) x hx2)
          (List.range' (start + 1) n) _ hx
        rw [htrue] at hflag
        exact Bool.noConfusion hflag
    have hflag0 : ((List.range' 0 cfg.cols).foldl (initCell start) acc).2.2
        = false := by
      rw [← List.range_eq_range']
      exact hstep_flag
    have hinner0 := initRow_fold_inv cfg start hrow cfg.cols 0 (by omega) acc
      hinv hflag0
    simp only [Nat.zero_add] at hinner0
    rw [← List.range_eq_range'] at hinner0
    have hnext : InitInv cfg (start + 1) 0
        ((List.range cfg.cols).foldl (initCell start) acc) := by
      obtain ⟨hc1, hc2, hc3, hc4, hc5⟩ := hinner0
      have hfb' : FilledBelow ((List.range cfg.cols).foldl (initCell start) acc).1
          start ((List.range cfg.cols).foldl (initCell start) acc).1.config.cols := by
        rw [hc1]
        exact hc3
      exact ⟨hc1, hc2, filledBelow_step_row _ start hfb', hc4, hc5⟩
    have hres := ih (start + 1) (by omega) _ hnext hflag
    have heq : start + (n + 1) = start + 1 + n := by omega
    rw [heq]
    exact hres

/-- C8: every board produced by `initializeGrid` from an empty well-shaped
grid contains no match, whenever the bounded-retry fallback was never
exercised (the returned flag records a cell that kept completing a run
after 10 redraws and was accepted anyway, the documented exception). -/
theorem c8_no_spontaneous_matches (g : Grid) (rng : Rng) (hs : Shaped g)
    (hempty : ∀ r, r < g.config.rows → ∀ c, c < g.config.cols →
      g.cell r c = none)
    (hfb : (g.initializeGrid rng).2.2 = false) :
    (g.initializeGrid rng).1.findMatches = [] := by
  have hinit : InitInv g.config 0 0 (g, rng, false) :=
    ⟨rfl, hs, filledBelow_empty g hempty, noTripleH_of_none g hs hempty,
      noTripleV_of_none g hs hempty⟩
  have hflag0 : ((List.range' 0 g.config.rows).foldl
      (fun a row => (List.range g.config.cols).foldl (initCell row) a)
      (g, rng, false)).2.2 = false := by
    rw [← List.range_eq_range']
    exact hfb
  have hres := init_rows_fold_inv g.config g.config.rows 0 (by omega)
    (g, rng, false) hinit hflag0
  rw [← List.range_eq_range'] at hres
  exact findMatches_empty _ hres.2.2.2.1 hres.2.2.2.2

/-- Concrete instantiation of `c8_no_spontaneous_matches`: a 2×2 board
initialized from the identity stream draws no match. -/
theorem c8_no_spontaneous_matches_witness :
    ((Grid.mk (GridConfig.mk 2 2 4) [[none, none], [none, none]]).initializeGrid
      (Rng.mk (fun n => n) 0)).1.findMatches = [] :=
  c8_no_spontaneous_matches
    (Grid.mk (GridConfig.mk 2 2 4) [[none, none], [none, none]])
    (Rng.mk (fun n => n) 0) ⟨rfl, by decide⟩ (by decide) (by decide)
